import Mathlib

/-!
# SandBot dashboard: session engine

A verification development over `src/components/SandBotDashboard.jsx`.

The component is a React function component.  Its `useState` values are the
fields of `State`; a function defined inside the component body (`pollStatus`,
`handlePlayPause`, ...) is a closure over the state values of the render that
created it, so every such function takes the `State` of that render as its first
argument.  Setters act on the live state of the `World`.

JavaScript values are modelled as follows.
* A number is a `JsNum`: NaN, the two infinities, or a finite value, which is
  kept as an exact rational (the sign of zero is not modelled).  Arithmetic is
  exact, except where the rounding to binary64 is written out with
  `roundBinary64`, as in `formatDrawingTimeBinary64`.
* A field of a JSON object is a `JsVal`: a scalar, or `undefined` when the field
  is absent (fields that hold arrays or objects are not modelled).
* A `/status` payload is a JSON object, `JsObj`.
* The geometry (`calculateDrawingTime`) is over the real numbers, and
  `formatDrawingTime` over any ordered field with a floor: a division by zero,
  which the language answers with an infinity or NaN, is outside that model.
  `formatDrawingTimeBinary64` is the same function on binary64 numbers, its two
  quotients rounded as the language rounds them.
* The state variable `robotConfig` holds the values as stored (`JsRobotConfig`);
  `JsRobotConfig.toRobotConfig` is the config over the reals that
  `calculateDrawingTime` reads when the four values are finite numbers.
* A `/getsettings` payload is the nested record `SettingsData`, by the
  properties `fetchSettings` reads of it.
* The four variables behind the URL (`robotName`, `pollCycle`, `controlMode`,
  `wledAddress`) are the record `UrlSettings`, with `pollCycle` a `JsNum`; the
  query string is the list of name-value pairs of `URLSearchParams`.

An `async` function is split at its `await`: the part up to the request
(`pollStatus`, `playFile`, `fetchSettings`) and the part that runs when the
request settles (`pollStatusResume`, `playFileResume`, `fetchSettingsResume`).
-/

namespace SandBot

/-! ## JavaScript numbers and `Number(string)` -/

/-- A JavaScript number. -/
inductive JsNum where
  | nan
  | posInf
  | negInf
  | fin (q : ℚ)
  deriving DecidableEq

namespace JsNum

/-- The global `isNaN` on a number. -/
def isNaN : JsNum → Bool
  | nan => true
  | _ => false

/-- The check `Number.isFinite`: neither NaN nor an infinity. -/
def isFinite : JsNum → Bool
  | fin _ => true
  | _ => false

/-- Numeric `a < b`; false as soon as one side is NaN. -/
def lt : JsNum → JsNum → Bool
  | nan, _ => false
  | _, nan => false
  | negInf, negInf => false
  | negInf, _ => true
  | _, negInf => false
  | posInf, _ => false
  | fin _, posInf => true
  | fin a, fin b => decide (a < b)

/-- Numeric `a > b`. -/
def gt (a b : JsNum) : Bool := lt b a

/-- Numeric `a >= b`: neither side NaN and not `a < b`. -/
def ge (a b : JsNum) : Bool := !a.isNaN && !b.isNaN && !lt a b

/-- Strict equality `a === b` of two numbers: NaN equals nothing. -/
def strictEq (a b : JsNum) : Bool := !a.isNaN && decide (a = b)

end JsNum

/-- The characters `StrWhiteSpaceChar` that `Number` strips from both ends:
white space (TAB, VT, FF, ZWNBSP, the space separators) and line terminators. -/
def isStrWhiteSpaceChar (c : Char) : Bool :=
  let n := c.toNat
  n == 0x09 || n == 0x0A || n == 0x0B || n == 0x0C || n == 0x0D || n == 0x20 ||
  n == 0xA0 || n == 0x1680 || (0x2000 ≤ n && n ≤ 0x200A) || n == 0x2028 ||
  n == 0x2029 || n == 0x202F || n == 0x205F || n == 0x3000 || n == 0xFEFF

/-- Strip `StrWhiteSpaceChar`s from both ends. -/
def trimWhiteSpace (cs : List Char) : List Char :=
  ((cs.dropWhile isStrWhiteSpaceChar).reverse.dropWhile isStrWhiteSpaceChar).reverse

/-- Value of one digit in the given base (2, 8, 10 or 16), if it is one. -/
def digitValue (base : Nat) (c : Char) : Option Nat :=
  let n := c.toNat
  let v : Option Nat :=
    if 48 ≤ n ∧ n ≤ 57 then some (n - 48)
    else if 97 ≤ n ∧ n ≤ 102 then some (n - 87)
    else if 65 ≤ n ∧ n ≤ 70 then some (n - 55)
    else none
  match v with
  | some d => if d < base then some d else none
  | none => none

/-- Value of a non-empty run of digits in the given base; `none` if the run is
empty or has a character that is not a digit of that base. -/
def digitsValue (base : Nat) (cs : List Char) : Option Nat :=
  if cs = [] then none
  else cs.foldl (fun acc c =>
    match acc, digitValue base c with
    | some a, some d => some (a * base + d)
    | _, _ => none) (some 0)

/-- Is the character a decimal digit? -/
def isDecimalDigit (c : Char) : Bool := (digitValue 10 c).isSome

/-- The exponent part `e`/`E`, optional sign, digits; the empty rest is exponent 0. -/
def exponentValue : List Char → Option Int
  | [] => some 0
  | c :: rest =>
    if c = 'e' ∨ c = 'E' then
      match rest with
      | '+' :: ds => (digitsValue 10 ds).map Int.ofNat
      | '-' :: ds => (digitsValue 10 ds).map (fun n => - Int.ofNat n)
      | ds => (digitsValue 10 ds).map Int.ofNat
    else none

/-- The production `StrUnsignedDecimalLiteral` without `Infinity`:
`digits . digits? exp?`, `. digits exp?` or `digits exp?`. -/
def unsignedDecimalValue (cs : List Char) : Option ℚ :=
  let ip := cs.takeWhile isDecimalDigit
  let r1 := cs.dropWhile isDecimalDigit
  let (fp, r2) : List Char × List Char :=
    match r1 with
    | '.' :: r => (r.takeWhile isDecimalDigit, r.dropWhile isDecimalDigit)
    | r => ([], r)
  if ip = [] ∧ fp = [] then none
  else
    match exponentValue r2 with
    | none => none
    | some e =>
      let i : ℚ := ((digitsValue 10 ip).getD 0 : Nat)
      let f : ℚ := ((digitsValue 10 fp).getD 0 : Nat) / (10 : ℚ) ^ fp.length
      some ((i + f) * (10 : ℚ) ^ e)

/-- The production `StrUnsignedDecimalLiteral`. -/
def unsignedDecimalLiteral (cs : List Char) : JsNum :=
  if cs = "Infinity".toList then JsNum.posInf
  else match unsignedDecimalValue cs with
    | some q => JsNum.fin q
    | none => JsNum.nan

/-- Numeric negation. -/
def JsNum.neg : JsNum → JsNum
  | JsNum.nan => JsNum.nan
  | JsNum.posInf => JsNum.negInf
  | JsNum.negInf => JsNum.posInf
  | JsNum.fin q => JsNum.fin (-q)

/-- The production `StrNumericLiteral` on a trimmed, non-empty string: a
binary, octal or hexadecimal integer literal (no sign), or a signed decimal
literal.  Anything else is NaN. -/
def strNumericLiteral (cs : List Char) : JsNum :=
  match cs with
  | '0' :: p :: ds =>
    if p = 'x' ∨ p = 'X' then
      match digitsValue 16 ds with | some n => JsNum.fin n | none => JsNum.nan
    else if p = 'o' ∨ p = 'O' then
      match digitsValue 8 ds with | some n => JsNum.fin n | none => JsNum.nan
    else if p = 'b' ∨ p = 'B' then
      match digitsValue 2 ds with | some n => JsNum.fin n | none => JsNum.nan
    else unsignedDecimalLiteral cs
  | '+' :: rest => unsignedDecimalLiteral rest
  | '-' :: rest => (unsignedDecimalLiteral rest).neg
  | _ => unsignedDecimalLiteral cs

/-- The abstract operation `StringToNumber`, which is `Number(s)` for a string:
strip white space; the empty string is 0; otherwise parse a numeric literal. -/
def stringToNumber (s : List Char) : JsNum :=
  let t := trimWhiteSpace s
  if t = [] then JsNum.fin 0 else strNumericLiteral t

/-! ## JavaScript values and JSON objects -/

/-- A scalar JavaScript value, as read from a field of a parsed JSON object;
`undefined` is what reading an absent field gives. -/
inductive JsVal where
  | undefined
  | null
  | bool (b : Bool)
  | num (x : JsNum)
  | str (s : String)
  deriving DecidableEq

namespace JsVal

/-- The abstract operation `ToNumber`. -/
def toNumber : JsVal → JsNum
  | undefined => JsNum.nan
  | null => JsNum.fin 0
  | bool true => JsNum.fin 1
  | bool false => JsNum.fin 0
  | num x => x
  | str s => stringToNumber s.toList

/-- The abstract operation `ToBoolean` (truthiness). -/
def truthy : JsVal → Bool
  | undefined => false
  | null => false
  | bool b => b
  | num x => !x.isNaN && !decide (x = JsNum.fin 0)
  | str s => !decide (s = "")

/-- The global `isNaN(v)`: `ToNumber`, then the NaN test. -/
def isNaN (v : JsVal) : Bool := v.toNumber.isNaN

/-- Strict equality `v === k` with a number `k`: false unless `v` is a number. -/
def strictEqNum (v : JsVal) (k : JsNum) : Bool :=
  match v with
  | num x => x.strictEq k
  | _ => false

/-- Relational `v > k` with a number `k`: both sides go through `ToNumber`. -/
def gtNum (v : JsVal) (k : JsNum) : Bool := v.toNumber.gt k

/-- Relational `v >= k` with a number `k`. -/
def geNum (v : JsVal) (k : JsNum) : Bool := v.toNumber.ge k

/-- The number literal `n`. -/
def ofNat (n : Nat) : JsVal := num (JsNum.fin n)

end JsVal

/-- A parsed JSON object: its fields, the first binding of a key being the one read. -/
structure JsObj where
  fields : List (String × JsVal)
  deriving DecidableEq

/-- Property access `o.key`. -/
def JsObj.field (o : JsObj) (key : String) : JsVal :=
  (o.fields.lookup key).getD JsVal.undefined

/-! ## Component state -/

/-- One axis of the state variable `robotConfig` (lines 56-59, 272-281): the
two values as stored, which for a config written by `fetchSettings` are
whatever the device sent. -/
structure JsAxisConfig where
  maxSpeed : JsVal
  maxVal : JsVal
  deriving DecidableEq

/-- The state variable `robotConfig` (lines 56-59). -/
structure JsRobotConfig where
  axis0 : JsAxisConfig
  axis1 : JsAxisConfig
  deriving DecidableEq

/-- The initial value of `robotConfig` (lines 56-59). -/
def JsRobotConfig.init : JsRobotConfig where
  axis0 := { maxSpeed := JsVal.ofNat 10, maxVal := JsVal.ofNat 100 }
  axis1 := { maxSpeed := JsVal.ofNat 10, maxVal := JsVal.ofNat 100 }

/-- An entry of the history ledger, as built by `addToHistory` (lines 211-215);
the `id` is the exact sum `Date.now() + Math.random()`, of which the code
stores the nearest binary64 number: ids that are equal here are equal there. -/
structure HistoryEntry where
  fileName : String
  playTimestamp : String
  id : ℚ
  deriving DecidableEq

/-- The `useState` values of `SandBotDashboard` that the session engine reads
(lines 48-53, 56, 79, 82, 83), as seen by the closures of one render. -/
structure State where
  robotName : String
  pollCycle : Nat
  connected : Bool
  statusData : Option JsObj
  isPolling : Bool
  previousQueueStatus : JsVal
  loadedFileName : String
  fileHistory : List HistoryEntry
  robotConfig : JsRobotConfig
  deriving DecidableEq

/-- The initial values given to `useState`. -/
def State.init : State where
  robotName := ""
  pollCycle := 10
  connected := false
  statusData := none
  isPolling := false
  previousQueueStatus := JsVal.ofNat 0
  loadedFileName := ""
  fileHistory := []
  robotConfig := JsRobotConfig.init

/-- The four values returned by `getCurrentStatus`. -/
inductive ConnectionState where
  | offline
  | idle
  | doodling
  | paused
  deriving DecidableEq

/-- The function `getCurrentStatus` (lines 581-591). -/
def getCurrentStatus (r : State) : ConnectionState :=
  match r.connected, r.statusData with
  | false, _ => ConnectionState.offline
  | true, none => ConnectionState.offline
  | true, some statusData =>
    if (statusData.field "Qd").gtNum (JsNum.fin 0) then
      if (statusData.field "pause").strictEqNum (JsNum.fin 1) then ConnectionState.paused
      else ConnectionState.doodling
    else ConnectionState.idle

/-- The constant `isPlayPauseDisabled` (line 832). -/
def isPlayPauseDisabled (r : State) : Bool :=
  decide (r.loadedFileName = "") || !r.connected

/-- The `disabled` attribute of the Stop, Home and Set Home buttons
(lines 857, 1135, 1153): `!connected`. -/
def isCommandDisabled (r : State) : Bool := !r.connected

/-! ## Requests and the world around the component -/

/-- A request handed to `fetch`. -/
inductive Request where
  | status (host : String)
  | getsettings (host : String)
  | filelist (host : String)
  | exec (host : String) (command : String)
  | uploadtofileman (host : String) (fileName : String) (content : String)
  | playFile (host : String) (fsName : String) (fileName : String)
  deriving DecidableEq

/-- A `/status` request that has been issued and has not settled: the host it
went to and the local `wasConnected` of the `pollStatus` call awaiting it. -/
structure Pending where
  robotName : String
  wasConnected : Bool
  deriving DecidableEq

/-- How an awaited `/status` request settles: `response.json()` gives an object,
or `fetch` or `response.json()` throws.  (A body that parses to something that
is not an object, such as `null` or a bare number, is not modelled.) -/
inductive Response where
  | ok (data : JsObj)
  | error
  deriving DecidableEq

/-- Everything the closures act on: the live state, the ref
`initialFetchDone` (line 99), the state of every render so far (newest first;
the state updates of one step are batched into one render), the closure held
by the interval of `pollIntervalRef` (the render whose effect armed it), the
`/status` requests awaiting their response, and the requests issued so far
(newest first). -/
structure World where
  state : State
  initialFetchDone : Bool
  renders : List State
  interval : Option State
  pending : List Pending
  requests : List Request
  deriving DecidableEq

/-- The component after mounting with no query parameters. -/
def World.init : World where
  state := State.init
  initialFetchDone := false
  renders := [State.init]
  interval := none
  pending := []
  requests := []

/-- Apply batched state updates and record the render they cause. -/
def World.setState (w : World) (f : State → State) : World :=
  { w with state := f w.state, renders := f w.state :: w.renders }

/-- Hand a request to `fetch`. -/
def World.fetch (w : World) (q : Request) : World :=
  { w with requests := q :: w.requests }

/-! ## Polling -/

/-- The function `fetchSettings` (lines 259-287) up to its request; `robotName`
is the name seen by the closure. -/
def fetchSettings (r : State) (w : World) : World :=
  if r.robotName = "" then w else w.fetch (Request.getsettings r.robotName)

/-- The function `fetchFileList` (lines 290-308) up to its request. -/
def fetchFileList (r : State) (w : World) : World :=
  if r.robotName = "" then w else w.fetch (Request.filelist r.robotName)

/-- The function `pollStatus` (lines 227-256) from its call to the
`await fetch(...)` of line 234: the guard of line 228 on the closure's
`robotName` and `isPolling`, `setIsPolling(true)`, the local `wasConnected`,
and the request. -/
def pollStatus (r : State) (w : World) : World :=
  if r.robotName = "" ∨ r.isPolling = true then w
  else
    let w1 := w.setState (fun s => { s with isPolling := true })
    let w2 := w1.fetch (Request.status r.robotName)
    { w2 with pending := w2.pending ++ [{ robotName := r.robotName, wasConnected := r.connected }] }

/-- The function `pollStatus` from the point where the awaited request `p`
settles (lines 235-255): on a parsed payload the `try` block, on a throw the
`catch` block, then `finally`.  The calls `fetchSettings()` and
`fetchFileList()` are those of the same closure, whose `robotName` is the
host the request went to. -/
def pollStatusResume (p : Pending) (resp : Response) (w : World) : World :=
  let closure : State := { w.state with robotName := p.robotName }
  match resp with
  | Response.ok data =>
    let qd := data.field "Qd"
    let upd : State → State := fun s =>
      { s with
        statusData := some data
        previousQueueStatus := if qd.truthy then qd else JsVal.ofNat 0
        connected := true
        isPolling := false }
    if !p.wasConnected && !w.initialFetchDone then
      fetchFileList closure (fetchSettings closure ({ w with initialFetchDone := true }.setState upd))
    else
      w.setState upd
  | Response.error =>
    w.setState (fun s => { s with connected := false, isPolling := false })

/-- The effect of lines 120-144 when it runs for the render `r`: with a name
set, clear the old interval, call `pollStatus()` and arm a new interval with
this render's `pollStatus`; with no name, only the clean-up of the previous run
has cleared the interval.  Lines 122-125 write `wledAddress`, which is not a
field of `State`. -/
def pollingEffect (r : State) (w : World) : World :=
  if r.robotName = "" then { w with interval := none }
  else { pollStatus r w with interval := some r }

/-- The call `setRobotName(name)` (lines 112, 1103) and the render it causes:
the polling effect (deps `robotName`, `pollCycle`, `controlMode`) runs first,
then the effect of lines 154-156 resets `initialFetchDone.current`.  Setting
the value already held causes no render. -/
def setRobotName (name : String) (w : World) : World :=
  if name = w.state.robotName then w
  else
    let w1 := w.setState (fun s => { s with robotName := name })
    { pollingEffect w1.state w1 with initialFetchDone := false }

/-- The call `setPollCycle(n)` and the render it causes: the polling effect
runs again. -/
def setPollCycle (n : Nat) (w : World) : World :=
  if n = w.state.pollCycle then w
  else
    let w1 := w.setState (fun s => { s with pollCycle := n })
    pollingEffect w1.state w1

/-- The interval fires: it calls the `pollStatus` it was armed with. -/
def tick (w : World) : World :=
  match w.interval with
  | some r => pollStatus r w
  | none => w

/-- The request `pending[i]` settles with `resp`. -/
def respond (i : Nat) (resp : Response) (w : World) : World :=
  match w.pending.get? i with
  | some p => pollStatusResume p resp { w with pending := w.pending.eraseIdx i }
  | none => w

/-! ## Commands

Each handler is modelled up to the request it awaits.  Once that request has
resolved the handler runs `setTimeout(pollStatus, 500)` with the `pollStatus`
of its own render; that later call is the event `call` below. -/

/-- The function `handlePlayPause` (lines 408-430) up to its awaited request. -/
def handlePlayPause (r : State) (w : World) : World :=
  if r.robotName = "" ∨ r.loadedFileName = "" then w
  else
    match r.statusData with
    | some statusData =>
      if (statusData.field "pause").strictEqNum (JsNum.fin 1) then
        w.fetch (Request.exec r.robotName "resume")
      else if (statusData.field "Qd").geNum (JsNum.fin 1) then
        w.fetch (Request.exec r.robotName "pause")
      else
        w.fetch (Request.exec r.robotName "play")
    | none => w.fetch (Request.exec r.robotName "play")

/-- The function `handleStop` (lines 433-443) up to its awaited request. -/
def handleStop (r : State) (w : World) : World :=
  if r.robotName = "" then w else w.fetch (Request.exec r.robotName "stop")

/-- The function `handleHome` (lines 446-456) up to its awaited request. -/
def handleHome (r : State) (w : World) : World :=
  if r.robotName = "" then w else w.fetch (Request.exec r.robotName "G28")

/-- The function `handleSetHome` (lines 459-469) up to its awaited request. -/
def handleSetHome (r : State) (w : World) : World :=
  if r.robotName = "" then w else w.fetch (Request.exec r.robotName "G92 X0 Y0")

/-! ## Runs -/

/-- What can happen to a mounted component with its identity held fixed. -/
inductive Event where
  /-- The interval fires. -/
  | tick
  /-- The `pollStatus` of the `k`-th most recent render is called (by a
  `setTimeout(pollStatus, 500)` scheduled by a handler of that render). -/
  | call (k : Nat)
  /-- The poll cycle is changed. -/
  | setPollCycle (n : Nat)
  /-- The `i`-th outstanding `/status` request settles. -/
  | respond (i : Nat) (resp : Response)

/-- One event. -/
def step (w : World) : Event → World
  | Event.tick => tick w
  | Event.call k =>
    match w.renders.get? k with
    | some r => pollStatus r w
    | none => w
  | Event.setPollCycle n => setPollCycle n w
  | Event.respond i resp => respond i resp w

/-- A sequence of events, in order. -/
def run (w : World) (es : List Event) : World := es.foldl step w

/-- Number of times the bootstrap fetch sequence has been issued: the
`/getsettings` requests among the requests so far. -/
def settingsFetches (w : World) : Nat :=
  (w.requests.filter (fun q => match q with | Request.getsettings _ => true | _ => false)).length

/-- The `/filelist/` requests among the requests so far. -/
def fileListFetches (w : World) : Nat :=
  (w.requests.filter (fun q => match q with | Request.filelist _ => true | _ => false)).length

/-- The `/status` requests among the requests so far. -/
def statusFetches (w : World) : Nat :=
  (w.requests.filter (fun q => match q with | Request.status _ => true | _ => false)).length

/-- Number of polls of the run that settled with a parsed payload. -/
def successes : World → List Event → Nat
  | _, [] => 0
  | w, e :: es =>
    (match e with
      | Event.respond i (Response.ok _) => if i < w.pending.length then 1 else 0
      | _ => 0) + successes (step w e) es

/-! ## Pattern files -/

/-- The method `String.prototype.split` with a one-character separator: the
pieces between the separators, empty pieces included; never the empty list. -/
def splitOn (sep : Char) : List Char → List (List Char)
  | [] => [[]]
  | c :: cs =>
    if c = sep then [] :: splitOn sep cs
    else
      match splitOn sep cs with
      | [] => [[c]]
      | piece :: pieces => (c :: piece) :: pieces

/-- A point `{ theta, rho }` as built by `parseFile`. -/
structure Coord where
  theta : JsVal
  rho : JsVal
  deriving DecidableEq

/-- The callback of `lines.map` in `parseFile` (lines 757-760):
`line.split(' ').map(Number)`, destructured into its first two elements, an
element that is not there being `undefined`. -/
def parseLine (line : List Char) : Coord :=
  let nums := (splitOn ' ' line).map (fun tok => JsVal.num (stringToNumber tok))
  { theta := nums.getD 0 JsVal.undefined, rho := nums.getD 1 JsVal.undefined }

/-- The function `parseFile` (lines 755-761). -/
def parseFile (content : String) : List Coord :=
  ((splitOn (Char.ofNat 10) content.toList).map parseLine).filter
    (fun coord => !coord.theta.isNaN && !coord.rho.isNaN)

/-! ## Vocabulary of the statements -/

/-- The pause flag as the code reads it: `statusData && statusData.pause === 1`. -/
def pauseFlag (statusData : Option JsObj) : Bool :=
  match statusData with
  | some o => (o.field "pause").strictEqNum (JsNum.fin 1)
  | none => false

/-- The test `statusData && statusData.Qd >= 1`. -/
def queueDepthAtLeastOne (statusData : Option JsObj) : Bool :=
  match statusData with
  | some o => (o.field "Qd").geNum (JsNum.fin 1)
  | none => false

/-- The status object `{ pause, Qd }` with numeric fields. -/
def statusOf (pause Qd : ℚ) : JsObj :=
  { fields := [("pause", JsVal.num (JsNum.fin pause)), ("Qd", JsVal.num (JsNum.fin Qd))] }

/-- A never-connected component: no status, not connected, the latch unset,
and `connected` false in every closure there is (renders, interval, calls in
flight); the requests in flight went to a named host. -/
def NeverConnected (w : World) : Prop :=
  w.state.connected = false ∧ w.state.statusData = none ∧ w.initialFetchDone = false ∧
  (∀ r ∈ w.renders, r.connected = false) ∧
  (∀ r, w.interval = some r → r.connected = false) ∧
  (∀ p ∈ w.pending, p.wasConnected = false ∧ p.robotName ≠ "")

/-- The component right after `setRobotName("bot")` on a fresh mount: the
effect has called `pollStatus()` once and armed the interval. -/
def botWorld : World := setRobotName "bot" World.init

/-- A status payload of an idle robot. -/
def idleStatus : JsObj := statusOf 0 0

/-- A run on `botWorld`: the first poll succeeds, the next one (made by the
interval) fails, and the interval has made a third one, which is in flight. -/
def reconnectRun : List Event :=
  [Event.respond 0 (Response.ok idleStatus), Event.tick, Event.respond 0 Response.error,
    Event.tick]

/-- The component connected to `bot`, then given the new name `bot2`. -/
def renamedWorld : World :=
  setRobotName "bot2" (run botWorld [Event.respond 0 (Response.ok idleStatus)])

/-- The point a line contributes, if it is retained: the line needs at least
two pieces between spaces, and `Number` of the first two must not be NaN; the
point is made of these two numbers. -/
def pointOfLine (line : List Char) : Option Coord :=
  match splitOn ' ' line with
  | tok0 :: tok1 :: _ =>
    if (stringToNumber tok0).isNaN = false ∧ (stringToNumber tok1).isNaN = false then
      some { theta := JsVal.num (stringToNumber tok0), rho := JsVal.num (stringToNumber tok1) }
    else none
  | _ => none

/-! ## Numbers to text

The operation `Number::toString` of the language, used by template literals.
A finite number is kept as an exact rational, so the digits printed are those
of its exact decimal expansion, laid out as the language lays them out. -/

/-- The character of a decimal digit. -/
def digitChar (d : Nat) : Char := Char.ofNat (48 + d)

/-- The decimal digits of `n`, most significant first; `fuel` bounds the recursion. -/
def decimalDigitsAux : Nat → Nat → List Char
  | 0, _ => []
  | fuel + 1, n =>
    if n < 10 then [digitChar n]
    else decimalDigitsAux fuel (n / 10) ++ [digitChar (n % 10)]

/-- The decimal digits of `n`, most significant first (`0` for zero). -/
def decimalDigits (n : Nat) : List Char := decimalDigitsAux (n + 1) n

/-- Move trailing zeros of `m` into the exponent: the value `m * 10 ^ e` is kept. -/
def stripZeros : Nat → Nat → Int → Nat × Int
  | 0, m, e => (m, e)
  | fuel + 1, m, e =>
    if m % 10 = 0 ∧ m ≠ 0 then stripZeros fuel (m / 10) (e + 1) else (m, e)

/-- The least `j` from `j0` on, among `fuel` candidates, with `den` dividing `10 ^ j`. -/
def findExponent : Nat → Nat → Nat → Option Nat
  | 0, _, _ => none
  | fuel + 1, den, j => if 10 ^ j % den = 0 then some j else findExponent fuel den (j + 1)

/-- The decimal expansion of a positive rational `q`: the pair `(s, e)` with
`q = s * 10 ^ e` and `s` not a multiple of 10.  There is none when the
denominator has a prime factor other than 2 and 5; such a rational is not the
value of a JavaScript number. -/
def decimalExpansion (q : ℚ) : Option (Nat × Int) :=
  match findExponent q.den q.den 0 with
  | some j =>
    some (stripZeros (q.num.natAbs * 10 ^ j / q.den) (q.num.natAbs * 10 ^ j / q.den) (-(j : Int)))
  | none => none

/-- Steps 6 to 10 of `Number::toString` for the digits of `s` (there are `k`
of them) and `n = k + e`, the value being `s * 10 ^ e`: an integer with
trailing zeros, a decimal point inside the digits, a leading `0.`, or the
exponent form. -/
def formatDecimal (s : Nat) (e : Int) : List Char :=
  let ds := decimalDigits s
  let k : Int := ds.length
  let n : Int := k + e
  if k ≤ n ∧ n ≤ 21 then ds ++ List.replicate (n - k).toNat '0'
  else if 0 < n ∧ n ≤ 21 then ds.take n.toNat ++ '.' :: ds.drop n.toNat
  else if -6 < n ∧ n ≤ 0 then '0' :: '.' :: (List.replicate (-n).toNat '0' ++ ds)
  else
    let ex : List Char := (if n - 1 < 0 then '-' else '+') :: decimalDigits (n - 1).natAbs
    match ds with
    | [] => []
    | [d] => d :: 'e' :: ex
    | d :: rest => d :: '.' :: (rest ++ 'e' :: ex)

/-- The operation `Number::toString` (radix 10).  For a rational with no
finite decimal expansion, which no JavaScript number has as its value, the text
is `NaN`. -/
def numberToString : JsNum → List Char
  | JsNum.nan => "NaN".toList
  | JsNum.posInf => "Infinity".toList
  | JsNum.negInf => "-Infinity".toList
  | JsNum.fin q =>
    if q = 0 then ['0']
    else
      match decimalExpansion |q| with
      | some (s, e) => if q < 0 then '-' :: formatDecimal s e else formatDecimal s e
      | none => "NaN".toList

/-- The operation `ToString` on the values a template literal is given here:
numbers, and `undefined` for a missing field. -/
def JsVal.toText : JsVal → List Char
  | JsVal.undefined => "undefined".toList
  | JsVal.null => "null".toList
  | JsVal.bool true => "true".toList
  | JsVal.bool false => "false".toList
  | JsVal.num x => numberToString x
  | JsVal.str s => s.toList

/-- The number written by a run of decimal digits. -/
def digitsNat (cs : List Char) : Nat := cs.foldl (fun a c => a * 10 + (c.toNat - 48)) 0

/-- The characters `Number::toString` writes a finite number with. -/
def isNumberChar (c : Char) : Bool :=
  isDecimalDigit c || c == '.' || c == 'e' || c == '+' || c == '-'

/-! ## Encoding a pattern -/

/-- The constant `fileContent` of `uploadToRobot` (lines 358-360): one line
`theta rho` per point, the lines joined by a line feed. -/
def fileContent (coordinates : List Coord) : String :=
  String.mk (List.intercalate [Char.ofNat 10]
    (coordinates.map (fun coord => coord.theta.toText ++ ' ' :: coord.rho.toText)))

/-- A finite number has a finite decimal expansion: it is an integer times a
power of ten (as is every value that `Number` returns). -/
def IsDecimal (q : ℚ) : Prop := ∃ (m : Int) (e : Nat), q = (m : ℚ) / (10 : ℚ) ^ e

/-- A coordinate that a pattern holds: a number that is not NaN and, when
finite, has a finite decimal expansion. -/
def JsVal.IsPatternNumber (v : JsVal) : Prop :=
  ∃ x : JsNum, v = JsVal.num x ∧ x ≠ JsNum.nan ∧ ∀ q : ℚ, x = JsNum.fin q → IsDecimal q

/-! ## Drawing time

The geometry is over real arithmetic: angles and radii are real numbers,
`Math.cos`, `Math.sin` and `Math.sqrt` are the real functions, and `/` is the
division of the reals (no rounding, no infinities). -/

/-- A point of a pattern with finite coordinates. -/
structure PolarPoint where
  theta : ℝ
  rho : ℝ

/-- One axis of `robotConfig`. -/
structure AxisConfig where
  maxSpeed : ℝ
  maxVal : ℝ

/-- The state value `robotConfig` (lines 56-59). -/
structure RobotConfig where
  axis0 : AxisConfig
  axis1 : AxisConfig

/-- The initial `robotConfig`. -/
noncomputable def RobotConfig.init : RobotConfig where
  axis0 := { maxSpeed := 10, maxVal := 100 }
  axis1 := { maxSpeed := 10, maxVal := 100 }

/-- The body of the loop of `calculateDrawingTime` (lines 632-644): the
constant `distance` for the points `prev` and `curr`. -/
noncomputable def segmentDistance (maxRadius : ℝ) (prev curr : PolarPoint) : ℝ :=
  let prevX := prev.rho * maxRadius * Real.cos prev.theta
  let prevY := prev.rho * maxRadius * Real.sin prev.theta
  let currX := curr.rho * maxRadius * Real.cos curr.theta
  let currY := curr.rho * maxRadius * Real.sin curr.theta
  let deltaX := currX - prevX
  let deltaY := currY - prevY
  Real.sqrt (deltaX * deltaX + deltaY * deltaY)

/-- The function `calculateDrawingTime` (lines 621-653); the loop runs `i`
from 1 to `coordinates.length - 1` over `coordinates[i - 1]` and
`coordinates[i]`. -/
noncomputable def calculateDrawingTime (coordinates : List PolarPoint)
    (robotConfig : RobotConfig) : ℝ :=
  if coordinates.length < 2 then 0
  else
    let maxRadius := max robotConfig.axis0.maxVal robotConfig.axis1.maxVal
    let avgSpeed := (robotConfig.axis0.maxSpeed + robotConfig.axis1.maxSpeed) / 2
    let totalDistance := (List.range' 1 (coordinates.length - 1)).foldl
      (fun total i =>
        total + segmentDistance maxRadius
          (coordinates.getD (i - 1) { theta := 0, rho := 0 })
          (coordinates.getD i { theta := 0, rho := 0 }))
      0
    totalDistance / avgSpeed

/-- The conversion of the specification (section 4.4): polar to Cartesian,
`rho` being a fraction of `maxRadius`. -/
noncomputable def toCartesian (maxRadius : ℝ) (p : PolarPoint) : ℝ × ℝ :=
  (p.rho * maxRadius * Real.cos p.theta, p.rho * maxRadius * Real.sin p.theta)

/-- The Euclidean distance of two points of the plane. -/
noncomputable def euclideanDistance (a b : ℝ × ℝ) : ℝ :=
  Real.sqrt ((b.1 - a.1) ^ 2 + (b.2 - a.2) ^ 2)

/-- The estimate of the specification (section 4.4) for a pattern: the sum
of the Euclidean distances between consecutive converted points, divided by
the average speed. -/
noncomputable def estimateDrawTime (pattern : List PolarPoint) (config : RobotConfig) : ℝ :=
  let maxRadius := max config.axis0.maxVal config.axis1.maxVal
  let avgSpeed := (config.axis0.maxSpeed + config.axis1.maxSpeed) / 2
  let points := pattern.map (toCartesian maxRadius)
  (List.zipWith euclideanDistance points points.tail).sum / avgSpeed

/-- The operator `%` of the language on finite numbers: the remainder has the
sign of the dividend. -/
def jsRemainder {K : Type} [LinearOrderedField K] [FloorRing K] (x k : K) : K :=
  x - k * (if 0 ≤ x / k then ((⌊x / k⌋ : Int) : K) else ((⌈x / k⌉ : Int) : K))

/-- The text of an integer-valued number in a template literal. -/
def integerText (n : Int) : String := String.mk (numberToString (JsNum.fin n))

/-- The function `formatDrawingTime` (lines 656-670) on a finite number of
seconds, or on a missing argument (`none`), over an ordered field with a floor:
the rationals to run it, the reals to apply it to `calculateDrawingTime`. -/
def formatDrawingTime {K : Type} [LinearOrderedField K] [FloorRing K]
    (seconds : Option K) : String :=
  match seconds with
  | none => "N/A"
  | some s =>
    if s = 0 ∨ s < 0 then "N/A"
    else
      let hours : Int := ⌊s / 3600⌋
      let minutes : Int := ⌊jsRemainder s 3600 / 60⌋
      let secs : Int := ⌊jsRemainder s 60⌋
      if hours > 0 then
        integerText hours ++ "h " ++ integerText minutes ++ "m " ++ integerText secs ++ "s"
      else if minutes > 0 then
        integerText minutes ++ "m " ++ integerText secs ++ "s"
      else
        integerText secs ++ "s"

/-! ## Progressive rendering -/

/-- The method `Array.prototype.slice(0, stop)` for an integer `stop`: a
negative `stop` counts from the end, and the result never goes past the end. -/
def slice0 {α : Type} (xs : List α) (stop : Int) : List α :=
  let len : Int := xs.length
  let final : Int := if stop < 0 then max (len + stop) 0 else min stop len
  xs.take final.toNat

/-- The constant `coordinatesToDraw` of `drawSimulation` (line 781). -/
def coordinatesToDraw {α : Type} (coordinates : List α) (progress : ℚ) : List α :=
  slice0 coordinates ⌊(coordinates.length : ℚ) * progress / 100⌋

/-- A call made on the canvas context for a point of the pattern; the pixel
position is computed from the point and the size of the canvas. -/
inductive PathCommand (α : Type) where
  | moveTo (point : α)
  | lineTo (point : α)
  deriving DecidableEq

/-- The point a path command is made for. -/
def PathCommand.point {α : Type} : PathCommand α → α
  | PathCommand.moveTo p => p
  | PathCommand.lineTo p => p

/-- The function `drawSimulation` (lines 764-798) with a canvas in place, as the
path it strokes for the pattern: nothing for an empty pattern, otherwise a
`moveTo` for the first point to draw and a `lineTo` for each further one. -/
def drawSimulation {α : Type} (coordinates : List α) (progress : ℚ) :
    List (PathCommand α) :=
  if coordinates.length = 0 then []
  else
    (coordinatesToDraw coordinates progress).enum.map
      (fun ic => if ic.1 = 0 then PathCommand.moveTo ic.2 else PathCommand.lineTo ic.2)

/-! ## History ledger -/

/-- A `Date` object, by what is read of it: the text of `toLocaleString()`. -/
structure JsDate where
  toLocaleString : String
  deriving DecidableEq

/-- What one call of `addToHistory` reads from its surroundings: `new Date()`,
`Date.now()` and `Math.random()`. -/
structure Ambient where
  newDate : JsDate
  dateNow : ℚ
  mathRandom : ℚ
  deriving DecidableEq

/-- The function `addToHistory` (lines 208-221), with `playStartTime = null`
as `none`. -/
def addToHistory (env : Ambient) (fileName : String) (playStartTime : Option JsDate)
    (w : World) : World :=
  if fileName = "" then w
  else
    let historyEntry : HistoryEntry :=
      { fileName := fileName
        playTimestamp :=
          match playStartTime with
          | some date => date.toLocaleString
          | none => env.newDate.toLocaleString
        id := env.dateNow + env.mathRandom }
    w.setState (fun s => { s with fileHistory := historyEntry :: s.fileHistory })

/-- The constant `playlistContent` of `handleSaveGalleryToPlaylist`
(lines 720-724), before the final `join`: the file names of a reversed copy of
the ledger. -/
def playlistNames (fileHistory : List HistoryEntry) : List String :=
  fileHistory.reverse.map (fun entry => entry.fileName)

/-- The constant `playlistContent` (lines 720-724): the names joined by a line feed. -/
def playlistContent (fileHistory : List HistoryEntry) : String :=
  String.mk (List.intercalate [Char.ofNat 10] ((playlistNames fileHistory).map String.toList))

/-- The function `handleSaveGalleryToPlaylist` (lines 708-752) up to its awaited
request; `filename` is what `prompt` returned (`none` for a cancelled prompt). -/
def handleSaveGalleryToPlaylist (r : State) (filename : Option String) (w : World) : World :=
  if r.robotName = "" ∨ r.fileHistory.length = 0 then w
  else
    match filename with
    | none => w
    | some name =>
      if name = "" then w
      else
        let finalFilename := if name.endsWith ".seq" then name else name ++ ".seq"
        w.fetch (Request.uploadtofileman r.robotName finalFilename (playlistContent r.fileHistory))

/-! ## Playing a file -/

/-- The function `playFile` (lines 335-350) up to its awaited request. -/
def playFile (r : State) (fsName fileName : String) (w : World) : World :=
  if r.robotName = "" then w else w.fetch (Request.playFile r.robotName fsName fileName)

/-- The function `playFile` from its `await` (line 339) on: `resolved` tells
whether the awaited `fetch` resolved (lines 341-346 run) or threw (the `catch`
block runs, which only logs).  `env.newDate` is the `new Date()` of line 342.
The state variable `filePlayStartTime` of line 346 is not part of the model. -/
def playFileResume (env : Ambient) (fileName : String) (resolved : Bool) (w : World) : World :=
  if resolved then
    let playTime := env.newDate
    (addToHistory env fileName (some playTime) w).setState
      (fun s => { s with loadedFileName := fileName })
  else w

/-! ## Settings -/

/-- The operator `a || b` on scalar values. -/
def JsVal.orElse (a b : JsVal) : JsVal := if a.truthy then a else b

/-- An axis object of a settings payload (`robotGeom.axis0`), by the two
properties read of it; a property that is absent reads `undefined`. -/
structure AxisSettings where
  maxSpeed : JsVal
  maxVal : JsVal
  deriving DecidableEq

/-- The object `robotConfig.robotGeom` of a settings payload; `none` stands for
an axis that is absent or `null` (or is not an object, hence has neither
property). -/
structure RobotGeomSettings where
  axis0 : Option AxisSettings
  axis1 : Option AxisSettings
  deriving DecidableEq

/-- The object `robotConfig` of a settings payload; `none` stands for a
`robotGeom` that is absent or `null`. -/
structure RobotConfigSettings where
  robotType : JsVal
  robotGeom : Option RobotGeomSettings
  deriving DecidableEq

/-- The parsed body of `/getsettings`; `none` stands for a `robotConfig` that
is absent or falsy. -/
structure SettingsData where
  robotConfig : Option RobotConfigSettings
  deriving DecidableEq

/-- How the awaited `/getsettings` request settles: `response.json()` gives a
value (`none` for a falsy one such as `null`), or `fetch` or `response.json()`
throws. -/
inductive SettingsResponse where
  | ok (data : Option SettingsData)
  | error
  deriving DecidableEq

/-- The expression `axis?.maxSpeed`. -/
def maxSpeedOf (axis : Option AxisSettings) : JsVal :=
  match axis with
  | some a => a.maxSpeed
  | none => JsVal.undefined

/-- The expression `axis?.maxVal`. -/
def maxValOf (axis : Option AxisSettings) : JsVal :=
  match axis with
  | some a => a.maxVal
  | none => JsVal.undefined

/-- The constant `newConfig` of `fetchSettings` (lines 269-281). -/
def newConfig (robotGeom : Option RobotGeomSettings) : JsRobotConfig :=
  let axis0 := robotGeom.bind (fun geom => geom.axis0)
  let axis1 := robotGeom.bind (fun geom => geom.axis1)
  { axis0 :=
      { maxSpeed := (maxSpeedOf axis0).orElse (JsVal.ofNat 10)
        maxVal := (maxValOf axis0).orElse (JsVal.ofNat 100) }
    axis1 :=
      { maxSpeed := (maxSpeedOf axis1).orElse (JsVal.ofNat 10)
        maxVal := (maxValOf axis1).orElse (JsVal.ofNat 100) } }

/-- The function `fetchSettings` from its `await` (line 263) on: lines 264-283
for a parsed body, the `catch` block (which only logs) otherwise.  The state
variable `settingsData` of line 265 is not part of the model. -/
def fetchSettingsResume (resp : SettingsResponse) (w : World) : World :=
  match resp with
  | SettingsResponse.ok (some data) =>
    match data.robotConfig with
    | some robotConfig =>
      if robotConfig.robotType = JsVal.str "SandTableScara" then
        w.setState (fun s => { s with robotConfig := newConfig robotConfig.robotGeom })
      else w
    | none => w
  | SettingsResponse.ok none => w
  | SettingsResponse.error => w

/-- The finite number a stored value is, if it is one. -/
def JsVal.finite : JsVal → Option ℚ
  | JsVal.num (JsNum.fin q) => some q
  | _ => none

/-- The config as `calculateDrawingTime` reads it over the reals, when the four
stored values are finite numbers. -/
noncomputable def JsRobotConfig.toRobotConfig (c : JsRobotConfig) : Option RobotConfig :=
  match c.axis0.maxSpeed.finite, c.axis0.maxVal.finite,
    c.axis1.maxSpeed.finite, c.axis1.maxVal.finite with
  | some s0, some v0, some s1, some v1 =>
    some { axis0 := { maxSpeed := (s0 : ℝ), maxVal := (v0 : ℝ) }
           axis1 := { maxSpeed := (s1 : ℝ), maxVal := (v1 : ℝ) } }
  | _, _, _, _ => none

/-- The constant `maxRadius` of `calculateDrawingTime` (line 625). -/
noncomputable def maxRadius (robotConfig : RobotConfig) : ℝ :=
  max robotConfig.axis0.maxVal robotConfig.axis1.maxVal

/-- The constant `avgSpeed` of `calculateDrawingTime` (line 626). -/
noncomputable def avgSpeed (robotConfig : RobotConfig) : ℝ :=
  (robotConfig.axis0.maxSpeed + robotConfig.axis1.maxSpeed) / 2

/-- A value of a settings payload that is missing or a non-negative number. -/
def SaneValue (v : JsVal) : Prop :=
  v = JsVal.undefined ∨ ∃ q : ℚ, 0 ≤ q ∧ v = JsVal.num (JsNum.fin q)

/-- An axis of a settings payload whose two values are sane, or no axis. -/
def SaneAxis (axis : Option AxisSettings) : Prop :=
  ∀ a, axis = some a → SaneValue a.maxSpeed ∧ SaneValue a.maxVal

/-- A `robotGeom` of a settings payload whose axes are sane, or no `robotGeom`. -/
def SaneGeom (robotGeom : Option RobotGeomSettings) : Prop :=
  ∀ geom, robotGeom = some geom → SaneAxis geom.axis0 ∧ SaneAxis geom.axis1

/-- A settled `/getsettings` request that, if it carries a `robotGeom`,
carries a sane one. -/
def SanePayload (resp : SettingsResponse) : Prop :=
  ∀ data robotConfig, resp = SettingsResponse.ok (some data) →
    data.robotConfig = some robotConfig → SaneGeom robotConfig.robotGeom

/-- A stored config whose four values are finite numbers above zero. -/
def PositiveConfig (c : JsRobotConfig) : Prop :=
  ∃ robotConfig : RobotConfig, c.toRobotConfig = some robotConfig ∧
    0 < robotConfig.axis0.maxSpeed ∧ 0 < robotConfig.axis0.maxVal ∧
    0 < robotConfig.axis1.maxSpeed ∧ 0 < robotConfig.axis1.maxVal

/-! ## Firmware version -/

/-- The function `parseInt(s, 10)`: leading white space is skipped, then an
optional sign is read, then the longest run of decimal digits; the result is
NaN when that run is empty, and the signed integer it writes otherwise. -/
def parseInt10 (s : List Char) : JsNum :=
  let t := s.dropWhile isStrWhiteSpaceChar
  let signed : Int × List Char :=
    match t with
    | '-' :: rest => (-1, rest)
    | '+' :: rest => (1, rest)
    | _ => (1, t)
  let digits := signed.2.takeWhile isDecimalDigit
  if digits = [] then JsNum.nan
  else JsNum.fin (((signed.1 * (digitsNat digits : Int) : Int) : ℚ))

/-- The operator `x || k` on numbers. -/
def JsNum.orElse (x k : JsNum) : JsNum := if (JsVal.num x).truthy then x else k

/-- The function `isFirmwareVersionSupported` (lines 594-618).  On a truthy
scalar `espV` nothing in the `try` block throws. -/
def isFirmwareVersionSupported (r : State) : Bool :=
  match r.statusData with
  | none => false
  | some statusData =>
    if !(statusData.field "espV").truthy then false
    else
      let versionStr := (statusData.field "espV").toText
      let versionParts := splitOn '.' versionStr
      if versionParts.length < 3 then false
      else
        let major := (parseInt10 (versionParts.getD 0 [])).orElse (JsNum.fin 0)
        let minor := (parseInt10 (versionParts.getD 1 [])).orElse (JsNum.fin 0)
        let patch := (parseInt10 (versionParts.getD 2 [])).orElse (JsNum.fin 0)
        if major.gt (JsNum.fin 2) then true
        else if major.strictEq (JsNum.fin 2) && minor.gt (JsNum.fin 30) then true
        else if major.strictEq (JsNum.fin 2) && minor.strictEq (JsNum.fin 30) &&
            patch.ge (JsNum.fin 0) then true
        else false

/-- A status payload that reports the firmware version `espV` as a string. -/
def statusOfVersion (espV : String) : JsObj :=
  { fields := [("espV", JsVal.str espV)] }

/-- A run of decimal digits, at least one. -/
def IsDigits (cs : List Char) : Prop := cs ≠ [] ∧ ∀ c ∈ cs, isDecimalDigit c = true

/-! ## URL query parameters

The query string is taken as `URLSearchParams` presents it, a list of
name-value pairs; the percent-encoding of the text of the URL is the
browser's. -/

/-- The method `URLSearchParams.has`. -/
def searchParamsHas (name : String) (params : List (String × String)) : Bool :=
  (params.lookup name).isSome

/-- The method `URLSearchParams.get`: the first value of the name (`none` for
`null`). -/
def searchParamsGet (name : String) (params : List (String × String)) : Option String :=
  params.lookup name

/-- The method `URLSearchParams.delete`: every pair of the name is removed. -/
def searchParamsDelete (name : String) (params : List (String × String)) :
    List (String × String) :=
  params.filter (fun pair => !decide (pair.1 = name))

/-- The method `URLSearchParams.set`: the first pair of the name takes the
value and the other pairs of the name are removed; with no such pair one is
appended. -/
def searchParamsSet (name value : String) : List (String × String) → List (String × String)
  | [] => [(name, value)]
  | pair :: rest =>
    if pair.1 = name then (name, value) :: searchParamsDelete name rest
    else pair :: searchParamsSet name value rest

/-- The values given to `setControlMode` (lines 87, 114, 1195-1225). -/
inductive ControlMode where
  | disabled
  | wled
  | legacy
  | cnc
  deriving DecidableEq

/-- The four state variables that `updateUrlWithSettings` reads and the mount
effect of lines 105-117 writes. -/
structure UrlSettings where
  robotName : String
  pollCycle : JsNum
  controlMode : ControlMode
  wledAddress : String
  deriving DecidableEq

/-- Their initial values (lines 48, 49, 87, 88). -/
def UrlSettings.init : UrlSettings where
  robotName := ""
  pollCycle := JsNum.fin 10
  controlMode := ControlMode.disabled
  wledAddress := ""

/-- The function `updateUrlWithSettings` (lines 165-197) in a browser: from
the query parameters of the current URL to those of the URL handed to
`replaceState`. -/
def updateUrlWithSettings (c : UrlSettings) (url : List (String × String)) :
    List (String × String) :=
  let url1 :=
    if c.robotName ≠ "" then searchParamsSet "hostIP" c.robotName url
    else searchParamsDelete "hostIP" url
  let url2 :=
    if !c.pollCycle.strictEq (JsNum.fin 10) then
      searchParamsSet "pollCycle" (String.mk (numberToString c.pollCycle)) url1
    else searchParamsDelete "pollCycle" url1
  let url3 :=
    if c.controlMode ≠ ControlMode.disabled then searchParamsSet "wledEnabled" "true" url2
    else searchParamsDelete "wledEnabled" url2
  if c.wledAddress ≠ "" ∧ c.wledAddress ≠ c.robotName then
    searchParamsSet "wledAddress" c.wledAddress url3
  else searchParamsDelete "wledAddress" url3

/-- The object `params` returned by `getQueryParams`; `none` is a property
that was not set. -/
structure QueryParams where
  robotName : Option String
  pollCycle : Option JsNum
  wledEnabled : Option Bool
  wledAddress : Option String
  deriving DecidableEq

/-- The method `toLowerCase` on the letters `A` to `Z`, which are the only
characters whose lower case is one of the letters of `true`. -/
def toLowerCase (s : String) : String := String.mk (s.toList.map Char.toLower)

/-- The function `getQueryParams` (lines 18-35) in a browser, on the query
parameters of the page. -/
def getQueryParams (search : List (String × String)) : QueryParams :=
  { robotName :=
      if searchParamsHas "hostIP" search then searchParamsGet "hostIP" search else none
    pollCycle :=
      if searchParamsHas "pollCycle" search then
        let poll := parseInt10 ((searchParamsGet "pollCycle" search).getD "").toList
        if !poll.isNaN && poll.gt (JsNum.fin 0) then some poll else none
      else none
    wledEnabled :=
      if searchParamsHas "wledEnabled" search then
        some (decide (toLowerCase ((searchParamsGet "wledEnabled" search).getD "") = "true"))
      else none
    wledAddress :=
      if searchParamsHas "wledAddress" search then searchParamsGet "wledAddress" search
      else none }

/-- The mount effect of lines 105-117, as state updates applied to the four
variables: the truthiness tests of lines 112, 113 and 115 and the test
`!== undefined` of line 114. -/
def applyQueryParams (params : QueryParams) (c : UrlSettings) : UrlSettings :=
  let c1 :=
    match params.robotName with
    | some name => if name ≠ "" then { c with robotName := name } else c
    | none => c
  let c2 :=
    match params.pollCycle with
    | some poll => if (JsVal.num poll).truthy then { c1 with pollCycle := poll } else c1
    | none => c1
  let c3 :=
    match params.wledEnabled with
    | some enabled =>
      { c2 with controlMode := if enabled then ControlMode.wled else ControlMode.disabled }
    | none => c2
  match params.wledAddress with
  | some address => if address ≠ "" then { c3 with wledAddress := address } else c3
  | none => c3

/-- Writing the settings `c` into a URL with `updateUrlWithSettings`, then
loading the page at that URL: `getQueryParams` and the mount effect, on the
initial state. -/
def reloadFromUrl (c : UrlSettings) (url : List (String × String)) : UrlSettings :=
  applyQueryParams (getQueryParams (updateUrlWithSettings c url)) UrlSettings.init

/-- A pattern turned by the angle `d`: `d` is added to the `theta` of every point. -/
noncomputable def rotate (d : ℝ) (coordinates : List PolarPoint) : List PolarPoint :=
  coordinates.map (fun p => { theta := p.theta + d, rho := p.rho })

/-! ## Binary64 quotients -/

/-- Rounding to the nearest integer, a tie going to the even one. -/
def roundHalfEven (x : ℚ) : Int :=
  let f : Int := ⌊x⌋
  if x - f < 1 / 2 then f
  else if 1 / 2 < x - f then f + 1
  else if f % 2 = 0 then f else f + 1

/-- The binary64 number nearest to the rational `q`, a tie going to the even
significand, as the operator `/` rounds its exact quotient: with
`2 ^ e ≤ |q| < 2 ^ (e + 1)` the value is scaled to 53 significant bits, rounded
to an integer and scaled back.  This is binary64 on its normal range; the
overflow to an infinity from `2 ^ 1024` on and the coarser spacing of the
subnormals below `2 ^ (-1022)` are not modelled. -/
def roundBinary64 (q : ℚ) : ℚ :=
  if q = 0 then 0
  else
    let e : Int := Int.log 2 |q|
    (roundHalfEven (q * 2 ^ (52 - e)) : ℚ) / 2 ^ (52 - e)

/-- The function `formatDrawingTime` (lines 656-670) on a finite binary64
number of seconds, or on a missing argument (`none`), with the quotients of
lines 659 and 660 rounded to binary64; the operator `%` is exact.  A quotient
too small for the normal range has floor 0 with or without the subnormals, and
none overflows.  The text of `hours` is that of the exact integer. -/
def formatDrawingTimeBinary64 (seconds : Option ℚ) : String :=
  match seconds with
  | none => "N/A"
  | some s =>
    if s = 0 ∨ s < 0 then "N/A"
    else
      let hours : Int := ⌊roundBinary64 (s / 3600)⌋
      let minutes : Int := ⌊roundBinary64 (jsRemainder s 3600 / 60)⌋
      let secs : Int := ⌊jsRemainder s 60⌋
      if hours > 0 then
        integerText hours ++ "h " ++ integerText minutes ++ "m " ++ integerText secs ++ "s"
      else if minutes > 0 then
        integerText minutes ++ "m " ++ integerText secs ++ "s"
      else
        integerText secs ++ "s"

/-! ## Helper lemmas -/

theorem JsNum.ge_fin (a b : ℚ) : JsNum.ge (JsNum.fin a) (JsNum.fin b) = decide (b ≤ a) := by
  by_cases h : a < b
  · simp [JsNum.ge, JsNum.lt, JsNum.isNaN, h]
  · simp [JsNum.ge, JsNum.lt, JsNum.isNaN, h, not_lt.mp h]

theorem JsNum.gt_fin (a b : ℚ) : JsNum.gt (JsNum.fin a) (JsNum.fin b) = decide (b < a) := by
  simp [JsNum.gt, JsNum.lt]

theorem JsNum.strictEq_fin (a b : ℚ) :
    JsNum.strictEq (JsNum.fin a) (JsNum.fin b) = decide (a = b) := by
  simp [JsNum.strictEq, JsNum.isNaN]

theorem fetch_requests (w : World) (q : Request) : (w.fetch q).requests = q :: w.requests := rfl

theorem setState_state (w : World) (f : State → State) : (w.setState f).state = f w.state := rfl

theorem fetchSettings_state (r : State) (w : World) : (fetchSettings r w).state = w.state := by
  unfold fetchSettings
  split <;> rfl

theorem fetchFileList_state (r : State) (w : World) : (fetchFileList r w).state = w.state := by
  unfold fetchFileList
  split <;> rfl

theorem pollStatus_state (r : State) (w : World) :
    (pollStatus r w).state = w.state ∨
      (pollStatus r w).state = { w.state with isPolling := true } := by
  unfold pollStatus
  split
  · exact Or.inl rfl
  · exact Or.inr rfl

theorem pollStatusResume_ok_state (p : Pending) (d : JsObj) (w : World) :
    (pollStatusResume p (Response.ok d) w).state =
      { w.state with
        statusData := some d
        previousQueueStatus := if (d.field "Qd").truthy then d.field "Qd" else JsVal.ofNat 0
        connected := true
        isPolling := false } := by
  unfold pollStatusResume
  simp only
  split
  · rw [fetchFileList_state, fetchSettings_state]
    rfl
  · rfl

theorem getCurrentStatus_connected (s : State) (d : JsObj) (hc : s.connected = true)
    (hd : s.statusData = some d) :
    getCurrentStatus s =
      (if (d.field "Qd").gtNum (JsNum.fin 0) then
        (if (d.field "pause").strictEqNum (JsNum.fin 1) then ConnectionState.paused
          else ConnectionState.doodling)
      else ConnectionState.idle) := by
  simp [getCurrentStatus, hc, hd]

/-! ### Counting requests -/

theorem settingsFetches_fetch (w : World) (q : Request) :
    settingsFetches (w.fetch q) =
      settingsFetches w + (match q with | Request.getsettings _ => 1 | _ => 0) := by
  cases q <;> simp [settingsFetches, World.fetch]

theorem fileListFetches_fetch (w : World) (q : Request) :
    fileListFetches (w.fetch q) =
      fileListFetches w + (match q with | Request.filelist _ => 1 | _ => 0) := by
  cases q <;> simp [fileListFetches, World.fetch]

/-- What `pollStatus` does when its guard lets it through. -/
theorem pollStatus_eq (r : State) (w : World) :
    pollStatus r w = w ∨
      (r.robotName ≠ "" ∧ r.isPolling = false ∧
        pollStatus r w =
          { state := { w.state with isPolling := true }
            initialFetchDone := w.initialFetchDone
            renders := { w.state with isPolling := true } :: w.renders
            interval := w.interval
            pending := w.pending ++ [{ robotName := r.robotName, wasConnected := r.connected }]
            requests := Request.status r.robotName :: w.requests }) := by
  unfold pollStatus
  split
  · exact Or.inl rfl
  · rename_i h
    rw [not_or] at h
    refine Or.inr ⟨h.1, by simpa using h.2, rfl⟩

/-- The call `pollStatus` adds no bootstrap request and leaves the latch alone. -/
theorem pollStatus_frame (r : State) (w : World) :
    settingsFetches (pollStatus r w) = settingsFetches w ∧
    fileListFetches (pollStatus r w) = fileListFetches w ∧
    (pollStatus r w).initialFetchDone = w.initialFetchDone ∧
    (pollStatus r w).interval = w.interval := by
  rcases pollStatus_eq r w with h | ⟨_, _, h⟩
  · rw [h]; exact ⟨rfl, rfl, rfl, rfl⟩
  · rw [h]; simp [settingsFetches, fileListFetches]

/-- The call `pollStatus` of a closure that saw `connected = false` keeps a
never-connected world never-connected. -/
theorem pollStatus_neverConnected (r : State) (w : World) (hr : r.connected = false)
    (h : NeverConnected w) : NeverConnected (pollStatus r w) := by
  rcases pollStatus_eq r w with e | ⟨hn, _, e⟩
  · rw [e]; exact h
  · rw [e]
    obtain ⟨h1, h2, h3, h4, h5, h6⟩ := h
    refine ⟨h1, h2, h3, ?_, h5, ?_⟩
    · intro x hx
      rcases List.mem_cons.mp hx with hx | hx
      · rw [hx]; exact h1
      · exact h4 x hx
    · intro q hq
      rcases List.mem_append.mp hq with hq | hq
      · exact h6 q hq
      · rw [List.mem_singleton] at hq
        rw [hq]
        exact ⟨hr, hn⟩

/-- The polling effect adds no bootstrap request and leaves the latch alone. -/
theorem pollingEffect_frame (r : State) (w : World) :
    settingsFetches (pollingEffect r w) = settingsFetches w ∧
    fileListFetches (pollingEffect r w) = fileListFetches w ∧
    (pollingEffect r w).initialFetchDone = w.initialFetchDone := by
  unfold pollingEffect
  split
  · exact ⟨rfl, rfl, rfl⟩
  · obtain ⟨h1, h2, h3, _⟩ := pollStatus_frame r w
    exact ⟨h1, h2, h3⟩

theorem setPollCycle_frame (n : Nat) (w : World) :
    settingsFetches (setPollCycle n w) = settingsFetches w ∧
    fileListFetches (setPollCycle n w) = fileListFetches w ∧
    (setPollCycle n w).initialFetchDone = w.initialFetchDone := by
  unfold setPollCycle
  split
  · exact ⟨rfl, rfl, rfl⟩
  · exact pollingEffect_frame _ _

theorem pollingEffect_neverConnected (r : State) (w : World) (hr : r.connected = false)
    (h : NeverConnected w) : NeverConnected (pollingEffect r w) := by
  unfold pollingEffect
  split
  · obtain ⟨g1, g2, g3, g4, _, g6⟩ := h
    exact ⟨g1, g2, g3, g4, (by intro x hx; cases hx), g6⟩
  · obtain ⟨g1, g2, g3, g4, _, g6⟩ := pollStatus_neverConnected r w hr h
    refine ⟨g1, g2, g3, g4, ?_, g6⟩
    intro x hx
    simp only [Option.some.injEq] at hx
    rw [← hx]
    exact hr

theorem setPollCycle_neverConnected (n : Nat) (w : World) (h : NeverConnected w) :
    NeverConnected (setPollCycle n w) := by
  unfold setPollCycle
  split
  · exact h
  · obtain ⟨h1, h2, h3, h4, h5, h6⟩ := h
    have hw1 : NeverConnected (w.setState (fun s => { s with pollCycle := n })) := by
      refine ⟨h1, h2, h3, ?_, h5, h6⟩
      intro x hx
      rcases List.mem_cons.mp hx with hx | hx
      · rw [hx]; exact h1
      · exact h4 x hx
    exact pollingEffect_neverConnected _ _ h1 hw1

/-- A poll that settles once the latch is set triggers no bootstrap fetch. -/
theorem pollStatusResume_latched (p : Pending) (resp : Response) (w : World)
    (h : w.initialFetchDone = true) :
    settingsFetches (pollStatusResume p resp w) = settingsFetches w ∧
    fileListFetches (pollStatusResume p resp w) = fileListFetches w ∧
    (pollStatusResume p resp w).initialFetchDone = true := by
  cases resp with
  | ok d => simp [pollStatusResume, h, World.setState, settingsFetches, fileListFetches]
  | error => simp [pollStatusResume, h, World.setState, settingsFetches, fileListFetches]

/-- A poll made by a closure that saw `connected = true` triggers no bootstrap fetch. -/
theorem pollStatusResume_wasConnected (p : Pending) (resp : Response) (w : World)
    (h : p.wasConnected = true) :
    settingsFetches (pollStatusResume p resp w) = settingsFetches w ∧
    fileListFetches (pollStatusResume p resp w) = fileListFetches w ∧
    (pollStatusResume p resp w).initialFetchDone = w.initialFetchDone := by
  cases resp with
  | ok d => simp [pollStatusResume, h, World.setState, settingsFetches, fileListFetches]
  | error => simp [pollStatusResume, World.setState, settingsFetches, fileListFetches]

/-- A successful poll of a closure that saw `connected = false`, with the latch
unset, sets the latch and issues both bootstrap requests, to the polled host. -/
theorem pollStatusResume_first (p : Pending) (d : JsObj) (w : World)
    (hp : p.wasConnected = false) (hn : p.robotName ≠ "") (h : w.initialFetchDone = false) :
    (pollStatusResume p (Response.ok d) w).requests =
      Request.filelist p.robotName :: Request.getsettings p.robotName :: w.requests ∧
    (pollStatusResume p (Response.ok d) w).initialFetchDone = true := by
  simp [pollStatusResume, hp, h, fetchSettings, fetchFileList, hn, World.setState, World.fetch]

/-- A failed poll triggers no bootstrap fetch and leaves the latch alone. -/
theorem pollStatusResume_error_frame (p : Pending) (w : World) :
    settingsFetches (pollStatusResume p Response.error w) = settingsFetches w ∧
    fileListFetches (pollStatusResume p Response.error w) = fileListFetches w ∧
    (pollStatusResume p Response.error w).initialFetchDone = w.initialFetchDone := by
  simp [pollStatusResume, World.setState, settingsFetches, fileListFetches]

theorem pollStatusResume_error_neverConnected (p : Pending) (w : World)
    (h : NeverConnected w) : NeverConnected (pollStatusResume p Response.error w) := by
  obtain ⟨h1, h2, h3, h4, h5, h6⟩ := h
  refine ⟨rfl, h2, h3, ?_, h5, h6⟩
  intro x hx
  rcases List.mem_cons.mp hx with hx | hx
  · rw [hx]
  · exact h4 x hx

/-- With the latch set, no event of a run triggers a bootstrap fetch. -/
theorem step_latched (w : World) (e : Event) (h : w.initialFetchDone = true) :
    settingsFetches (step w e) = settingsFetches w ∧
    fileListFetches (step w e) = fileListFetches w ∧
    (step w e).initialFetchDone = true := by
  cases e with
  | tick =>
    simp only [step, tick]
    split
    · obtain ⟨h1, h2, h3, _⟩ := pollStatus_frame ‹State› w
      exact ⟨h1, h2, h3.trans h⟩
    · exact ⟨rfl, rfl, h⟩
  | call k =>
    simp only [step]
    split
    · obtain ⟨h1, h2, h3, _⟩ := pollStatus_frame ‹State› w
      exact ⟨h1, h2, h3.trans h⟩
    · exact ⟨rfl, rfl, h⟩
  | setPollCycle n =>
    obtain ⟨h1, h2, h3⟩ := setPollCycle_frame n w
    exact ⟨h1, h2, h3.trans h⟩
  | respond i resp =>
    simp only [step, respond]
    split
    · exact pollStatusResume_latched _ resp { w with pending := w.pending.eraseIdx i } h
    · exact ⟨rfl, rfl, h⟩

theorem run_latched (es : List Event) (w : World) (h : w.initialFetchDone = true) :
    settingsFetches (run w es) = settingsFetches w ∧
    fileListFetches (run w es) = fileListFetches w ∧
    (run w es).initialFetchDone = true := by
  induction es generalizing w with
  | nil => exact ⟨rfl, rfl, h⟩
  | cons e es ih =>
    obtain ⟨h1, h2, h3⟩ := step_latched w e h
    obtain ⟨g1, g2, g3⟩ := ih (step w e) h3
    exact ⟨by simpa [run] using g1.trans h1, by simpa [run] using g2.trans h2,
      by simpa [run] using g3⟩

/-- One event in a never-connected world: either it is the settling of an
outstanding poll with a payload, which issues the two bootstrap requests and
sets the latch, or it is no success, issues none and leaves the world
never-connected. -/
theorem step_neverConnected (w : World) (e : Event) (h : NeverConnected w) :
    (successes w [e] = 1 ∧ settingsFetches (step w e) = settingsFetches w + 1 ∧
      fileListFetches (step w e) = fileListFetches w + 1 ∧
      (step w e).initialFetchDone = true) ∨
    (successes w [e] = 0 ∧ settingsFetches (step w e) = settingsFetches w ∧
      fileListFetches (step w e) = fileListFetches w ∧ NeverConnected (step w e)) := by
  cases e with
  | tick =>
    refine Or.inr ⟨rfl, ?_⟩
    simp only [step, tick]
    split
    · rename_i r hr
      obtain ⟨h1, h2, _, _⟩ := pollStatus_frame r w
      exact ⟨h1, h2, pollStatus_neverConnected r w (h.2.2.2.2.1 r hr) h⟩
    · exact ⟨rfl, rfl, h⟩
  | call k =>
    refine Or.inr ⟨rfl, ?_⟩
    simp only [step]
    split
    · rename_i r hr
      obtain ⟨h1, h2, _, _⟩ := pollStatus_frame r w
      exact ⟨h1, h2, pollStatus_neverConnected r w (h.2.2.2.1 r (List.get?_mem hr)) h⟩
    · exact ⟨rfl, rfl, h⟩
  | setPollCycle n =>
    refine Or.inr ⟨rfl, ?_⟩
    obtain ⟨h1, h2, _⟩ := setPollCycle_frame n w
    exact ⟨h1, h2, setPollCycle_neverConnected n w h⟩
  | respond i resp =>
    cases hg : w.pending.get? i with
    | none =>
      have hi : ¬ i < w.pending.length := by
        intro hlt
        rw [List.get?_eq_get hlt] at hg
        cases hg
      refine Or.inr ⟨?_, ?_⟩
      · cases resp <;> simp [successes, hi]
      · have hw : step w (Event.respond i resp) = w := by simp only [step, respond, hg]
        rw [hw]
        exact ⟨rfl, rfl, h⟩
    | some p =>
      have hi : i < w.pending.length := by
        by_contra hge
        rw [List.get?_eq_none.mpr (Nat.le_of_not_lt hge)] at hg
        cases hg
      have hp := h.2.2.2.2.2 p (List.get?_mem hg)
      have hw : NeverConnected { w with pending := w.pending.eraseIdx i } := by
        obtain ⟨h1, h2, h3, h4, h5, h6⟩ := h
        exact ⟨h1, h2, h3, h4, h5, fun q hq => h6 q (List.mem_of_mem_eraseIdx hq)⟩
      cases resp with
      | ok d =>
        obtain ⟨hreq, hlatch⟩ := pollStatusResume_first p d
          { w with pending := w.pending.eraseIdx i } hp.1 hp.2 h.2.2.1
        refine Or.inl ⟨?_, ?_, ?_, ?_⟩
        · simp [successes, hi]
        · simp only [step, respond, hg, settingsFetches, hreq]
          simp
        · simp only [step, respond, hg, fileListFetches, hreq]
          simp
        · simpa only [step, respond, hg] using hlatch
      | error =>
        refine Or.inr ⟨?_, ?_⟩
        · simp [successes]
        · simp only [step, respond, hg]
          obtain ⟨h1, h2, _⟩ := pollStatusResume_error_frame p
            { w with pending := w.pending.eraseIdx i }
          exact ⟨h1, h2, pollStatusResume_error_neverConnected p _ hw⟩

theorem successes_append (es es2 : List Event) (w : World) :
    successes w (es ++ es2) = successes w es + successes (run w es) es2 := by
  induction es generalizing w with
  | nil => simp [successes, run]
  | cons e es ih =>
    have hr : run w (e :: es) = run (step w e) es := rfl
    rw [hr, List.cons_append]
    simp only [successes]
    rw [ih (step w e)]
    omega

theorem run_append (es es2 : List Event) (w : World) :
    run w (es ++ es2) = run (run w es) es2 := by
  simp [run, List.foldl_append]

/-- Over a run from a never-connected world the bootstrap requests number 0
while no poll has succeeded, and 1 afterwards; until the first success the
world stays never-connected, after it the latch is set. -/
theorem run_neverConnected (es : List Event) (w : World) (h : NeverConnected w) :
    settingsFetches (run w es) = settingsFetches w + (if successes w es = 0 then 0 else 1) ∧
    fileListFetches (run w es) = fileListFetches w + (if successes w es = 0 then 0 else 1) ∧
    (successes w es = 0 → NeverConnected (run w es)) ∧
    (successes w es ≠ 0 → (run w es).initialFetchDone = true) := by
  induction es generalizing w with
  | nil => exact ⟨by simp [run, successes], by simp [run, successes], fun _ => h,
      fun hne => absurd rfl hne⟩
  | cons e es ih =>
    have hs : successes w (e :: es) = successes w [e] + successes (step w e) es := by
      simp [successes]
    have hr : run w (e :: es) = run (step w e) es := rfl
    rcases step_neverConnected w e h with ⟨h0, h1, h2, h3⟩ | ⟨h0, h1, h2, h3⟩
    · obtain ⟨g1, g2, g3⟩ := run_latched es (step w e) h3
      have hne : successes w (e :: es) ≠ 0 := by omega
      rw [hr]
      refine ⟨?_, ?_, fun h0 => absurd h0 hne, fun _ => g3⟩
      · rw [g1, h1, if_neg hne]
      · rw [g2, h2, if_neg hne]
    · obtain ⟨g1, g2, g3, g4⟩ := ih (step w e) h3
      have heq : successes w (e :: es) = successes (step w e) es := by omega
      rw [hr, heq]
      exact ⟨by rw [g1, h1], by rw [g2, h2], g3, g4⟩

/-! ## Command resolver and connection state -/

/-- C1: with an identity configured and a pattern loaded, `handlePlayPause`
issues exactly one command, on every status (and with no status at all):
`/exec/resume` iff the pause flag is set (`pause === 1`), whatever the queue
depth; otherwise `/exec/pause` iff `Qd >= 1`; otherwise `/exec/play`.  On a
status with numeric fields `pause = p` and `Qd = q` the command is Resume if
`p = 1`, else Pause if `q ≥ 1`, else Play; so `{pause:1, Qd:5}` gives Resume,
`{pause:0, Qd:3}` gives Pause and `{pause:0, Qd:0}` gives Play. -/
theorem handlePlayPause_precedence (r : State) (w : World)
    (hname : r.robotName ≠ "") (hfile : r.loadedFileName ≠ "") :
    (∃ cmd, (handlePlayPause r w).requests = Request.exec r.robotName cmd :: w.requests ∧
      (cmd = "resume" ∨ cmd = "pause" ∨ cmd = "play") ∧
      (cmd = "resume" ↔ pauseFlag r.statusData = true) ∧
      (cmd = "pause" ↔
        pauseFlag r.statusData = false ∧ queueDepthAtLeastOne r.statusData = true) ∧
      (cmd = "play" ↔
        pauseFlag r.statusData = false ∧ queueDepthAtLeastOne r.statusData = false)) ∧
    (∀ (o : JsObj) (p q : ℚ), r.statusData = some o →
      o.field "pause" = JsVal.num (JsNum.fin p) → o.field "Qd" = JsVal.num (JsNum.fin q) →
      (handlePlayPause r w).requests =
        Request.exec r.robotName
          (if p = 1 then "resume" else if 1 ≤ q then "pause" else "play") :: w.requests) ∧
    (handlePlayPause { r with statusData := some (statusOf 1 5) } w).requests =
      Request.exec r.robotName "resume" :: w.requests ∧
    (handlePlayPause { r with statusData := some (statusOf 0 3) } w).requests =
      Request.exec r.robotName "pause" :: w.requests ∧
    (handlePlayPause { r with statusData := some (statusOf 0 0) } w).requests =
      Request.exec r.robotName "play" :: w.requests := by
  have numeric : ∀ (r : State) (o : JsObj) (p q : ℚ), r.robotName ≠ "" →
      r.loadedFileName ≠ "" → r.statusData = some o →
      o.field "pause" = JsVal.num (JsNum.fin p) → o.field "Qd" = JsVal.num (JsNum.fin q) →
      (handlePlayPause r w).requests =
        Request.exec r.robotName
          (if p = 1 then "resume" else if 1 ≤ q then "pause" else "play") :: w.requests := by
    intro r o p q hn hf hs hp hq
    simp only [handlePlayPause, hn, hf, hs, hp, hq, or_self, if_false, JsVal.strictEqNum,
      JsVal.geNum, JsVal.toNumber, JsNum.strictEq_fin, JsNum.ge_fin, decide_eq_true_eq]
    by_cases h1 : p = 1
    · simp [h1, fetch_requests]
    · by_cases h2 : 1 ≤ q
      · simp [h1, h2, fetch_requests]
      · simp [h1, h2, fetch_requests]
  refine ⟨?_, ?_, ?_, ?_, ?_⟩
  · cases hs : r.statusData with
    | none =>
      refine ⟨"play", ?_, ?_⟩
      · simp [handlePlayPause, hname, hfile, hs, fetch_requests]
      · simp [pauseFlag, queueDepthAtLeastOne]
    | some o =>
      by_cases h1 : (o.field "pause").strictEqNum (JsNum.fin 1) = true
      · refine ⟨"resume", ?_, ?_⟩
        · simp [handlePlayPause, hname, hfile, hs, h1, fetch_requests]
        · simp [pauseFlag, queueDepthAtLeastOne, h1]
      · by_cases h2 : (o.field "Qd").geNum (JsNum.fin 1) = true
        · refine ⟨"pause", ?_, ?_⟩
          · simp [handlePlayPause, hname, hfile, hs, h1, h2, fetch_requests]
          · simp [pauseFlag, queueDepthAtLeastOne, h1, h2]
        · refine ⟨"play", ?_, ?_⟩
          · simp [handlePlayPause, hname, hfile, hs, h1, h2, fetch_requests]
          · simp [pauseFlag, queueDepthAtLeastOne, h1, h2]
  · intro o p q hs hp hq
    exact numeric r o p q hname hfile hs hp hq
  · have := numeric { r with statusData := some (statusOf 1 5) } (statusOf 1 5) 1 5
      hname hfile rfl rfl rfl
    simpa using this
  · have := numeric { r with statusData := some (statusOf 0 3) } (statusOf 0 3) 0 3
      hname hfile rfl rfl rfl
    simpa using this
  · have := numeric { r with statusData := some (statusOf 0 0) } (statusOf 0 0) 0 0
      hname hfile rfl rfl rfl
    simpa using this

/-- Witness of C1: the status `{pause:1, Qd:5}` of the robot `bot` with the
pattern `a.thr` loaded resolves to Resume. -/
theorem handlePlayPause_precedence_witness :
    ("bot" ≠ "" ∧ "a.thr" ≠ "") ∧
    (handlePlayPause { State.init with
        robotName := "bot", loadedFileName := "a.thr", statusData := some (statusOf 1 5) }
      World.init).requests = [Request.exec "bot" "resume"] :=
  ⟨⟨by decide, by decide⟩,
    by
      have h := (handlePlayPause_precedence { State.init with
        robotName := "bot", loadedFileName := "a.thr", statusData := some (statusOf 1 5) }
        World.init (by decide) (by decide)).2.1 (statusOf 1 5) 1 5 rfl rfl rfl
      simpa [World.init] using h⟩

/-- C2: `getCurrentStatus` depends on `connected` and `statusData` only and
has four values.  It is `offline` iff `connected` is false or there is no
status.  Otherwise, for a queue depth `Qd = q` (a count, so `0 ≤ q`), it is
`idle` iff `q = 0`, `doodling` iff `q > 0` and the pause flag is not set, and
`paused` iff `q > 0` and the pause flag is set. -/
theorem getCurrentStatus_classifies (r : State) :
    (∀ r2 : State, r2.connected = r.connected → r2.statusData = r.statusData →
      getCurrentStatus r2 = getCurrentStatus r) ∧
    (getCurrentStatus r = ConnectionState.offline ∨ getCurrentStatus r = ConnectionState.idle ∨
      getCurrentStatus r = ConnectionState.doodling ∨
      getCurrentStatus r = ConnectionState.paused) ∧
    (getCurrentStatus r = ConnectionState.offline ↔
      r.connected = false ∨ r.statusData = none) ∧
    (∀ (o : JsObj) (q : ℚ), r.connected = true → r.statusData = some o →
      o.field "Qd" = JsVal.num (JsNum.fin q) → 0 ≤ q →
      (getCurrentStatus r = ConnectionState.idle ↔ q = 0) ∧
      (getCurrentStatus r = ConnectionState.doodling ↔
        0 < q ∧ pauseFlag r.statusData = false) ∧
      (getCurrentStatus r = ConnectionState.paused ↔
        0 < q ∧ pauseFlag r.statusData = true)) := by
  refine ⟨?_, ?_, ?_, ?_⟩
  · intro r2 hc hs
    simp [getCurrentStatus, hc, hs]
  · cases r.connected.eq_false_or_eq_true with
    | inl hc =>
      cases hs : r.statusData with
      | none => simp [getCurrentStatus, hc, hs]
      | some o =>
        by_cases h1 : (o.field "Qd").gtNum (JsNum.fin 0) = true <;>
          by_cases h2 : (o.field "pause").strictEqNum (JsNum.fin 1) = true <;>
          simp [getCurrentStatus, hc, hs, h1, h2]
    | inr hc => simp [getCurrentStatus, hc]
  · cases r.connected.eq_false_or_eq_true with
    | inl hc =>
      cases hs : r.statusData with
      | none => simp [getCurrentStatus, hc, hs]
      | some o =>
        by_cases h1 : (o.field "Qd").gtNum (JsNum.fin 0) = true <;>
          by_cases h2 : (o.field "pause").strictEqNum (JsNum.fin 1) = true <;>
          simp [getCurrentStatus, hc, hs, h1, h2]
    | inr hc => simp [getCurrentStatus, hc]
  · intro o q hc hs hq hq0
    have hgt : (o.field "Qd").gtNum (JsNum.fin 0) = decide (0 < q) := by
      simp [hq, JsVal.gtNum, JsVal.toNumber, JsNum.gt_fin]
    have hpos : 0 < q ↔ ¬ q = 0 := by
      constructor
      · intro h; exact ne_of_gt h
      · intro h; exact lt_of_le_of_ne hq0 (Ne.symm h)
    by_cases h1 : 0 < q <;>
      by_cases h2 : (o.field "pause").strictEqNum (JsNum.fin 1) = true <;>
      simp [getCurrentStatus, hc, hs, hgt, h1, h2, pauseFlag, hpos.mp] <;>
      first
        | exact hpos.mp h1
        | exact not_not.mp (fun h => h1 (hpos.mpr h))

/-- Witness of C2: connected with the status `{pause:1, Qd:5}` the state is
`paused`, not `idle` and not `doodling`. -/
theorem getCurrentStatus_classifies_witness :
    (0 : ℚ) ≤ 5 ∧
    getCurrentStatus { State.init with connected := true, statusData := some (statusOf 1 5) }
      = ConnectionState.paused :=
  ⟨by norm_num,
    ((getCurrentStatus_classifies
        { State.init with connected := true, statusData := some (statusOf 1 5) }).2.2.2
      (statusOf 1 5) 5 rfl rfl rfl (by norm_num)).2.2.mpr ⟨by norm_num, by decide⟩⟩

/-! ## Poll outcomes -/

/-- C3: for every prior state and every call of `pollStatus` in flight, a
failed poll leaves `statusData` exactly as it was and sets `connected` to
false, so that `getCurrentStatus` is `offline` whatever the stale status holds;
this also holds for the whole poll (the call and its failure), and the stale
status may well say `Qd > 0`. -/
theorem pollStatus_failure_keeps_status (p : Pending) (w : World) (r : State) :
    (pollStatusResume p Response.error w).state.statusData = w.state.statusData ∧
    (pollStatusResume p Response.error w).state.connected = false ∧
    getCurrentStatus (pollStatusResume p Response.error w).state = ConnectionState.offline ∧
    (pollStatusResume p Response.error (pollStatus r w)).state.statusData
      = w.state.statusData ∧
    (pollStatusResume p Response.error (pollStatus r w)).state.connected = false ∧
    getCurrentStatus (pollStatusResume p Response.error (pollStatus r w)).state
      = ConnectionState.offline ∧
    (∀ s : State, s.statusData = some (statusOf 0 3) →
      (pollStatusResume p Response.error { w with state := s }).state.statusData
        = some (statusOf 0 3) ∧
      getCurrentStatus (pollStatusResume p Response.error { w with state := s }).state
        = ConnectionState.offline) := by
  have hs : ∀ v : World, (pollStatus r v).state.statusData = v.state.statusData := by
    intro v
    unfold pollStatus
    split <;> simp [World.setState, World.fetch]
  refine ⟨?_, ?_, ?_, ?_, ?_, ?_, ?_⟩
  · simp [pollStatusResume, World.setState]
  · simp [pollStatusResume, World.setState]
  · simp [pollStatusResume, World.setState, getCurrentStatus]
  · simpa [pollStatusResume, World.setState] using hs w
  · simp [pollStatusResume, World.setState]
  · simp [pollStatusResume, World.setState, getCurrentStatus]
  · intro s hst
    simp [pollStatusResume, World.setState, getCurrentStatus, hst]

/-- C4: for every prior state and every status payload `d`, a successful poll
replaces `statusData` by `d` as a whole and sets `connected`; the connection
state after it is a function of `d` alone (the same from any two prior
worlds), one of `idle`, `doodling`, `paused`; and any number of further polls
that return the same `d`, from whatever closures and whether or not the
bootstrap fetch has fired, leave `statusData`, `connected` and the connection
state where the first one put them. -/
theorem pollStatus_success_replaces_status (p : Pending) (w : World) (d : JsObj) :
    (pollStatusResume p (Response.ok d) w).state.statusData = some d ∧
    (pollStatusResume p (Response.ok d) w).state.connected = true ∧
    (∀ (p2 : Pending) (w2 : World),
      getCurrentStatus (pollStatusResume p2 (Response.ok d) w2).state =
        getCurrentStatus (pollStatusResume p (Response.ok d) w).state) ∧
    (getCurrentStatus (pollStatusResume p (Response.ok d) w).state = ConnectionState.idle ∨
      getCurrentStatus (pollStatusResume p (Response.ok d) w).state = ConnectionState.doodling ∨
      getCurrentStatus (pollStatusResume p (Response.ok d) w).state = ConnectionState.paused) ∧
    (∀ polls : List (State × Pending),
      ((polls.foldl (fun v rq => pollStatusResume rq.2 (Response.ok d) (pollStatus rq.1 v))
          (pollStatusResume p (Response.ok d) w)).state.statusData = some d) ∧
      ((polls.foldl (fun v rq => pollStatusResume rq.2 (Response.ok d) (pollStatus rq.1 v))
          (pollStatusResume p (Response.ok d) w)).state.connected = true) ∧
      getCurrentStatus
        (polls.foldl (fun v rq => pollStatusResume rq.2 (Response.ok d) (pollStatus rq.1 v))
          (pollStatusResume p (Response.ok d) w)).state =
        getCurrentStatus (pollStatusResume p (Response.ok d) w).state) := by
  have hsd : ∀ (q : Pending) (v : World),
      (pollStatusResume q (Response.ok d) v).state.statusData = some d := by
    intro q v; rw [pollStatusResume_ok_state]
  have hco : ∀ (q : Pending) (v : World),
      (pollStatusResume q (Response.ok d) v).state.connected = true := by
    intro q v; rw [pollStatusResume_ok_state]
  have hcs : ∀ (q : Pending) (v : World),
      getCurrentStatus (pollStatusResume q (Response.ok d) v).state =
        (if (d.field "Qd").gtNum (JsNum.fin 0) then
          (if (d.field "pause").strictEqNum (JsNum.fin 1) then ConnectionState.paused
            else ConnectionState.doodling)
        else ConnectionState.idle) := by
    intro q v
    exact getCurrentStatus_connected _ d (hco q v) (hsd q v)
  have hfold : ∀ (polls : List (State × Pending)) (v : World),
      v.state.statusData = some d → v.state.connected = true →
      (polls.foldl (fun v rq => pollStatusResume rq.2 (Response.ok d) (pollStatus rq.1 v))
        v).state.statusData = some d ∧
      (polls.foldl (fun v rq => pollStatusResume rq.2 (Response.ok d) (pollStatus rq.1 v))
        v).state.connected = true := by
    intro polls
    induction polls with
    | nil => intro v h1 h2; exact ⟨h1, h2⟩
    | cons rq rest ih =>
      intro v _ _
      exact ih _ (hsd _ _) (hco _ _)
  refine ⟨hsd p w, hco p w, ?_, ?_, ?_⟩
  · intro p2 w2
    rw [hcs, hcs]
  · rw [hcs]
    by_cases h1 : (d.field "Qd").gtNum (JsNum.fin 0) = true <;>
      by_cases h2 : (d.field "pause").strictEqNum (JsNum.fin 1) = true <;>
      simp [h1, h2]
  · intro polls
    obtain ⟨h1, h2⟩ := hfold polls _ (hsd p w) (hco p w)
    refine ⟨h1, h2, ?_⟩
    rw [getCurrentStatus_connected _ d h2 h1, hcs]

/-! ## Bootstrap fetches -/

/-- C5: with the identity held fixed, from a never-connected world and over
every run (interval ticks, delayed calls of `pollStatus`, poll-cycle changes,
polls settling with a payload or failing, in any order and overlapping), the
bootstrap sequence (`fetchSettings` and `fetchFileList`) has been issued 0
times while no poll has succeeded and exactly once from the first successful
poll on: the event that triggers it is the first success and no other. -/
theorem bootstrap_exactly_once (w : World) (h : NeverConnected w) (es : List Event) :
    settingsFetches (run w es) = settingsFetches w + (if successes w es = 0 then 0 else 1) ∧
    fileListFetches (run w es) = fileListFetches w + (if successes w es = 0 then 0 else 1) ∧
    (∀ e : Event,
      (settingsFetches (run w (es ++ [e])) = settingsFetches (run w es) + 1 ↔
        successes w es = 0 ∧ successes w (es ++ [e]) = 1) ∧
      (¬ (successes w es = 0 ∧ successes w (es ++ [e]) = 1) →
        settingsFetches (run w (es ++ [e])) = settingsFetches (run w es) ∧
        fileListFetches (run w (es ++ [e])) = fileListFetches (run w es))) := by
  obtain ⟨h1, h2, _, _⟩ := run_neverConnected es w h
  refine ⟨h1, h2, ?_⟩
  intro e
  obtain ⟨g1, g2, _, _⟩ := run_neverConnected (es ++ [e]) w h
  have hle : successes (run w es) [e] ≤ 1 := by
    cases e with
    | respond i resp =>
      cases resp with
      | ok d => simp only [successes]; split <;> simp
      | error => simp [successes]
    | _ => simp [successes]
  have happ := successes_append es [e] w
  constructor
  · constructor
    · intro hinc
      rw [g1, h1] at hinc
      by_cases a : successes w es = 0
      · by_cases b : successes w (es ++ [e]) = 0
        · simp [a, b] at hinc
        · exact ⟨a, by omega⟩
      · have b : successes w (es ++ [e]) ≠ 0 := by omega
        simp [a, b] at hinc
    · rintro ⟨a, b⟩
      rw [g1, h1]
      simp [a, b]
  · intro hnot
    rw [g1, g2, h1, h2]
    by_cases a : successes w es = 0
    · have b : successes w (es ++ [e]) = 0 := by
        by_contra hb
        exact hnot ⟨a, by omega⟩
      simp [a, b]
    · have b : successes w (es ++ [e]) ≠ 0 := by omega
      simp [a, b]

theorem botWorld_neverConnected : NeverConnected botWorld := by
  refine ⟨rfl, rfl, rfl, ?_, ?_, ?_⟩
  · intro r hr
    simp [botWorld, setRobotName, pollingEffect, pollStatus, World.setState, World.fetch,
      World.init, State.init] at hr
    rcases hr with hr | hr | hr <;> rw [hr]
  · intro r hr
    simp [botWorld, setRobotName, pollingEffect, pollStatus, World.setState, World.fetch,
      World.init, State.init] at hr
    rw [← hr]
  · intro q hq
    simp [botWorld, setRobotName, pollingEffect, pollStatus, World.setState, World.fetch,
      World.init, State.init] at hq
    rw [hq]
    exact ⟨rfl, by decide⟩

/-- Witness of C5: on `botWorld`, after a success, a failure and a second
success, the bootstrap requests have been issued once. -/
theorem bootstrap_exactly_once_witness :
    NeverConnected botWorld ∧
    settingsFetches (run botWorld (reconnectRun ++ [Event.respond 0 (Response.ok idleStatus)]))
      = settingsFetches botWorld +
        (if successes botWorld
            (reconnectRun ++ [Event.respond 0 (Response.ok idleStatus)]) = 0 then 0 else 1) :=
  ⟨botWorld_neverConnected,
    (bootstrap_exactly_once botWorld botWorld_neverConnected
      (reconnectRun ++ [Event.respond 0 (Response.ok idleStatus)])).1⟩

/-- C6, the claim as stated fails: on `botWorld`, after a successful poll and
a failed one, the next successful poll takes `connected` from false to true
and issues no bootstrap request (their number stays 1). -/
theorem reconnect_issues_no_bootstrap :
    (run botWorld reconnectRun).state.connected = false ∧
    (step (run botWorld reconnectRun)
      (Event.respond 0 (Response.ok idleStatus))).state.connected = true ∧
    settingsFetches (run botWorld reconnectRun) = 1 ∧
    settingsFetches (step (run botWorld reconnectRun)
      (Event.respond 0 (Response.ok idleStatus))) = 1 ∧
    fileListFetches (step (run botWorld reconnectRun)
      (Event.respond 0 (Response.ok idleStatus))) = 1 := by
  decide

/-- C6, amended: a successful poll triggers the bootstrap fetch sequence iff
the closure that made it saw `connected = false` and the latch
`initialFetchDone` is unset, and it then sets the latch.  So a poll made while
connected triggers none, and once the latch is set no event of a run with the
identity unchanged triggers one: not a reconnect after a failed poll either. -/
theorem bootstrap_iff_latch_unset (p : Pending) (d : JsObj) (w : World)
    (hn : p.robotName ≠ "") :
    ((settingsFetches (pollStatusResume p (Response.ok d) w) = settingsFetches w + 1 ∧
        fileListFetches (pollStatusResume p (Response.ok d) w) = fileListFetches w + 1) ↔
      (p.wasConnected = false ∧ w.initialFetchDone = false)) ∧
    (p.wasConnected = false → w.initialFetchDone = false →
      (pollStatusResume p (Response.ok d) w).initialFetchDone = true) ∧
    (¬ (p.wasConnected = false ∧ w.initialFetchDone = false) →
      settingsFetches (pollStatusResume p (Response.ok d) w) = settingsFetches w ∧
      fileListFetches (pollStatusResume p (Response.ok d) w) = fileListFetches w) ∧
    (w.initialFetchDone = true → ∀ es : List Event,
      settingsFetches (run w es) = settingsFetches w ∧
      fileListFetches (run w es) = fileListFetches w) := by
  have hno : ¬ (p.wasConnected = false ∧ w.initialFetchDone = false) →
      settingsFetches (pollStatusResume p (Response.ok d) w) = settingsFetches w ∧
      fileListFetches (pollStatusResume p (Response.ok d) w) = fileListFetches w := by
    intro h
    by_cases hp : p.wasConnected = true
    · obtain ⟨h1, h2, _⟩ := pollStatusResume_wasConnected p (Response.ok d) w hp
      exact ⟨h1, h2⟩
    · have hl : w.initialFetchDone = true := by
        cases hw : w.initialFetchDone with
        | true => rfl
        | false => exact absurd ⟨by simpa using hp, hw⟩ h
      obtain ⟨h1, h2, _⟩ := pollStatusResume_latched p (Response.ok d) w hl
      exact ⟨h1, h2⟩
  refine ⟨⟨?_, ?_⟩, ?_, hno, ?_⟩
  · intro hinc
    by_contra h
    have := (hno h).1
    omega
  · rintro ⟨hp, hl⟩
    obtain ⟨hreq, _⟩ := pollStatusResume_first p d w hp hn hl
    simp [settingsFetches, fileListFetches, hreq]
  · intro hp hl
    exact (pollStatusResume_first p d w hp hn hl).2
  · intro hl es
    obtain ⟨h1, h2, _⟩ := run_latched es w hl
    exact ⟨h1, h2⟩

/-- Witness of C6 amended: the first poll of `botWorld` (made while not
connected, latch unset) triggers the bootstrap requests. -/
theorem bootstrap_iff_latch_unset_witness :
    "bot" ≠ "" ∧
    settingsFetches (pollStatusResume { robotName := "bot", wasConnected := false }
      (Response.ok idleStatus) botWorld) = settingsFetches botWorld + 1 :=
  ⟨by decide,
    ((bootstrap_iff_latch_unset { robotName := "bot", wasConnected := false } idleStatus
      botWorld (by decide)).1.mpr ⟨rfl, rfl⟩).1⟩

/-- C7, the code at the failing input: connected to `bot`, the name is
changed to `bot2`.  The latch is reset, but the `pollStatus` called by the
effect belongs to a render in which `connected` is still true, so its
`wasConnected` is true: the first successful poll of `bot2` issues no
bootstrap request (no `/getsettings`, no `/filelist/` to `bot2`), and neither
does the next poll made by the interval. -/
theorem rename_while_connected_skips_bootstrap :
    renamedWorld.state.robotName = "bot2" ∧
    renamedWorld.initialFetchDone = false ∧
    renamedWorld.pending = [{ robotName := "bot2", wasConnected := true }] ∧
    (respond 0 (Response.ok idleStatus) renamedWorld).requests =
      [Request.status "bot2", Request.filelist "bot", Request.getsettings "bot",
        Request.status "bot"] ∧
    (run renamedWorld [Event.respond 0 (Response.ok idleStatus), Event.tick,
      Event.respond 0 (Response.ok idleStatus)]).requests =
      [Request.status "bot2", Request.status "bot2", Request.filelist "bot",
        Request.getsettings "bot", Request.status "bot"] := by
  decide

/-- C8: `pollStatus` does nothing (no request, no state change) when the
`robotName` of its closure is empty or the `isPolling` of its closure is set.
The code at the failing input: on `botWorld` the first poll is in flight
(`isPolling` is true in the live state), but the interval calls the
`pollStatus` of the render that armed it, in which `isPolling` is false; the
tick passes the guard of line 228 and issues a second `/status` request, so
two polls are in flight. -/
theorem tick_overlaps_poll_in_flight :
    (∀ (r : State) (w : World),
      pollStatus { r with robotName := "" } w = w ∧
      pollStatus { r with isPolling := true } w = w) ∧
    botWorld.state.isPolling = true ∧
    botWorld.pending = [{ robotName := "bot", wasConnected := false }] ∧
    botWorld.interval = some { State.init with robotName := "bot" } ∧
    (tick botWorld).pending =
      [{ robotName := "bot", wasConnected := false },
        { robotName := "bot", wasConnected := false }] ∧
    (tick botWorld).requests = [Request.status "bot", Request.status "bot"] := by
  refine ⟨?_, by decide, by decide, by decide, by decide, by decide⟩
  intro r w
  exact ⟨by simp [pollStatus], by simp [pollStatus]⟩

/-! ## Enablement of the commands -/

/-- C9, the claim as stated fails: with the identity `bot` set, the pattern
`a.thr` loaded and the connection state `offline` (never connected), each of
the four handlers issues its request. -/
theorem handlers_issue_request_when_offline :
    getCurrentStatus { State.init with robotName := "bot", loadedFileName := "a.thr" }
      = ConnectionState.offline ∧
    (handlePlayPause { State.init with robotName := "bot", loadedFileName := "a.thr" }
      World.init).requests = [Request.exec "bot" "play"] ∧
    (handleStop { State.init with robotName := "bot", loadedFileName := "a.thr" }
      World.init).requests = [Request.exec "bot" "stop"] ∧
    (handleHome { State.init with robotName := "bot", loadedFileName := "a.thr" }
      World.init).requests = [Request.exec "bot" "G28"] ∧
    (handleSetHome { State.init with robotName := "bot", loadedFileName := "a.thr" }
      World.init).requests = [Request.exec "bot" "G92 X0 Y0"] := by
  decide

/-- C9, amended: the handlers enforce the identity and pattern preconditions
only.  `handlePlayPause` issues one Resume/Pause/Play request if an identity is
set and a pattern is loaded, and otherwise does nothing; `handleStop`,
`handleHome` and `handleSetHome` issue their request if an identity is set, and
otherwise do nothing; none of them looks at the connection.  The connection
precondition is enforced by the `disabled` attribute of the buttons: play/pause
is disabled iff no pattern is loaded or `connected` is false, the other three
iff `connected` is false; and `connected = false` is an `offline` state. -/
theorem handlers_guard_identity_only (r : State) (w : World) :
    (r.robotName ≠ "" ∧ r.loadedFileName ≠ "" →
      ∃ cmd, (cmd = "resume" ∨ cmd = "pause" ∨ cmd = "play") ∧
        handlePlayPause r w = w.fetch (Request.exec r.robotName cmd)) ∧
    (¬ (r.robotName ≠ "" ∧ r.loadedFileName ≠ "") → handlePlayPause r w = w) ∧
    (r.robotName ≠ "" →
      handleStop r w = w.fetch (Request.exec r.robotName "stop") ∧
      handleHome r w = w.fetch (Request.exec r.robotName "G28") ∧
      handleSetHome r w = w.fetch (Request.exec r.robotName "G92 X0 Y0")) ∧
    (r.robotName = "" → handleStop r w = w ∧ handleHome r w = w ∧ handleSetHome r w = w) ∧
    (∀ c : Bool,
      handlePlayPause { r with connected := c } w = handlePlayPause r w ∧
      handleStop { r with connected := c } w = handleStop r w ∧
      handleHome { r with connected := c } w = handleHome r w ∧
      handleSetHome { r with connected := c } w = handleSetHome r w) ∧
    (isPlayPauseDisabled r = true ↔ r.loadedFileName = "" ∨ r.connected = false) ∧
    (isCommandDisabled r = true ↔ r.connected = false) ∧
    (r.connected = false → getCurrentStatus r = ConnectionState.offline) := by
  refine ⟨?_, ?_, ?_, ?_, ?_, ?_, ?_, ?_⟩
  · rintro ⟨hn, hf⟩
    cases hs : r.statusData with
    | none => exact ⟨"play", by simp, by simp [handlePlayPause, hn, hf, hs]⟩
    | some o =>
      by_cases h1 : (o.field "pause").strictEqNum (JsNum.fin 1) = true
      · exact ⟨"resume", by simp, by simp [handlePlayPause, hn, hf, hs, h1]⟩
      · by_cases h2 : (o.field "Qd").geNum (JsNum.fin 1) = true
        · exact ⟨"pause", by simp, by simp [handlePlayPause, hn, hf, hs, h1, h2]⟩
        · exact ⟨"play", by simp, by simp [handlePlayPause, hn, hf, hs, h1, h2]⟩
  · intro h
    have h2 : r.robotName = "" ∨ r.loadedFileName = "" := by
      by_cases hn : r.robotName = ""
      · exact Or.inl hn
      · by_cases hf : r.loadedFileName = ""
        · exact Or.inr hf
        · exact absurd ⟨hn, hf⟩ h
    simp [handlePlayPause, h2]
  · intro hn
    simp [handleStop, handleHome, handleSetHome, hn]
  · intro hn
    simp [handleStop, handleHome, handleSetHome, hn]
  · intro c
    exact ⟨rfl, rfl, rfl, rfl⟩
  · simp [isPlayPauseDisabled]
  · simp [isCommandDisabled]
  · intro hc
    simp [getCurrentStatus, hc]

/-- Witness of C9 amended: with the identity `bot` and the pattern `a.thr`,
`handlePlayPause` issues a request though the state is offline. -/
theorem handlers_guard_identity_only_witness :
    ("bot" ≠ "" ∧ "a.thr" ≠ "") ∧
    ∃ cmd, (cmd = "resume" ∨ cmd = "pause" ∨ cmd = "play") ∧
      handlePlayPause { State.init with robotName := "bot", loadedFileName := "a.thr" }
        World.init = World.init.fetch (Request.exec "bot" cmd) :=
  ⟨⟨by decide, by decide⟩,
    (handlers_guard_identity_only
      { State.init with robotName := "bot", loadedFileName := "a.thr" } World.init).1
      ⟨by decide, by decide⟩⟩

/-! ## Parsing pattern files -/

theorem parseLine_filter (lines : List (List Char)) :
    (lines.map parseLine).filter (fun coord => !coord.theta.isNaN && !coord.rho.isNaN)
      = lines.filterMap pointOfLine := by
  induction lines with
  | nil => rfl
  | cons line rest ih =>
    rw [List.map_cons, List.filterMap_cons, ← ih]
    unfold parseLine pointOfLine
    rcases hsp : splitOn ' ' line with _ | ⟨tok0, _ | ⟨tok1, more⟩⟩
    · simp [JsVal.isNaN, JsVal.toNumber, JsNum.isNaN]
    · simp [JsVal.isNaN, JsVal.toNumber, JsNum.isNaN]
    · by_cases h0 : (stringToNumber tok0).isNaN = true <;>
        by_cases h1 : (stringToNumber tok1).isNaN = true <;>
        simp [JsVal.isNaN, JsVal.toNumber, h0, h1]

/-- C10, the claim as stated fails: the line `Infinity 0` is retained though
its first token does not parse to a finite number, and the line ` 5`, whose
first token is empty, is retained as the point (0, 5). -/
theorem parseFile_retains_infinity_and_empty_token :
    parseFile "Infinity 0" =
      [{ theta := JsVal.num JsNum.posInf, rho := JsVal.ofNat 0 }] ∧
    JsNum.posInf.isFinite = false ∧
    splitOn ' ' " 5".toList = [[], ['5']] ∧
    parseFile " 5" = [{ theta := JsVal.ofNat 0, rho := JsVal.ofNat 5 }] := by
  decide!

/-- C10, amended: for every text, `parseFile` goes through the lines in order
and retains a line iff it has at least two pieces between spaces and `Number`
of each of the first two is not NaN; the point is made of these two numbers,
pieces after the second are ignored.  Every other line (fewer than two pieces,
a first or second piece that is not numeric) is dropped.  `Number` of an empty
piece is 0 and `Number` of `Infinity` is an infinity, so such pieces do not
drop the line.  The retained points are a subsequence of the per-line points,
at most one per line, with no bound on the number of lines. -/
theorem parseFile_retains_iff (content : String) :
    parseFile content = (splitOn (Char.ofNat 10) content.toList).filterMap pointOfLine ∧
    (∀ line : List Char, (pointOfLine line).isSome = true ↔
      ∃ tok0 tok1 more, splitOn ' ' line = tok0 :: tok1 :: more ∧
        (stringToNumber tok0).isNaN = false ∧ (stringToNumber tok1).isNaN = false ∧
        pointOfLine line = some { theta := JsVal.num (stringToNumber tok0),
                                  rho := JsVal.num (stringToNumber tok1) }) ∧
    stringToNumber [] = JsNum.fin 0 ∧
    stringToNumber "Infinity".toList = JsNum.posInf ∧
    List.Sublist (parseFile content) ((splitOn (Char.ofNat 10) content.toList).map parseLine) ∧
    (parseFile content).length ≤ (splitOn (Char.ofNat 10) content.toList).length ∧
    (∀ c ∈ parseFile content, c.theta.isNaN = false ∧ c.rho.isNaN = false) := by
  refine ⟨parseLine_filter _, ?_, by decide, by decide, ?_, ?_, ?_⟩
  · intro line
    unfold pointOfLine
    rcases hsp : splitOn ' ' line with _ | ⟨tok0, _ | ⟨tok1, more⟩⟩
    · simp
    · simp
    · by_cases h0 : (stringToNumber tok0).isNaN = true
      · simp [h0]
      · by_cases h1 : (stringToNumber tok1).isNaN = true
        · simp [h0, h1]
        · simp only [h0, h1, Bool.not_eq_true, and_self, if_true, Option.isSome_some, true_iff]
          exact ⟨tok0, tok1, more, rfl, by simpa using h0, by simpa using h1, by simp [h0, h1]⟩
  · exact List.filter_sublist _
  · unfold parseFile
    exact (List.length_filter_le _ _).trans (by simp)
  · intro c hc
    unfold parseFile at hc
    have := (List.mem_filter.mp hc).2
    simpa using this

/-- C11: for every text `parseFile` returns a list (it is a total function),
made line by line of the points of the retained lines; a line whose first
piece is not numeric (`Number` gives NaN), or whose second piece is missing or
not numeric, gives no point.  The text of the specification parses to its two
points, in order. -/
theorem parseFile_drops_malformed_lines (content : String) :
    parseFile content = (splitOn (Char.ofNat 10) content.toList).filterMap pointOfLine ∧
    (∀ (line tok0 : List Char) (rest : List (List Char)), splitOn ' ' line = tok0 :: rest →
      (stringToNumber tok0).isNaN = true → pointOfLine line = none) ∧
    (∀ (line tok0 tok1 : List Char) (more : List (List Char)),
      splitOn ' ' line = tok0 :: tok1 :: more →
      (stringToNumber tok1).isNaN = true → pointOfLine line = none) ∧
    (∀ (line tok0 : List Char), splitOn ' ' line = [tok0] → pointOfLine line = none) ∧
    parseFile "0.0 0.5\nbad line\n1.5707963 1.0" =
      [{ theta := JsVal.num (JsNum.fin 0), rho := JsVal.num (JsNum.fin (1 / 2)) },
        { theta := JsVal.num (JsNum.fin (15707963 / 10000000)), rho := JsVal.num (JsNum.fin 1) }] := by
  refine ⟨parseLine_filter _, ?_, ?_, ?_, by decide!⟩
  · intro line tok0 rest hsp h0
    unfold pointOfLine
    rw [hsp]
    cases rest with
    | nil => rfl
    | cons tok1 more => simp [h0]
  · intro line tok0 tok1 more hsp h1
    unfold pointOfLine
    rw [hsp]
    simp [h1]
  · intro line tok0 hsp
    unfold pointOfLine
    rw [hsp]

/-- Witness of C11: the line `bad line` has the first piece `bad`, which is not
numeric, and gives no point. -/
theorem parseFile_drops_malformed_lines_witness :
    (splitOn ' ' "bad line".toList = "bad".toList :: ["line".toList] ∧
      (stringToNumber "bad".toList).isNaN = true) ∧
    pointOfLine "bad line".toList = none :=
  ⟨⟨by decide, by decide⟩,
    (parseFile_drops_malformed_lines "").2.1 "bad line".toList "bad".toList ["line".toList]
      (by decide) (by decide)⟩

/-! ## Drawing time -/

theorem formatDrawingTime_zero {K : Type} [LinearOrderedField K] [FloorRing K] :
    formatDrawingTime (some (0 : K)) = "N/A" := by
  simp [formatDrawingTime]

theorem segmentDistance_eq (maxRadius : ℝ) (prev curr : PolarPoint) :
    segmentDistance maxRadius prev curr =
      euclideanDistance (toCartesian maxRadius prev) (toCartesian maxRadius curr) := by
  simp only [segmentDistance, euclideanDistance, toCartesian, sq]

theorem foldl_add_eq_sum (f : Nat → ℝ) (l : List Nat) (a : ℝ) :
    l.foldl (fun total i => total + f i) a = a + (l.map f).sum := by
  induction l generalizing a with
  | nil => simp
  | cons i l ih => simp [ih, add_assoc]

/-- The loop over the indices 1 to `length - 1` visits the consecutive pairs. -/
theorem loop_eq_zipWith (g : PolarPoint → PolarPoint → ℝ) (d : PolarPoint)
    (l : List PolarPoint) :
    (List.range' 1 (l.length - 1)).map (fun i => g (l.getD (i - 1) d) (l.getD i d)) =
      List.zipWith g l l.tail := by
  apply List.ext_getElem
  · simp
  · intro j h1 h2
    simp only [List.length_map, List.length_range'] at h1
    have hj1 : j < l.length := by omega
    have hj2 : j + 1 < l.length := by omega
    simp [List.getD_eq_getElem?_getD, List.getElem?_eq_getElem, hj1, hj2, Nat.add_comm 1 j]

/-- C13: for every pattern with fewer than 2 points and every geometry config
`calculateDrawingTime` is the sentinel 0 (the function is total), and
`formatDrawingTime` of it is `N/A`; so it is for the parse of a text with no
valid line, whatever its points would be read as. -/
theorem calculateDrawingTime_short_pattern (coordinates : List PolarPoint)
    (robotConfig : RobotConfig) (hlen : coordinates.length < 2) :
    calculateDrawingTime coordinates robotConfig = 0 ∧
    formatDrawingTime (some (calculateDrawingTime coordinates robotConfig)) = "N/A" ∧
    (∀ f : Coord → PolarPoint,
      calculateDrawingTime ((parseFile "bad line").map f) robotConfig = 0) := by
  have h0 : calculateDrawingTime coordinates robotConfig = 0 := by
    simp [calculateDrawingTime, hlen]
  refine ⟨h0, ?_, ?_⟩
  · rw [h0]
    exact formatDrawingTime_zero
  · intro f
    have hp : parseFile "bad line" = [] := by decide
    simp [hp, calculateDrawingTime]

/-- Witness of C13: the pattern of the single point (0, 1). -/
theorem calculateDrawingTime_short_pattern_witness :
    [({ theta := 0, rho := 1 } : PolarPoint)].length < 2 ∧
    formatDrawingTime (some (calculateDrawingTime [{ theta := 0, rho := 1 }] RobotConfig.init))
      = "N/A" :=
  ⟨by decide,
    (calculateDrawingTime_short_pattern [{ theta := 0, rho := 1 }] RobotConfig.init
      (by decide)).2.1⟩

/-- C14, the claim as stated fails: the pattern of two identical points has
at least 2 points and the computed draw time 0, and `formatDrawingTime` of it
is `N/A`, the very text rendered for the empty pattern. -/
theorem zero_duration_renders_as_sentinel :
    calculateDrawingTime [{ theta := 0, rho := 1 }, { theta := 0, rho := 1 }] RobotConfig.init
      = 0 ∧
    formatDrawingTime (some (calculateDrawingTime
      [{ theta := 0, rho := 1 }, { theta := 0, rho := 1 }] RobotConfig.init)) = "N/A" ∧
    formatDrawingTime (some (calculateDrawingTime [] RobotConfig.init)) = "N/A" := by
  have h2 : calculateDrawingTime [{ theta := 0, rho := 1 }, { theta := 0, rho := 1 }]
      RobotConfig.init = 0 := by
    simp [calculateDrawingTime, segmentDistance, List.range']
  have h0 : calculateDrawingTime [] RobotConfig.init = 0 := by
    simp [calculateDrawingTime]
  rw [h2, h0]
  exact ⟨rfl, formatDrawingTime_zero, formatDrawingTime_zero⟩

/-- C14, amended: the sentinel is not distinguishable in formatting from a real
zero-duration estimate: for every pattern with at least 2 points whose computed
draw time is exactly zero, `formatDrawingTime` of it is `N/A`, which is also
the rendering for every pattern with fewer than 2 points. -/
theorem zero_duration_same_rendering (coordinates short : List PolarPoint)
    (robotConfig config2 : RobotConfig) (hlen : 2 ≤ coordinates.length)
    (hzero : calculateDrawingTime coordinates robotConfig = 0) (hshort : short.length < 2) :
    formatDrawingTime (some (calculateDrawingTime coordinates robotConfig)) = "N/A" ∧
    formatDrawingTime (some (calculateDrawingTime coordinates robotConfig)) =
      formatDrawingTime (some (calculateDrawingTime short config2)) := by
  have _ := hlen
  have hs : calculateDrawingTime short config2 = 0 := by
    simp [calculateDrawingTime, hshort]
  rw [hzero, hs]
  exact ⟨formatDrawingTime_zero, rfl⟩

/-- Witness of C14 amended: two identical points against the empty pattern. -/
theorem zero_duration_same_rendering_witness :
    (2 ≤ [({ theta := 0, rho := 1 } : PolarPoint), { theta := 0, rho := 1 }].length ∧
      calculateDrawingTime [{ theta := 0, rho := 1 }, { theta := 0, rho := 1 }]
        RobotConfig.init = 0 ∧
      ([] : List PolarPoint).length < 2) ∧
    formatDrawingTime (some (calculateDrawingTime
      [{ theta := 0, rho := 1 }, { theta := 0, rho := 1 }] RobotConfig.init)) = "N/A" :=
  have h2 : calculateDrawingTime [{ theta := 0, rho := 1 }, { theta := 0, rho := 1 }]
      RobotConfig.init = 0 := by
    simp [calculateDrawingTime, segmentDistance, List.range']
  ⟨⟨by decide, h2, by decide⟩,
    (zero_duration_same_rendering [{ theta := 0, rho := 1 }, { theta := 0, rho := 1 }] []
      RobotConfig.init RobotConfig.init (by decide) h2 (by decide)).1⟩

/-- C15: for every pattern with at least 2 points and every geometry config,
`calculateDrawingTime` is the estimate of the specification: the sum of the
Euclidean distances between consecutive points, each converted to
`(rho * maxRadius * cos theta, rho * maxRadius * sin theta)` with
`maxRadius = max axis0.maxVal axis1.maxVal`, divided by
`avgSpeed = (axis0.maxSpeed + axis1.maxSpeed) / 2` (division of the reals).
For the pattern (0, 1), (0, 0) and the default config it is 10. -/
theorem calculateDrawingTime_eq_estimate (coordinates : List PolarPoint)
    (robotConfig : RobotConfig) (hlen : 2 ≤ coordinates.length) :
    calculateDrawingTime coordinates robotConfig = estimateDrawTime coordinates robotConfig ∧
    calculateDrawingTime coordinates robotConfig =
      (List.zipWith euclideanDistance
          (coordinates.map
            (toCartesian (max robotConfig.axis0.maxVal robotConfig.axis1.maxVal)))
          (coordinates.map
            (toCartesian (max robotConfig.axis0.maxVal robotConfig.axis1.maxVal))).tail).sum
        / ((robotConfig.axis0.maxSpeed + robotConfig.axis1.maxSpeed) / 2) ∧
    calculateDrawingTime [{ theta := 0, rho := 1 }, { theta := 0, rho := 0 }] RobotConfig.init
      = 10 := by
  have key : calculateDrawingTime coordinates robotConfig =
      estimateDrawTime coordinates robotConfig := by
    have hn : ¬ coordinates.length < 2 := by omega
    simp only [calculateDrawingTime, hn, if_false, estimateDrawTime]
    congr 1
    rw [foldl_add_eq_sum, zero_add, loop_eq_zipWith (segmentDistance _)]
    rw [← List.map_tail, List.zipWith_map]
    have hf : segmentDistance (max robotConfig.axis0.maxVal robotConfig.axis1.maxVal) =
        fun a b => euclideanDistance
          (toCartesian (max robotConfig.axis0.maxVal robotConfig.axis1.maxVal) a)
          (toCartesian (max robotConfig.axis0.maxVal robotConfig.axis1.maxVal) b) := by
      funext a b
      exact segmentDistance_eq _ a b
    rw [hf]
  refine ⟨key, ?_, ?_⟩
  · rw [key]
    rfl
  · simp [calculateDrawingTime, segmentDistance, List.range', RobotConfig.init]
    norm_num

/-- Witness of C15: the pattern (0, 1), (0, 0) with the default config. -/
theorem calculateDrawingTime_eq_estimate_witness :
    2 ≤ [({ theta := 0, rho := 1 } : PolarPoint), { theta := 0, rho := 0 }].length ∧
    calculateDrawingTime [{ theta := 0, rho := 1 }, { theta := 0, rho := 0 }] RobotConfig.init
      = estimateDrawTime [{ theta := 0, rho := 1 }, { theta := 0, rho := 0 }]
          RobotConfig.init :=
  ⟨by decide,
    (calculateDrawingTime_eq_estimate [{ theta := 0, rho := 1 }, { theta := 0, rho := 0 }]
      RobotConfig.init (by decide)).1⟩

/-! ## Formatting a duration -/

theorem floor_intCast_div {K : Type} [LinearOrderedField K] [FloorRing K] (s d : Int)
    (hd : 0 < d) : ⌊(s : K) / (d : K)⌋ = s / d := by
  have hdK : (0 : K) < (d : K) := by exact_mod_cast hd
  rw [Int.floor_eq_iff]
  constructor
  · rw [le_div_iff₀ hdK]
    exact_mod_cast Int.ediv_mul_le s (ne_of_gt hd)
  · rw [div_lt_iff₀ hdK]
    exact_mod_cast Int.lt_ediv_add_one_mul_self s hd

theorem jsRemainder_intCast {K : Type} [LinearOrderedField K] [FloorRing K] (s d : Int)
    (hs : 0 ≤ s) (hd : 0 < d) : jsRemainder (s : K) (d : K) = ((s % d : Int) : K) := by
  have hq : (0 : K) ≤ (s : K) / (d : K) := by
    apply div_nonneg
    · exact_mod_cast hs
    · exact_mod_cast le_of_lt hd
  unfold jsRemainder
  rw [if_pos hq, floor_intCast_div s d hd, Int.emod_def]
  push_cast
  ring

/-- C16, the claim as stated fails: `formatDrawingTime(0)` is `N/A`, not `0s`. -/
theorem formatDrawingTime_zero_is_marker :
    formatDrawingTime (some (0 : ℚ)) = "N/A" ∧ formatDrawingTime (some (0 : ℚ)) ≠ "0s" := by
  decide!

/-- C16, amended: `formatDrawingTime(0)` is the marker `N/A`, as it is for a
negative or missing input; for every positive input the seconds are always
shown: the text ends with the whole seconds of the remainder by 60 and `s`. -/
theorem formatDrawingTime_marker_or_seconds {K : Type} [LinearOrderedField K] [FloorRing K] :
    formatDrawingTime (some (0 : K)) = "N/A" ∧
    formatDrawingTime (none : Option K) = "N/A" ∧
    (∀ s : K, s < 0 → formatDrawingTime (some s) = "N/A") ∧
    (∀ s : K, 0 < s → ∃ front : String,
      formatDrawingTime (some s) = front ++ integerText ⌊jsRemainder s 60⌋ ++ "s") := by
  refine ⟨formatDrawingTime_zero, rfl, ?_, ?_⟩
  · intro s hs
    simp [formatDrawingTime, hs]
  · intro s hs
    have h1 : ¬ (s = 0 ∨ s < 0) := by
      rintro (h | h)
      · exact absurd h (ne_of_gt hs)
      · exact absurd h (not_lt.mpr (le_of_lt hs))
    simp only [formatDrawingTime, h1, if_false]
    split
    · exact ⟨integerText ⌊s / 3600⌋ ++ "h " ++ integerText ⌊jsRemainder s 3600 / 60⌋ ++ "m ",
        by simp only [String.append_assoc]⟩
    · split
      · exact ⟨integerText ⌊jsRemainder s 3600 / 60⌋ ++ "m ",
          by simp only [String.append_assoc]⟩
      · exact ⟨"", by simp⟩

/-- Witness of C16 amended: 65 seconds end with `5s`. -/
theorem formatDrawingTime_marker_or_seconds_witness :
    (0 : ℚ) < 65 ∧
    ∃ front : String, formatDrawingTime (some (65 : ℚ)) =
      front ++ integerText ⌊jsRemainder (65 : ℚ) 60⌋ ++ "s" :=
  ⟨by norm_num, formatDrawingTime_marker_or_seconds.2.2.2 65 (by norm_num)⟩

/-- The parts of a positive whole number of seconds, as `formatDrawingTime`
computes them. -/
theorem formatDrawingTime_parts {K : Type} [LinearOrderedField K] [FloorRing K] (s : Int)
    (hs : 0 < s) :
    (⌊(s : K) / 3600⌋ = s / 3600) ∧
    (⌊jsRemainder (s : K) 3600 / 60⌋ = s % 3600 / 60) ∧
    (⌊jsRemainder (s : K) 60⌋ = s % 60) := by
  have h3600 : (3600 : K) = ((3600 : Int) : K) := by norm_num
  have h60 : (60 : K) = ((60 : Int) : K) := by norm_num
  refine ⟨?_, ?_, ?_⟩
  · rw [h3600, floor_intCast_div s 3600 (by norm_num)]
  · rw [h3600, jsRemainder_intCast s 3600 (le_of_lt hs) (by norm_num), h60,
      floor_intCast_div (s % 3600) 60 (by norm_num)]
  · rw [h60, jsRemainder_intCast s 60 (le_of_lt hs) (by norm_num), Int.floor_intCast]

/-! ## Progressive rendering -/

theorem coordinatesToDraw_percent {α : Type} (coordinates : List α) (p : Nat) (hp : p ≤ 100) :
    coordinatesToDraw coordinates (p : ℚ) = coordinates.take (coordinates.length * p / 100) := by
  have hfloor : ⌊(coordinates.length : ℚ) * (p : ℚ) / 100⌋
      = ((coordinates.length * p / 100 : Nat) : Int) := by
    have h := Rat.floor_natCast_div_natCast (coordinates.length * p) 100
    push_cast at h
    rw [h]
    norm_cast
  have hle : coordinates.length * p / 100 ≤ coordinates.length := by
    apply Nat.div_le_of_le_mul
    calc coordinates.length * p ≤ coordinates.length * 100 := Nat.mul_le_mul_left _ hp
      _ = 100 * coordinates.length := Nat.mul_comm _ _
  unfold coordinatesToDraw slice0
  rw [hfloor]
  have hneg : ¬ ((coordinates.length * p / 100 : Nat) : Int) < 0 := by omega
  simp only [hneg, if_false]
  have hmin : min ((coordinates.length * p / 100 : Nat) : Int) (coordinates.length : Int)
      = ((coordinates.length * p / 100 : Nat) : Int) := by
    apply min_eq_left
    exact_mod_cast hle
  rw [hmin, Int.toNat_ofNat]

theorem enumFrom_map_lineTo {α : Type} (cs : List α) (n : Nat) (hn : 0 < n) :
    (List.enumFrom n cs).map
        (fun ic => if ic.1 = 0 then PathCommand.moveTo ic.2 else PathCommand.lineTo ic.2)
      = cs.map PathCommand.lineTo := by
  induction cs generalizing n with
  | nil => rfl
  | cons c cs ih =>
    have hn0 : n ≠ 0 := by omega
    simp only [List.enumFrom_cons, List.map_cons, hn0, if_false]
    rw [ih (n + 1) (by omega)]

/-- C18: the points drawn are a function of the pattern and the progress
alone: for every pattern and every whole progress `p` in [0, 100], the path of
`drawSimulation` goes through exactly the first `floor(len * p / 100)` points
of the pattern, in order, as one connected line (a `moveTo` for the first, a
`lineTo` for each further one); the whole pattern at 100, no point at 0; the
number of points drawn does not decrease with the progress and never exceeds
`len`. -/
theorem drawSimulation_draws_first_points {α : Type} (coordinates : List α) (p : Nat)
    (hp : p ≤ 100) :
    (drawSimulation coordinates (p : ℚ)).map PathCommand.point
      = coordinates.take (coordinates.length * p / 100) ∧
    drawSimulation coordinates (p : ℚ) =
      (match coordinates.take (coordinates.length * p / 100) with
        | [] => []
        | c :: cs => PathCommand.moveTo c :: cs.map PathCommand.lineTo) ∧
    (drawSimulation coordinates ((100 : Nat) : ℚ)).map PathCommand.point = coordinates ∧
    (drawSimulation coordinates ((0 : Nat) : ℚ)).map PathCommand.point = [] ∧
    (∀ p2 : Nat, p ≤ p2 → p2 ≤ 100 →
      (drawSimulation coordinates (p : ℚ)).length ≤
        (drawSimulation coordinates (p2 : ℚ)).length) ∧
    (drawSimulation coordinates (p : ℚ)).length ≤ coordinates.length := by
  have shape : ∀ q : Nat, q ≤ 100 → drawSimulation coordinates (q : ℚ) =
      (match coordinates.take (coordinates.length * q / 100) with
        | [] => []
        | c :: cs => PathCommand.moveTo c :: cs.map PathCommand.lineTo) := by
    intro q hq
    unfold drawSimulation
    by_cases h0 : coordinates.length = 0
    · have : coordinates = [] := List.length_eq_zero.mp h0
      subst this
      simp
    · simp only [h0, if_false]
      rw [coordinatesToDraw_percent coordinates q hq]
      cases coordinates.take (coordinates.length * q / 100) with
      | nil => rfl
      | cons c cs =>
        simp only [List.enum, List.enumFrom_cons, List.map_cons, if_true]
        rw [enumFrom_map_lineTo cs (0 + 1) (by omega)]
  have points : ∀ q : Nat, q ≤ 100 → (drawSimulation coordinates (q : ℚ)).map PathCommand.point
      = coordinates.take (coordinates.length * q / 100) := by
    intro q hq
    rw [shape q hq]
    cases coordinates.take (coordinates.length * q / 100) with
    | nil => rfl
    | cons c cs =>
      simp only [List.map_cons, List.map_map, PathCommand.point]
      congr 1
      induction cs with
      | nil => rfl
      | cons d ds ih => simp [PathCommand.point, ih]
  have len : ∀ q : Nat, q ≤ 100 → (drawSimulation coordinates (q : ℚ)).length
      = min (coordinates.length * q / 100) coordinates.length := by
    intro q hq
    have := congrArg List.length (points q hq)
    simpa using this
  refine ⟨points p hp, shape p hp, ?_, ?_, ?_, ?_⟩
  · rw [points 100 (le_refl _)]
    simp
  · rw [points 0 (by omega)]
    simp
  · intro p2 h12 h2
    rw [len p hp, len p2 h2]
    have : coordinates.length * p / 100 ≤ coordinates.length * p2 / 100 :=
      Nat.div_le_div_right (Nat.mul_le_mul_left _ h12)
    omega
  · rw [len p hp]
    omega

/-- Witness of C18: half of a pattern of four points. -/
theorem drawSimulation_draws_first_points_witness :
    50 ≤ 100 ∧
    (drawSimulation [1, 2, 3, 4] ((50 : Nat) : ℚ)).map PathCommand.point
      = [1, 2, 3, 4].take ([1, 2, 3, 4].length * 50 / 100) :=
  ⟨by decide, (drawSimulation_draws_first_points [1, 2, 3, 4] 50 (by decide)).1⟩

/-! ## History ledger -/

/-- C19, the claim as stated fails: `addToHistory` with the empty file name
appends nothing; the ledger keeps its length. -/
theorem addToHistory_empty_name_adds_nothing :
    (addToHistory { newDate := { toLocaleString := "noon" }, dateNow := 0, mathRandom := 0 }
      "" none World.init).state.fileHistory = [] ∧
    (addToHistory { newDate := { toLocaleString := "noon" }, dateNow := 0, mathRandom := 0 }
      "" (some { toLocaleString := "noon" })
      (addToHistory { newDate := { toLocaleString := "noon" }, dateNow := 0, mathRandom := 0 }
        "a.thr" none World.init)).state.fileHistory.length = 1 := by
  decide

/-- C19, amended: for every non-empty file name, every timestamp and every
ledger, `addToHistory` puts a new entry at the head: the new ledger is the new
entry, carrying that file name (with the text of the timestamp given, or of
`new Date()` when none is given, and the id `Date.now() + Math.random()`),
followed by the previous ledger unchanged, so its length grows by exactly one,
also when the same file was just played.  With the empty file name nothing is
recorded. -/
theorem addToHistory_appends_at_head (env : Ambient) (fileName : String)
    (playStartTime : Option JsDate) (w : World) :
    (fileName ≠ "" →
      (addToHistory env fileName playStartTime w).state.fileHistory =
        { fileName := fileName
          playTimestamp := (playStartTime.getD env.newDate).toLocaleString
          id := env.dateNow + env.mathRandom } :: w.state.fileHistory ∧
      (addToHistory env fileName playStartTime w).state.fileHistory.length =
        w.state.fileHistory.length + 1 ∧
      (addToHistory env fileName playStartTime
        (addToHistory env fileName playStartTime w)).state.fileHistory.length =
        w.state.fileHistory.length + 2) ∧
    (fileName = "" → addToHistory env fileName playStartTime w = w) := by
  constructor
  · intro hne
    have h1 : ∀ v : World, (addToHistory env fileName playStartTime v).state.fileHistory =
        { fileName := fileName
          playTimestamp := (playStartTime.getD env.newDate).toLocaleString
          id := env.dateNow + env.mathRandom } :: v.state.fileHistory := by
      intro v
      cases playStartTime <;> simp [addToHistory, hne, World.setState]
    refine ⟨h1 w, ?_, ?_⟩
    · rw [h1 w]
      rfl
    · rw [h1, h1 w]
      rfl
  · intro he
    simp [addToHistory, he]

/-- Witness of C19 amended: recording `a.thr` in a fresh ledger. -/
theorem addToHistory_appends_at_head_witness :
    "a.thr" ≠ "" ∧
    (addToHistory { newDate := { toLocaleString := "noon" }, dateNow := 0, mathRandom := 0 }
      "a.thr" none World.init).state.fileHistory.length = World.init.state.fileHistory.length + 1 :=
  ⟨by decide,
    ((addToHistory_appends_at_head
      { newDate := { toLocaleString := "noon" }, dateNow := 0, mathRandom := 0 }
      "a.thr" none World.init).1 (by decide)).2.1⟩

theorem record_plays_names (plays : List (Ambient × String × Option JsDate)) (w : World)
    (hne : ∀ play ∈ plays, play.2.1 ≠ "") :
    ((plays.foldl (fun v play => addToHistory play.1 play.2.1 play.2.2 v) w).state.fileHistory.map
        (fun entry => entry.fileName)).reverse =
      (w.state.fileHistory.map (fun entry => entry.fileName)).reverse ++
        plays.map (fun play => play.2.1) := by
  induction plays generalizing w with
  | nil => simp
  | cons play rest ih =>
    have h1 : play.2.1 ≠ "" := hne play (List.mem_cons_self _ _)
    rw [List.foldl_cons, ih _ (fun q hq => hne q (List.mem_cons_of_mem _ hq))]
    simp [addToHistory, h1, World.setState]

/-- C20: the playlist content built by `handleSaveGalleryToPlaylist` is the
file names of the ledger in reverse order, joined by line feeds; building and
sending it leaves the component state, and so the ledger, as it was.  Hence
for every sequence of non-empty file names recorded in that order into an
empty ledger, the exported names are exactly that sequence, oldest first, and
after playing `a.thr` twice they are `a.thr`, `a.thr`. -/
theorem playlist_is_reversed_ledger (r : State) (filename : Option String) (w : World) :
    playlistNames r.fileHistory = (r.fileHistory.map (fun entry => entry.fileName)).reverse ∧
    playlistContent r.fileHistory =
      String.mk (List.intercalate [Char.ofNat 10]
        ((r.fileHistory.map (fun entry => entry.fileName)).reverse.map String.toList)) ∧
    (handleSaveGalleryToPlaylist r filename w).state = w.state ∧
    (handleSaveGalleryToPlaylist r filename w = w ∨
      ∃ name, handleSaveGalleryToPlaylist r filename w =
        w.fetch (Request.uploadtofileman r.robotName name (playlistContent r.fileHistory))) ∧
    (∀ (plays : List (Ambient × String × Option JsDate)) (v : World),
      v.state.fileHistory = [] → (∀ play ∈ plays, play.2.1 ≠ "") →
      playlistNames
        (plays.foldl (fun v play => addToHistory play.1 play.2.1 play.2.2 v) v).state.fileHistory
        = plays.map (fun play => play.2.1)) ∧
    (∀ (e1 e2 : Ambient) (t1 t2 : Option JsDate),
      playlistNames
        (addToHistory e2 "a.thr" t2 (addToHistory e1 "a.thr" t1 World.init)).state.fileHistory
        = ["a.thr", "a.thr"]) := by
  have hnames : ∀ l : List HistoryEntry,
      playlistNames l = (l.map (fun entry => entry.fileName)).reverse := by
    intro l
    simp [playlistNames, List.map_reverse]
  have hrun : ∀ (plays : List (Ambient × String × Option JsDate)) (v : World),
      v.state.fileHistory = [] → (∀ play ∈ plays, play.2.1 ≠ "") →
      playlistNames
        (plays.foldl (fun v play => addToHistory play.1 play.2.1 play.2.2 v) v).state.fileHistory
        = plays.map (fun play => play.2.1) := by
    intro plays v hv hne
    rw [hnames, record_plays_names plays v hne, hv]
    simp
  refine ⟨hnames _, ?_, ?_, ?_, hrun, ?_⟩
  · simp [playlistContent, hnames]
  · unfold handleSaveGalleryToPlaylist
    split
    · rfl
    · cases filename with
      | none => rfl
      | some name =>
        simp only
        split <;> rfl
  · unfold handleSaveGalleryToPlaylist
    split
    · exact Or.inl rfl
    · cases filename with
      | none => exact Or.inl rfl
      | some name =>
        simp only
        split
        · exact Or.inl rfl
        · exact Or.inr ⟨_, rfl⟩
  · intro e1 e2 t1 t2
    have := hrun [(e1, "a.thr", t1), (e2, "a.thr", t2)] World.init rfl
      (by intro play hp; simp at hp; rcases hp with hp | hp <;> subst hp <;> simp)
    simpa using this

/-- Witness of C20: `a.thr` then `b.thr` recorded into the fresh ledger. -/
theorem playlist_is_reversed_ledger_witness :
    (World.init.state.fileHistory = [] ∧ "a.thr" ≠ "" ∧ "b.thr" ≠ "") ∧
    playlistNames
      (addToHistory { newDate := { toLocaleString := "noon" }, dateNow := 1, mathRandom := 0 }
        "b.thr" none
        (addToHistory { newDate := { toLocaleString := "noon" }, dateNow := 0, mathRandom := 0 }
          "a.thr" none World.init)).state.fileHistory = ["a.thr", "b.thr"] :=
  ⟨⟨rfl, by decide, by decide⟩,
    by
      have h := (playlist_is_reversed_ledger State.init none World.init).2.2.2.2.1
        [({ newDate := { toLocaleString := "noon" }, dateNow := 0, mathRandom := 0 },
            "a.thr", none),
          ({ newDate := { toLocaleString := "noon" }, dateNow := 1, mathRandom := 0 },
            "b.thr", none)]
        World.init rfl
        (by intro play hp; simp at hp; rcases hp with hp | hp <;> subst hp <;> simp)
      simpa using h⟩

/-! ## Round trip of a number through its text -/

theorem digitValue_ten (c : Char) :
    digitValue 10 c = if 48 ≤ c.toNat ∧ c.toNat ≤ 57 then some (c.toNat - 48) else none := by
  unfold digitValue
  simp only
  split_ifs <;> simp_all <;> omega

theorem isDecimalDigit_iff (c : Char) :
    isDecimalDigit c = true ↔ 48 ≤ c.toNat ∧ c.toNat ≤ 57 := by
  unfold isDecimalDigit
  rw [digitValue_ten]
  split_ifs with h <;> simp [h]

theorem digitValue_of_digit (c : Char) (h : isDecimalDigit c = true) :
    digitValue 10 c = some (c.toNat - 48) := by
  rw [digitValue_ten, if_pos ((isDecimalDigit_iff c).mp h)]

theorem digitChar_toNat (d : Nat) (h : d < 10) : (digitChar d).toNat = 48 + d := by
  interval_cases d <;> rfl

theorem isDecimalDigit_digitChar (d : Nat) (h : d < 10) : isDecimalDigit (digitChar d) = true := by
  rw [isDecimalDigit_iff, digitChar_toNat d h]
  omega

theorem foldl_digits_some (cs : List Char) (h : ∀ c ∈ cs, isDecimalDigit c = true) (a : Nat) :
    cs.foldl (fun acc c =>
        match acc, digitValue 10 c with
        | some a, some d => some (a * 10 + d)
        | _, _ => none) (some a)
      = some (cs.foldl (fun a c => a * 10 + (c.toNat - 48)) a) := by
  induction cs generalizing a with
  | nil => rfl
  | cons c cs ih =>
    have hc := digitValue_of_digit c (h c (List.mem_cons_self _ _))
    simp only [List.foldl_cons, hc]
    exact ih (fun x hx => h x (List.mem_cons_of_mem _ hx)) _

theorem digitsValue_of_digits (cs : List Char) (h : ∀ c ∈ cs, isDecimalDigit c = true) :
    digitsValue 10 cs = if cs = [] then none else some (digitsNat cs) := by
  unfold digitsValue digitsNat
  split_ifs with h0
  · rfl
  · exact foldl_digits_some cs h 0

theorem digitsValue_getD (cs : List Char) (h : ∀ c ∈ cs, isDecimalDigit c = true) :
    (digitsValue 10 cs).getD 0 = digitsNat cs := by
  rw [digitsValue_of_digits cs h]
  split_ifs with h0
  · subst h0; rfl
  · rfl

theorem foldl_digits_append (ys : List Char) (a : Nat) :
    ys.foldl (fun a c => a * 10 + (c.toNat - 48)) a
      = a * 10 ^ ys.length + ys.foldl (fun a c => a * 10 + (c.toNat - 48)) 0 := by
  induction ys generalizing a with
  | nil => simp
  | cons c ys ih =>
    simp only [List.foldl_cons, List.length_cons]
    rw [ih (a * 10 + (c.toNat - 48)), ih (0 * 10 + (c.toNat - 48))]
    ring

theorem digitsNat_append (xs ys : List Char) :
    digitsNat (xs ++ ys) = digitsNat xs * 10 ^ ys.length + digitsNat ys := by
  unfold digitsNat
  rw [List.foldl_append, foldl_digits_append]

theorem digitsNat_zeros (m : Nat) : digitsNat (List.replicate m '0') = 0 := by
  induction m with
  | zero => rfl
  | succ m ih =>
    rw [List.replicate_succ]
    have := digitsNat_append ['0'] (List.replicate m '0')
    simp only [List.singleton_append] at this
    have h0 : digitsNat ['0'] = 0 := by decide
    rw [this, ih, h0]
    simp

theorem decimalDigitsAux_spec (fuel n : Nat) (h : n < fuel) :
    decimalDigitsAux fuel n ≠ [] ∧
    (∀ c ∈ decimalDigitsAux fuel n, isDecimalDigit c = true) ∧
    digitsNat (decimalDigitsAux fuel n) = n := by
  induction fuel generalizing n with
  | zero => omega
  | succ fuel ih =>
    unfold decimalDigitsAux
    split_ifs with h10
    · refine ⟨by simp, ?_, ?_⟩
      · intro c hc
        rw [List.mem_singleton] at hc
        rw [hc]
        exact isDecimalDigit_digitChar n h10
      · simp [digitsNat, digitChar_toNat n h10]
    · obtain ⟨_, h2, h3⟩ := ih (n / 10) (by omega)
      refine ⟨by simp, ?_, ?_⟩
      · intro c hc
        rcases List.mem_append.mp hc with hc | hc
        · exact h2 c hc
        · rw [List.mem_singleton] at hc
          rw [hc]
          exact isDecimalDigit_digitChar _ (Nat.mod_lt _ (by norm_num))
      · rw [digitsNat_append, h3]
        simp only [List.length_singleton, pow_one, digitsNat, List.foldl_cons, List.foldl_nil,
          zero_mul, zero_add, digitChar_toNat _ (Nat.mod_lt n (by norm_num : 10 > 0))]
        omega

theorem decimalDigits_spec (n : Nat) :
    decimalDigits n ≠ [] ∧
    (∀ c ∈ decimalDigits n, isDecimalDigit c = true) ∧
    digitsNat (decimalDigits n) = n :=
  decimalDigitsAux_spec (n + 1) n (Nat.lt_succ_self n)

theorem exponentValue_plus (m : Nat) :
    exponentValue ('e' :: '+' :: decimalDigits m) = some (m : Int) := by
  obtain ⟨h1, h2, h3⟩ := decimalDigits_spec m
  simp [exponentValue, digitsValue_of_digits _ h2, h1, h3]

theorem exponentValue_minus (m : Nat) :
    exponentValue ('e' :: '-' :: decimalDigits m) = some (-(m : Int)) := by
  obtain ⟨h1, h2, h3⟩ := decimalDigits_spec m
  simp [exponentValue, digitsValue_of_digits _ h2, h1, h3]

/-- Reading `ip . fp r2`: digits, a point, digits, and an exponent part. -/
theorem unsignedDecimalValue_point (ip fp r2 : List Char) (x : Int)
    (hip : ∀ c ∈ ip, isDecimalDigit c = true) (hfp : ∀ c ∈ fp, isDecimalDigit c = true)
    (hr2 : r2 = [] ∨ ∃ r, r2 = 'e' :: r) (hx : exponentValue r2 = some x)
    (hne : ¬ (ip = [] ∧ fp = [])) :
    unsignedDecimalValue (ip ++ '.' :: (fp ++ r2)) =
      some (((digitsNat ip : ℚ) + (digitsNat fp : ℚ) / (10 : ℚ) ^ fp.length) * (10 : ℚ) ^ x) := by
  have hdot : isDecimalDigit '.' = false := by decide
  have he : isDecimalDigit 'e' = false := by decide
  have t1 : List.takeWhile isDecimalDigit (ip ++ '.' :: (fp ++ r2)) = ip := by
    rw [List.takeWhile_append_of_pos hip]
    simp [List.takeWhile_cons, hdot]
  have d1 : List.dropWhile isDecimalDigit (ip ++ '.' :: (fp ++ r2)) = '.' :: (fp ++ r2) := by
    rw [List.dropWhile_append_of_pos hip]
    simp [List.dropWhile_cons, hdot]
  have t2 : List.takeWhile isDecimalDigit (fp ++ r2) = fp := by
    rw [List.takeWhile_append_of_pos hfp]
    rcases hr2 with h | ⟨r, h⟩
    · simp [h]
    · simp [h, List.takeWhile_cons, he]
  have d2 : List.dropWhile isDecimalDigit (fp ++ r2) = r2 := by
    rw [List.dropWhile_append_of_pos hfp]
    rcases hr2 with h | ⟨r, h⟩
    · simp [h]
    · simp [h, List.dropWhile_cons, he]
  unfold unsignedDecimalValue
  simp only [t1, d1, t2, d2, hx, hne, if_false, digitsValue_getD ip hip, digitsValue_getD fp hfp]

/-- Reading `ip r2`: digits and an exponent part, no point. -/
theorem unsignedDecimalValue_whole (ip r2 : List Char) (x : Int)
    (hip : ∀ c ∈ ip, isDecimalDigit c = true)
    (hr2 : r2 = [] ∨ ∃ r, r2 = 'e' :: r) (hx : exponentValue r2 = some x) (hne : ip ≠ []) :
    unsignedDecimalValue (ip ++ r2) = some ((digitsNat ip : ℚ) * (10 : ℚ) ^ x) := by
  have he : isDecimalDigit 'e' = false := by decide
  have t1 : List.takeWhile isDecimalDigit (ip ++ r2) = ip := by
    rw [List.takeWhile_append_of_pos hip]
    rcases hr2 with h | ⟨r, h⟩
    · simp [h]
    · simp [h, List.takeWhile_cons, he]
  have d1 : List.dropWhile isDecimalDigit (ip ++ r2) = r2 := by
    rw [List.dropWhile_append_of_pos hip]
    rcases hr2 with h | ⟨r, h⟩
    · simp [h]
    · simp [h, List.dropWhile_cons, he]
  unfold unsignedDecimalValue
  rcases hr2 with h | ⟨r, h⟩
  · subst h
    have hx0 : x = 0 := by
      simp only [exponentValue, Option.some.injEq] at hx
      exact hx.symm
    subst hx0
    have h0 : (digitsValue 10 []).getD 0 = 0 := rfl
    simp only [t1, d1]
    simp [hne, exponentValue, digitsValue_getD ip hip, h0]
  · subst h
    have h0 : (digitsValue 10 []).getD 0 = 0 := rfl
    simp only [t1, d1]
    simp [hne, hx, digitsValue_getD ip hip, h0]

theorem exponentValue_signed (x : Int) :
    exponentValue ('e' :: (if x < 0 then '-' else '+') :: decimalDigits x.natAbs) = some x := by
  by_cases h : x < 0
  · rw [if_pos h, exponentValue_minus]
    congr 1
    omega
  · rw [if_neg h, exponentValue_plus]
    congr 1
    omega

theorem replicate_zero_digits (m : Nat) :
    ∀ c ∈ List.replicate m '0', isDecimalDigit c = true := by
  intro c hc
  rw [List.eq_of_mem_replicate hc]
  decide

/-- The text of `formatDecimal` reads back as the value it was made for. -/
theorem unsignedDecimalValue_formatDecimal (s : Nat) (e : Int) :
    unsignedDecimalValue (formatDecimal s e) = some ((s : ℚ) * (10 : ℚ) ^ e) := by
  obtain ⟨hne, hdig, hval⟩ := decimalDigits_spec s
  have h10 : (10 : ℚ) ≠ 0 := by norm_num
  have hvalQ : (s : ℚ) = (digitsNat (decimalDigits s) : ℚ) := by rw [hval]
  rw [hvalQ]
  unfold formatDecimal
  simp only
  generalize decimalDigits s = ds at hne hdig
  have hk : 1 ≤ ds.length := by
    cases ds with
    | nil => exact absurd rfl hne
    | cons c cs => simp
  by_cases c1 : (ds.length : Int) ≤ ds.length + e ∧ (ds.length : Int) + e ≤ 21
  · -- an integer with trailing zeros
    rw [if_pos c1]
    have he : 0 ≤ e := by omega
    have hall : ∀ c ∈ ds ++ List.replicate ((ds.length : Int) + e - ds.length).toNat '0',
        isDecimalDigit c = true := by
      intro c hc
      rcases List.mem_append.mp hc with hc | hc
      · exact hdig c hc
      · exact replicate_zero_digits _ c hc
    have := unsignedDecimalValue_whole _ [] 0 hall (Or.inl rfl) rfl (by simp [hne])
    rw [List.append_nil] at this
    rw [this, digitsNat_append, digitsNat_zeros]
    have hlen : ((ds.length : Int) + e - ds.length).toNat = e.toNat := by
      congr 1
      omega
    simp only [List.length_replicate, hlen, add_zero, zpow_zero, mul_one, Nat.cast_mul,
      Nat.cast_pow, Nat.cast_ofNat]
    rw [← zpow_natCast, Int.toNat_of_nonneg he]
  · rw [if_neg c1]
    by_cases c2 : 0 < (ds.length : Int) + e ∧ (ds.length : Int) + e ≤ 21
    · -- a decimal point inside the digits
      rw [if_pos c2]
      have htake : ∀ c ∈ ds.take ((ds.length : Int) + e).toNat, isDecimalDigit c = true :=
        fun c hc => hdig c (List.mem_of_mem_take hc)
      have hdrop : ∀ c ∈ ds.drop ((ds.length : Int) + e).toNat, isDecimalDigit c = true :=
        fun c hc => hdig c (List.mem_of_mem_drop hc)
      have := unsignedDecimalValue_point _ _ [] 0 htake hdrop (Or.inl rfl) rfl
        (by
          intro h
          have := congrArg List.length h.2
          simp at this
          omega)
      rw [List.append_nil] at this
      rw [this]
      have hsplit := digitsNat_append (ds.take ((ds.length : Int) + e).toNat)
        (ds.drop ((ds.length : Int) + e).toNat)
      rw [List.take_append_drop] at hsplit
      have hlen : (ds.drop ((ds.length : Int) + e).toNat).length = (-e).toNat := by
        rw [List.length_drop]
        omega
      rw [hlen] at hsplit ⊢
      have he : e = -(((-e).toNat : Nat) : Int) := by omega
      rw [hsplit]
      generalize digitsNat (ds.take ((ds.length : Int) + e).toNat) = hi
      generalize digitsNat (ds.drop ((ds.length : Int) + e).toNat) = lo
      generalize (-e).toNat = m at he
      subst he
      rw [zpow_neg, zpow_natCast]
      push_cast
      field_simp
    · rw [if_neg c2]
      by_cases c3 : -6 < (ds.length : Int) + e ∧ (ds.length : Int) + e ≤ 0
      · -- a leading `0.`
        rw [if_pos c3]
        have hfp : ∀ c ∈ List.replicate (-((ds.length : Int) + e)).toNat '0' ++ ds,
            isDecimalDigit c = true := by
          intro c hc
          rcases List.mem_append.mp hc with hc | hc
          · exact replicate_zero_digits _ c hc
          · exact hdig c hc
        have := unsignedDecimalValue_point ['0'] _ [] 0
          (by intro c hc; simp at hc; rw [hc]; decide) hfp (Or.inl rfl) rfl (by simp)
        rw [List.append_nil] at this
        simp only [List.singleton_append] at this
        rw [this, digitsNat_append, digitsNat_zeros]
        have h0 : digitsNat ['0'] = 0 := by decide
        have hlen : (List.replicate (-((ds.length : Int) + e)).toNat '0' ++ ds).length
            = (-e).toNat := by
          rw [List.length_append, List.length_replicate]
          omega
        rw [hlen, h0]
        have he : e = -(((-e).toNat : Nat) : Int) := by omega
        generalize digitsNat ds = v
        generalize (-e).toNat = m at he
        subst he
        rw [zpow_neg, zpow_natCast]
        push_cast
        field_simp
      · -- the exponent form
        rw [if_neg c3]
        have hx := exponentValue_signed ((ds.length : Int) + e - 1)
        cases ds with
        | nil => exact absurd rfl hne
        | cons d rest =>
          cases rest with
          | nil =>
            have := unsignedDecimalValue_whole [d] _ _ hdig (Or.inr ⟨_, rfl⟩) hx (by simp)
            simp only [List.singleton_append] at this
            rw [this]
            congr 2
            simp
          | cons d2 rest2 =>
            have hd1 : ∀ c ∈ [d], isDecimalDigit c = true := by
              intro c hc
              rw [List.mem_singleton] at hc
              rw [hc]
              exact hdig d (List.mem_cons_self _ _)
            have hrest : ∀ c ∈ d2 :: rest2, isDecimalDigit c = true :=
              fun c hc => hdig c (List.mem_cons_of_mem _ hc)
            have := unsignedDecimalValue_point [d] (d2 :: rest2) _ _ hd1 hrest
              (Or.inr ⟨_, rfl⟩) hx (by simp)
            simp only [List.singleton_append] at this
            rw [this]
            have hsplit := digitsNat_append [d] (d2 :: rest2)
            simp only [List.singleton_append] at hsplit
            rw [hsplit]
            have hexp : e = (((d :: d2 :: rest2).length : Int) + e - 1)
                - (((d2 :: rest2).length : Nat) : Int) := by
              simp only [List.length_cons]
              push_cast
              ring
            generalize digitsNat [d] = hi
            generalize digitsNat (d2 :: rest2) = lo
            generalize ((d :: d2 :: rest2).length : Int) + e - 1 = x at hexp
            generalize (d2 :: rest2).length = m at hexp
            subst hexp
            rw [zpow_sub₀ h10, zpow_natCast]
            push_cast
            field_simp

theorem dropWhile_of_none {α : Type} (p : α → Bool) (cs : List α)
    (h : ∀ c ∈ cs, p c = false) : cs.dropWhile p = cs := by
  cases cs with
  | nil => rfl
  | cons c cs => simp [List.dropWhile_cons, h c (List.mem_cons_self _ _)]

theorem trimWhiteSpace_of_none (cs : List Char)
    (h : ∀ c ∈ cs, isStrWhiteSpaceChar c = false) : trimWhiteSpace cs = cs := by
  unfold trimWhiteSpace
  rw [dropWhile_of_none _ cs h,
    dropWhile_of_none _ cs.reverse (fun c hc => h c (List.mem_reverse.mp hc)),
    List.reverse_reverse]

/-- What a character written for a number is not. -/
theorem isNumberChar_spec (c : Char) (h : isNumberChar c = true) :
    isStrWhiteSpaceChar c = false ∧ c ≠ ' ' ∧ c ≠ Char.ofNat 10 ∧
    c ≠ 'x' ∧ c ≠ 'X' ∧ c ≠ 'o' ∧ c ≠ 'O' ∧ c ≠ 'b' ∧ c ≠ 'B' ∧ c ≠ 'I' := by
  unfold isNumberChar at h
  simp only [Bool.or_eq_true, beq_iff_eq] at h
  rcases h with (((h | h) | h) | h) | h
  · have hb := (isDecimalDigit_iff c).mp h
    have hne : ∀ d : Char, ¬ (48 ≤ d.toNat ∧ d.toNat ≤ 57) → c ≠ d := by
      intro d hd hcd
      rw [hcd] at hb
      exact hd hb
    refine ⟨?_, hne _ (by decide), hne _ (by decide), hne _ (by decide), hne _ (by decide),
      hne _ (by decide), hne _ (by decide), hne _ (by decide), hne _ (by decide),
      hne _ (by decide)⟩
    unfold isStrWhiteSpaceChar
    simp only [Bool.or_eq_false_iff, Bool.and_eq_false_iff, beq_eq_false_iff_ne, ne_eq,
      decide_eq_false_iff_not]
    omega
  all_goals
    subst h
    decide

theorem isNumberChar_of_digit (c : Char) (h : isDecimalDigit c = true) :
    isNumberChar c = true := by
  simp [isNumberChar, h]

/-- The text of `formatDecimal` starts with a digit and is made of the
characters of numbers. -/
theorem formatDecimal_chars (s : Nat) (e : Int) :
    (∀ c ∈ formatDecimal s e, isNumberChar c = true) ∧
    ∃ c rest, formatDecimal s e = c :: rest ∧ isDecimalDigit c = true := by
  obtain ⟨hne, hdig, _⟩ := decimalDigits_spec s
  have hsign : ∀ x : Int, isNumberChar (if x < 0 then '-' else '+') = true := by
    intro x
    split_ifs <;> decide
  have hexp : ∀ x : Int, ∀ c ∈ decimalDigits x.natAbs, isNumberChar c = true :=
    fun x c hc => isNumberChar_of_digit c ((decimalDigits_spec x.natAbs).2.1 c hc)
  unfold formatDecimal
  simp only
  generalize decimalDigits s = ds at hne hdig
  have hnum : ∀ c ∈ ds, isNumberChar c = true := fun c hc => isNumberChar_of_digit c (hdig c hc)
  cases ds with
  | nil => exact absurd rfl hne
  | cons d rest =>
    have hd : isDecimalDigit d = true := hdig d (List.mem_cons_self _ _)
    by_cases c1 : ((d :: rest).length : Int) ≤ (d :: rest).length + e ∧
        ((d :: rest).length : Int) + e ≤ 21
    · rw [if_pos c1]
      refine ⟨?_, d, _, rfl, hd⟩
      intro c hc
      rcases List.mem_append.mp hc with hc | hc
      · exact hnum c hc
      · exact isNumberChar_of_digit c (replicate_zero_digits _ c hc)
    · rw [if_neg c1]
      by_cases c2 : 0 < ((d :: rest).length : Int) + e ∧ ((d :: rest).length : Int) + e ≤ 21
      · rw [if_pos c2]
        obtain ⟨m, hm⟩ : ∃ m, (((d :: rest).length : Int) + e).toNat = m + 1 :=
          ⟨(((d :: rest).length : Int) + e).toNat - 1, by omega⟩
        rw [hm]
        refine ⟨?_, d, _, rfl, hd⟩
        intro c hc
        rcases List.mem_append.mp hc with hc | hc
        · exact hnum c (List.mem_of_mem_take hc)
        · rcases List.mem_cons.mp hc with hc | hc
          · rw [hc]; decide
          · exact hnum c (List.mem_of_mem_drop hc)
      · rw [if_neg c2]
        by_cases c3 : -6 < ((d :: rest).length : Int) + e ∧ ((d :: rest).length : Int) + e ≤ 0
        · rw [if_pos c3]
          refine ⟨?_, '0', _, rfl, by decide⟩
          intro c hc
          rcases List.mem_cons.mp hc with hc | hc
          · rw [hc]; decide
          · rcases List.mem_cons.mp hc with hc | hc
            · rw [hc]; decide
            · rcases List.mem_append.mp hc with hc | hc
              · exact isNumberChar_of_digit c (replicate_zero_digits _ c hc)
              · exact hnum c hc
        · rw [if_neg c3]
          cases rest with
          | nil =>
            refine ⟨?_, d, _, rfl, hd⟩
            intro c hc
            rcases List.mem_cons.mp hc with hc | hc
            · rw [hc]; exact isNumberChar_of_digit d hd
            · rcases List.mem_cons.mp hc with hc | hc
              · rw [hc]; decide
              · rcases List.mem_cons.mp hc with hc | hc
                · rw [hc]; exact hsign _
                · exact hexp _ c hc
          | cons d2 rest2 =>
            refine ⟨?_, d, _, rfl, hd⟩
            intro c hc
            rcases List.mem_cons.mp hc with hc | hc
            · rw [hc]; exact isNumberChar_of_digit d hd
            · rcases List.mem_cons.mp hc with hc | hc
              · rw [hc]; decide
              · rcases List.mem_append.mp hc with hc | hc
                · exact hnum c (List.mem_cons_of_mem _ hc)
                · rcases List.mem_cons.mp hc with hc | hc
                  · rw [hc]; decide
                  · rcases List.mem_cons.mp hc with hc | hc
                    · rw [hc]; exact hsign _
                    · exact hexp _ c hc

theorem strNumericLiteral_of_digit (c : Char) (rest : List Char)
    (hc : isDecimalDigit c = true) (hrest : ∀ x ∈ rest, isNumberChar x = true) :
    strNumericLiteral (c :: rest) = unsignedDecimalLiteral (c :: rest) := by
  have hcn := isNumberChar_spec c (isNumberChar_of_digit c hc)
  have hplus : c ≠ '+' := by
    intro h; rw [h] at hc; exact absurd hc (by decide)
  have hminus : c ≠ '-' := by
    intro h; rw [h] at hc; exact absurd hc (by decide)
  unfold strNumericLiteral
  split
  · rename_i p ds heq
    have hp := isNumberChar_spec p (hrest p (by
      have := (List.cons.inj heq).2
      rw [this]
      exact List.mem_cons_self _ _))
    simp [hp.2.2.2.1, hp.2.2.2.2.1, hp.2.2.2.2.2.1, hp.2.2.2.2.2.2.1, hp.2.2.2.2.2.2.2.1,
      hp.2.2.2.2.2.2.2.2.1]
  · rename_i r heq
    exact absurd (List.cons.inj heq).1 hplus
  · rename_i r heq
    exact absurd (List.cons.inj heq).1 hminus
  · rfl

theorem stringToNumber_formatDecimal (s : Nat) (e : Int) :
    stringToNumber (formatDecimal s e) = JsNum.fin ((s : ℚ) * (10 : ℚ) ^ e) ∧
    stringToNumber ('-' :: formatDecimal s e) = JsNum.fin (-((s : ℚ) * (10 : ℚ) ^ e)) := by
  obtain ⟨hchars, c, rest, hcs, hc⟩ := formatDecimal_chars s e
  have hval := unsignedDecimalValue_formatDecimal s e
  have hws : ∀ x ∈ formatDecimal s e, isStrWhiteSpaceChar x = false :=
    fun x hx => (isNumberChar_spec x (hchars x hx)).1
  have hinf : formatDecimal s e ≠ "Infinity".toList := by
    rw [hcs]
    intro h
    have h1 : c = 'I' := (List.cons.inj h).1
    exact (isNumberChar_spec c (isNumberChar_of_digit c hc)).2.2.2.2.2.2.2.2.2 h1
  have hlit : unsignedDecimalLiteral (formatDecimal s e)
      = JsNum.fin ((s : ℚ) * (10 : ℚ) ^ e) := by
    unfold unsignedDecimalLiteral
    rw [if_neg hinf, hval]
  constructor
  · unfold stringToNumber
    simp only
    rw [trimWhiteSpace_of_none _ hws]
    have hne : formatDecimal s e ≠ [] := by rw [hcs]; simp
    rw [if_neg hne]
    rw [hcs] at hchars hlit ⊢
    rw [strNumericLiteral_of_digit c rest hc
      (fun x hx => hchars x (List.mem_cons_of_mem _ hx)), hlit]
  · unfold stringToNumber
    simp only
    have hws2 : ∀ x ∈ '-' :: formatDecimal s e, isStrWhiteSpaceChar x = false := by
      intro x hx
      rcases List.mem_cons.mp hx with hx | hx
      · rw [hx]; decide
      · exact hws x hx
    rw [trimWhiteSpace_of_none _ hws2]
    have hne : '-' :: formatDecimal s e ≠ [] := by simp
    rw [if_neg hne]
    have : strNumericLiteral ('-' :: formatDecimal s e)
        = (unsignedDecimalLiteral (formatDecimal s e)).neg := by
      unfold strNumericLiteral
      split
      · rename_i p ds heq
        exact absurd (List.cons.inj heq).1 (by decide)
      · rename_i r heq
        exact absurd (List.cons.inj heq).1 (by decide)
      · rename_i r heq
        rw [(List.cons.inj heq).2]
      · rename_i h1 h2 h3
        exact absurd rfl (h3 _)
    rw [this, hlit]
    rfl

theorem findExponent_spec (fuel den j0 j : Nat) (h : findExponent fuel den j0 = some j) :
    10 ^ j % den = 0 := by
  induction fuel generalizing j0 with
  | zero => simp [findExponent] at h
  | succ fuel ih =>
    unfold findExponent at h
    split_ifs at h with hj
    · simp only [Option.some.injEq] at h
      rw [← h]
      exact hj
    · exact ih (j0 + 1) h

theorem stripZeros_spec (fuel m : Nat) (e : Int) :
    (((stripZeros fuel m e).1 : Nat) : ℚ) * (10 : ℚ) ^ (stripZeros fuel m e).2
      = (m : ℚ) * (10 : ℚ) ^ e ∧
    (0 < m → 0 < (stripZeros fuel m e).1) := by
  induction fuel generalizing m e with
  | zero => exact ⟨rfl, fun h => h⟩
  | succ fuel ih =>
    unfold stripZeros
    split_ifs with h
    · obtain ⟨h1, h2⟩ := ih (m / 10) (e + 1)
      refine ⟨?_, fun _ => h2 (by omega)⟩
      rw [h1]
      have hm : m = 10 * (m / 10) := by omega
      have h10 : (10 : ℚ) ≠ 0 := by norm_num
      conv_rhs => rw [hm]
      rw [zpow_add_one₀ h10]
      push_cast
      ring
    · exact ⟨rfl, fun h => h⟩

/-- The decimal expansion found for a positive rational has its value. -/
theorem decimalExpansion_spec (q : ℚ) (hq : 0 < q) (s : Nat) (e : Int)
    (h : decimalExpansion q = some (s, e)) :
    q = (s : ℚ) * (10 : ℚ) ^ e ∧ 0 < s := by
  unfold decimalExpansion at h
  cases hj : findExponent q.den q.den 0 with
  | none => simp [hj] at h
  | some j =>
    simp only [hj, Option.some.injEq] at h
    have hdiv : q.den ∣ 10 ^ j := Nat.dvd_of_mod_eq_zero (findExponent_spec _ _ _ _ hj)
    obtain ⟨t, ht⟩ := hdiv
    have hden : 0 < q.den := q.den_pos
    have hnum : 0 < q.num := Rat.num_pos.mpr hq
    have hm : q.num.natAbs * 10 ^ j / q.den = q.num.natAbs * t := by
      rw [ht, ← Nat.mul_assoc, Nat.mul_comm q.num.natAbs q.den, Nat.mul_assoc,
        Nat.mul_div_cancel_left _ hden]
    obtain ⟨h1, h2⟩ := stripZeros_spec (q.num.natAbs * 10 ^ j / q.den)
      (q.num.natAbs * 10 ^ j / q.den) (-(j : Int))
    rw [h] at h1 h2
    simp only at h1 h2
    have htpos : 0 < t := by
      rcases Nat.eq_zero_or_pos t with h0 | h0
      · rw [h0, Nat.mul_zero] at ht
        exact absurd ht (by positivity)
      · exact h0
    refine ⟨?_, h2 (by rw [hm]; exact Nat.mul_pos (Int.natAbs_pos.mpr (ne_of_gt hnum)) htpos)⟩
    rw [h1, hm]
    have hqv : q = (q.num : ℚ) / (q.den : ℚ) := (Rat.num_div_den q).symm
    have habs : ((q.num.natAbs : Nat) : ℚ) = (q.num : ℚ) := by
      have : ((q.num.natAbs : Nat) : Int) = q.num := Int.natAbs_of_nonneg (le_of_lt hnum)
      rw [← Int.cast_natCast, this]
    have h10j : ((10 : ℚ) ^ j) = (q.den : ℚ) * (t : ℚ) := by exact_mod_cast ht
    have hdenQ : (q.den : ℚ) ≠ 0 := by exact_mod_cast (ne_of_gt hden)
    have htQ : (t : ℚ) ≠ 0 := by exact_mod_cast (ne_of_gt htpos)
    rw [zpow_neg, zpow_natCast, h10j]
    push_cast
    rw [habs]
    conv_lhs => rw [hqv]
    field_simp
    ring

theorem findExponent_complete (fuel den j0 j : Nat) (h0 : j0 ≤ j) (h1 : j < j0 + fuel)
    (hj : 10 ^ j % den = 0) : ∃ i, findExponent fuel den j0 = some i := by
  induction fuel generalizing j0 with
  | zero => omega
  | succ fuel ih =>
    unfold findExponent
    split_ifs with h
    · exact ⟨j0, rfl⟩
    · have hne : j0 ≠ j := by
        intro he
        rw [he] at h
        exact h hj
      exact ih (j0 + 1) (by omega) (by omega)

/-- A divisor of a power of ten divides the power of ten given by itself. -/
theorem dvd_ten_pow_pred (den E : Nat) (h : den ∣ 10 ^ E) : den ∣ 10 ^ (den - 1) := by
  have h10 : (10 : Nat) ^ E = 2 ^ E * 5 ^ E := by
    rw [← Nat.mul_pow]
  rw [h10, Nat.dvd_mul] at h
  obtain ⟨y, z, hy, hz, hyz⟩ := h
  obtain ⟨a, _, ha⟩ := (Nat.dvd_prime_pow Nat.prime_two).mp hy
  obtain ⟨b, _, hb⟩ := (Nat.dvd_prime_pow Nat.prime_five).mp hz
  have h2pos : 0 < 2 ^ a := by positivity
  have h5pos : 0 < 5 ^ b := by positivity
  have hden : den = 2 ^ a * 5 ^ b := by rw [← hyz, ha, hb]
  have ha1 : a < den := by
    have h1 : a < 2 ^ a := Nat.lt_two_pow a
    have h2 : 2 ^ a ≤ 2 ^ a * 5 ^ b := Nat.le_mul_of_pos_right _ h5pos
    omega
  have hb1 : b < den := by
    have h1 : b < 5 ^ b := Nat.lt_pow_self (by norm_num) b
    have h2 : 5 ^ b ≤ 2 ^ a * 5 ^ b := Nat.le_mul_of_pos_left _ h2pos
    omega
  have h10' : (10 : Nat) ^ (den - 1) = 2 ^ (den - 1) * 5 ^ (den - 1) := by
    rw [← Nat.mul_pow]
  rw [h10']
  conv_lhs => rw [hden]
  exact Nat.mul_dvd_mul (Nat.pow_dvd_pow 2 (by omega)) (Nat.pow_dvd_pow 5 (by omega))

theorem isDecimal_den_dvd (q : ℚ) (h : IsDecimal q) : ∃ E : Nat, q.den ∣ 10 ^ E := by
  obtain ⟨m, E, hq⟩ := h
  refine ⟨E, ?_⟩
  have h1 : q = Rat.divInt m ((10 : Int) ^ E) := by
    rw [Rat.divInt_eq_div, hq]
    push_cast
    rfl
  have h2 := Rat.den_dvd m ((10 : Int) ^ E)
  rw [← h1] at h2
  exact_mod_cast h2

/-- A positive rational that is an integer over a power of ten has a decimal
expansion. -/
theorem decimalExpansion_complete (q : ℚ) (h : IsDecimal q) :
    ∃ s e, decimalExpansion q = some (s, e) := by
  obtain ⟨E, hE⟩ := isDecimal_den_dvd q h
  have hd := dvd_ten_pow_pred q.den E hE
  have hden : 0 < q.den := q.den_pos
  obtain ⟨i, hi⟩ := findExponent_complete q.den q.den 0 (q.den - 1) (Nat.zero_le _) (by omega)
    (Nat.mod_eq_zero_of_dvd hd)
  unfold decimalExpansion
  rw [hi]
  exact ⟨_, _, rfl⟩

theorem isDecimal_abs (q : ℚ) (h : IsDecimal q) : IsDecimal |q| := by
  obtain ⟨m, E, hq⟩ := h
  refine ⟨|m|, E, ?_⟩
  rw [hq, abs_div, abs_of_pos (by positivity : (0 : ℚ) < 10 ^ E)]
  push_cast
  rfl

/-- The text of a number reads back as the number: for every number that is
not NaN and, when finite, is an integer over a power of ten. -/
theorem stringToNumber_numberToString (x : JsNum) (hx : x ≠ JsNum.nan)
    (hdec : ∀ q : ℚ, x = JsNum.fin q → IsDecimal q) :
    stringToNumber (numberToString x) = x := by
  cases x with
  | nan => exact absurd rfl hx
  | posInf => decide
  | negInf => decide
  | fin q =>
    by_cases h0 : q = 0
    · subst h0
      decide!
    · simp only [numberToString, h0, if_false]
      have habs : 0 < |q| := abs_pos.mpr h0
      obtain ⟨s, e, hse⟩ := decimalExpansion_complete |q| (isDecimal_abs q (hdec q rfl))
      obtain ⟨hval, _⟩ := decimalExpansion_spec |q| habs s e hse
      rw [hse]
      simp only
      obtain ⟨h1, h2⟩ := stringToNumber_formatDecimal s e
      by_cases hneg : q < 0
      · rw [if_pos hneg, h2, ← hval, abs_of_neg hneg, neg_neg]
      · rw [if_neg hneg, h1, ← hval, abs_of_nonneg (not_lt.mp hneg)]

/-! ## Round trip of a pattern through its text -/

theorem splitOn_ne_nil (sep : Char) (cs : List Char) : splitOn sep cs ≠ [] := by
  cases cs with
  | nil => simp [splitOn]
  | cons c cs =>
    unfold splitOn
    split_ifs
    · simp
    · split <;> simp

theorem splitOn_of_not_mem (sep : Char) (a : List Char) (h : ∀ c ∈ a, c ≠ sep) :
    splitOn sep a = [a] := by
  induction a with
  | nil => rfl
  | cons c a ih =>
    have hc : c ≠ sep := h c (List.mem_cons_self _ _)
    unfold splitOn
    rw [if_neg hc, ih (fun x hx => h x (List.mem_cons_of_mem _ hx))]

theorem splitOn_append_sep (sep : Char) (a rest : List Char) (h : ∀ c ∈ a, c ≠ sep) :
    splitOn sep (a ++ sep :: rest) = a :: splitOn sep rest := by
  induction a with
  | nil =>
    simp only [List.nil_append]
    rw [splitOn, if_pos rfl]
  | cons c a ih =>
    have hc : c ≠ sep := h c (List.mem_cons_self _ _)
    simp only [List.cons_append]
    rw [splitOn, if_neg hc, ih (fun x hx => h x (List.mem_cons_of_mem _ hx))]

theorem splitOn_intercalate (sep : Char) (lines : List (List Char)) (hne : lines ≠ [])
    (h : ∀ line ∈ lines, ∀ c ∈ line, c ≠ sep) :
    splitOn sep (List.intercalate [sep] lines) = lines := by
  induction lines with
  | nil => exact absurd rfl hne
  | cons line rest ih =>
    cases rest with
    | nil =>
      have hone : List.intercalate [sep] [line] = line := by
        simp [List.intercalate, List.intersperse]
      rw [hone]
      exact splitOn_of_not_mem sep line (h line (List.mem_cons_self _ _))
    | cons line2 rest2 =>
      have hrec := ih (by simp) (fun l hl => h l (List.mem_cons_of_mem _ hl))
      have hcat : List.intercalate [sep] (line :: line2 :: rest2)
          = line ++ sep :: List.intercalate [sep] (line2 :: rest2) := by
        simp [List.intercalate, List.intersperse]
      rw [hcat, splitOn_append_sep sep line _ (h line (List.mem_cons_self _ _)), hrec]

/-- The text of a number has no space and no line feed in it. -/
theorem numberToString_no_separator (x : JsNum) :
    ∀ c ∈ numberToString x, c ≠ ' ' ∧ c ≠ Char.ofNat 10 := by
  have hword : ∀ w : List Char, (∀ c ∈ w, isStrWhiteSpaceChar c = false) →
      ∀ c ∈ w, c ≠ ' ' ∧ c ≠ Char.ofNat 10 := by
    intro w hw c hc
    have := hw c hc
    constructor
    · intro h; rw [h] at this; exact absurd this (by decide)
    · intro h; rw [h] at this; exact absurd this (by decide)
  have hfmt : ∀ (s : Nat) (e : Int), ∀ c ∈ formatDecimal s e, c ≠ ' ' ∧ c ≠ Char.ofNat 10 := by
    intro s e c hc
    have := isNumberChar_spec c ((formatDecimal_chars s e).1 c hc)
    exact ⟨this.2.1, this.2.2.1⟩
  cases x with
  | nan => exact hword _ (by decide)
  | posInf => exact hword _ (by decide)
  | negInf => exact hword _ (by decide)
  | fin q =>
    by_cases h0 : q = 0
    · simp only [numberToString, h0, if_true]
      exact hword _ (by decide)
    · simp only [numberToString, h0, if_false]
      cases hse : decimalExpansion |q| with
      | none =>
        simp only
        exact hword "NaN".toList (by decide)
      | some se =>
        obtain ⟨s, e⟩ := se
        simp only
        by_cases hneg : q < 0
        · rw [if_pos hneg]
          intro c hc
          rcases List.mem_cons.mp hc with hc | hc
          · rw [hc]; exact ⟨by decide, by decide⟩
          · exact hfmt s e c hc
        · rw [if_neg hneg]
          exact hfmt s e

/-- The line written for a point parses to the point. -/
theorem parseLine_of_point (coord : Coord)
    (h : coord.theta.IsPatternNumber ∧ coord.rho.IsPatternNumber) :
    parseLine (coord.theta.toText ++ ' ' :: coord.rho.toText) = coord ∧
    coord.theta.isNaN = false ∧ coord.rho.isNaN = false ∧
    (∀ c ∈ coord.theta.toText ++ ' ' :: coord.rho.toText, c ≠ Char.ofNat 10) := by
  obtain ⟨⟨x, hx, hxn, hxd⟩, ⟨y, hy, hyn, hyd⟩⟩ := h
  obtain ⟨theta, rho⟩ := coord
  simp only at hx hy
  subst hx hy
  have hsx := numberToString_no_separator x
  have hsy := numberToString_no_separator y
  have hsplit : splitOn ' ' (numberToString x ++ ' ' :: numberToString y)
      = [numberToString x, numberToString y] := by
    rw [splitOn_append_sep ' ' _ _ (fun c hc => (hsx c hc).1),
      splitOn_of_not_mem ' ' _ (fun c hc => (hsy c hc).1)]
  refine ⟨?_, ?_, ?_, ?_⟩
  · simp only [parseLine, JsVal.toText, hsplit, List.map_cons, List.map_nil, List.getD_cons_zero,
      List.getD_cons_succ, stringToNumber_numberToString x hxn hxd,
      stringToNumber_numberToString y hyn hyd]
  · cases x <;> simp_all [JsVal.isNaN, JsVal.toNumber, JsNum.isNaN]
  · cases y <;> simp_all [JsVal.isNaN, JsVal.toNumber, JsNum.isNaN]
  · intro c hc
    simp only [JsVal.toText] at hc
    rcases List.mem_append.mp hc with hc | hc
    · exact (hsx c hc).2
    · rcases List.mem_cons.mp hc with hc | hc
      · rw [hc]; decide
      · exact (hsy c hc).2

/-- Encoding a pattern and parsing the text gives the pattern back. -/
theorem parseFile_fileContent (coordinates : List Coord)
    (h : ∀ coord ∈ coordinates, coord.theta.IsPatternNumber ∧ coord.rho.IsPatternNumber) :
    parseFile (fileContent coordinates) = coordinates := by
  cases hc : coordinates with
  | nil => decide
  | cons c0 cs =>
    rw [← hc]
    have hne : coordinates.map (fun coord => coord.theta.toText ++ ' ' :: coord.rho.toText)
        ≠ [] := by
      rw [hc]; simp
    have hlines : splitOn (Char.ofNat 10) (fileContent coordinates).toList
        = coordinates.map (fun coord => coord.theta.toText ++ ' ' :: coord.rho.toText) := by
      unfold fileContent
      apply splitOn_intercalate _ _ hne
      intro line hl
      obtain ⟨coord, hcoord, rfl⟩ := List.mem_map.mp hl
      exact (parseLine_of_point coord (h coord hcoord)).2.2.2
    unfold parseFile
    rw [hlines, List.map_map]
    have hmap : coordinates.map
        (parseLine ∘ fun coord => coord.theta.toText ++ ' ' :: coord.rho.toText)
        = coordinates := by
      conv_rhs => rw [← List.map_id coordinates]
      apply List.map_congr_left
      intro coord hcoord
      exact (parseLine_of_point coord (h coord hcoord)).1
    rw [hmap, List.filter_eq_self]
    intro coord hcoord
    obtain ⟨_, h1, h2, _⟩ := parseLine_of_point coord (h coord hcoord)
    simp [h1, h2]

theorem isDecimal_natCast (n : Nat) : IsDecimal (n : ℚ) :=
  ⟨n, 0, by simp⟩

theorem isDecimal_neg (q : ℚ) (h : IsDecimal q) : IsDecimal (-q) := by
  obtain ⟨m, E, hq⟩ := h
  exact ⟨-m, E, by rw [hq]; push_cast; ring⟩

theorem isDecimal_literal (i f L : Nat) (x : Int) :
    IsDecimal (((i : ℚ) + (f : ℚ) / (10 : ℚ) ^ L) * (10 : ℚ) ^ x) := by
  have h10 : (10 : ℚ) ≠ 0 := by norm_num
  rcases Int.lt_or_le x 0 with hx | hx
  · refine ⟨((i * 10 ^ L + f : Nat) : Int), L + (-x).toNat, ?_⟩
    have he : x = -(((-x).toNat : Nat) : Int) := by omega
    generalize (-x).toNat = m at he
    subst he
    rw [zpow_neg, zpow_natCast, pow_add]
    push_cast
    have hL : (10 : ℚ) ^ L ≠ 0 := pow_ne_zero _ h10
    have hm : (10 : ℚ) ^ m ≠ 0 := pow_ne_zero _ h10
    rw [eq_div_iff (mul_ne_zero hL hm)]
    field_simp
  · refine ⟨((i * 10 ^ L + f : Nat) : Int) * 10 ^ x.toNat, L, ?_⟩
    have he : x = ((x.toNat : Nat) : Int) := by omega
    generalize x.toNat = m at he
    subst he
    rw [zpow_natCast]
    push_cast
    field_simp

theorem unsignedDecimalValue_isDecimal (cs : List Char) (q : ℚ)
    (h : unsignedDecimalValue cs = some q) : IsDecimal q := by
  unfold unsignedDecimalValue at h
  simp only at h
  split_ifs at h
  split at h
  · exact absurd h (by simp)
  · simp only [Option.some.injEq] at h
    rw [← h]
    exact isDecimal_literal _ _ _ _

theorem unsignedDecimalLiteral_isDecimal (cs : List Char) (q : ℚ) :
    (unsignedDecimalLiteral cs = JsNum.fin q → IsDecimal q) ∧
    ((unsignedDecimalLiteral cs).neg = JsNum.fin q → IsDecimal q) := by
  unfold unsignedDecimalLiteral
  split_ifs
  · exact ⟨fun h => (by cases h), fun h => (by simp [JsNum.neg] at h)⟩
  · cases hv : unsignedDecimalValue cs with
    | none => exact ⟨fun h => (by cases h), fun h => (by simp [JsNum.neg] at h)⟩
    | some v =>
      have hd := unsignedDecimalValue_isDecimal cs v hv
      constructor
      · intro h
        simp only [JsNum.fin.injEq] at h
        rw [← h]
        exact hd
      · intro h
        simp only [JsNum.neg, JsNum.fin.injEq] at h
        rw [← h]
        exact isDecimal_neg v hd

/-- Every finite value `Number` returns is an integer over a power of ten. -/
theorem stringToNumber_isDecimal (cs : List Char) (q : ℚ)
    (h : stringToNumber cs = JsNum.fin q) : IsDecimal q := by
  have hnat : ∀ (o : Option Nat),
      (match o with | some n => JsNum.fin (n : ℚ) | none => JsNum.nan) = JsNum.fin q →
      IsDecimal q := by
    intro o ho
    cases o with
    | none => cases ho
    | some n =>
      simp only [JsNum.fin.injEq] at ho
      rw [← ho]
      exact isDecimal_natCast n
  unfold stringToNumber at h
  simp only at h
  split_ifs at h
  · simp only [JsNum.fin.injEq] at h
    rw [← h]
    exact ⟨0, 0, by simp⟩
  · unfold strNumericLiteral at h
    split at h
    · split_ifs at h
      · exact hnat _ h
      · exact hnat _ h
      · exact hnat _ h
      · exact (unsignedDecimalLiteral_isDecimal _ q).1 h
    · exact (unsignedDecimalLiteral_isDecimal _ q).1 h
    · exact (unsignedDecimalLiteral_isDecimal _ q).2 h
    · exact (unsignedDecimalLiteral_isDecimal _ q).1 h

/-- Every point `parseFile` returns is made of pattern numbers. -/
theorem parseFile_points (content : String) :
    ∀ coord ∈ parseFile content, coord.theta.IsPatternNumber ∧ coord.rho.IsPatternNumber := by
  intro coord hc
  unfold parseFile at hc
  rw [parseLine_filter] at hc
  obtain ⟨line, _, hline⟩ := List.mem_filterMap.mp hc
  unfold pointOfLine at hline
  split at hline
  · rename_i tok0 tok1 more _
    split_ifs at hline with hnan
    simp only [Option.some.injEq] at hline
    rw [← hline]
    have hpat : ∀ tok : List Char, (stringToNumber tok).isNaN = false →
        (JsVal.num (stringToNumber tok)).IsPatternNumber := by
      intro tok ht
      refine ⟨stringToNumber tok, rfl, ?_, fun q hq => stringToNumber_isDecimal tok q hq⟩
      intro hn
      rw [hn] at ht
      exact absurd ht (by decide)
    exact ⟨hpat tok0 hnan.1, hpat tok1 hnan.2⟩
  · exact absurd hline (by simp)

/-- C12: round trip.  For every pattern whose coordinates are numbers (not NaN,
and as every finite number an integer over a power of ten), the empty pattern
included, writing it as `uploadToRobot` does (one line `theta rho` per point,
joined by line feeds) and parsing the text with `parseFile` gives the same
sequence of points.  Every pattern that `parseFile` returns is such a pattern,
so re-encoding a parsed pattern and parsing again changes nothing. -/
theorem fileContent_round_trip (coordinates : List Coord)
    (h : ∀ coord ∈ coordinates, coord.theta.IsPatternNumber ∧ coord.rho.IsPatternNumber) :
    parseFile (fileContent coordinates) = coordinates ∧
    (fileContent [] = "" ∧ parseFile (fileContent []) = []) ∧
    (∀ content : String, parseFile (fileContent (parseFile content)) = parseFile content) ∧
    (∀ x : JsNum, x ≠ JsNum.nan → (∀ q : ℚ, x = JsNum.fin q → IsDecimal q) →
      stringToNumber (numberToString x) = x) :=
  ⟨parseFile_fileContent coordinates h, ⟨by decide, by decide⟩,
    fun content => parseFile_fileContent _ (parseFile_points content),
    stringToNumber_numberToString⟩

/-- Witness of C12: the pattern (0, 0.5), (1.5707963, 1), (infinity, -2e-9). -/
theorem fileContent_round_trip_witness :
    (∀ coord ∈ parseFile "0.0 0.5\nbad line\n1.5707963 1.0\nInfinity -2e-9",
      coord.theta.IsPatternNumber ∧ coord.rho.IsPatternNumber) ∧
    parseFile (fileContent (parseFile "0.0 0.5\nbad line\n1.5707963 1.0\nInfinity -2e-9"))
      = parseFile "0.0 0.5\nbad line\n1.5707963 1.0\nInfinity -2e-9" :=
  ⟨parseFile_points _,
    (fileContent_round_trip (parseFile "0.0 0.5\nbad line\n1.5707963 1.0\nInfinity -2e-9")
      (parseFile_points _)).1⟩

/-! ## The text of a whole number -/

theorem decimalDigitsAux_fuel (fuel1 fuel2 n : Nat) (h1 : n < fuel1) (h2 : n < fuel2) :
    decimalDigitsAux fuel1 n = decimalDigitsAux fuel2 n := by
  induction fuel1 generalizing fuel2 n with
  | zero => omega
  | succ fuel1 ih =>
    cases fuel2 with
    | zero => omega
    | succ fuel2 =>
      unfold decimalDigitsAux
      split_ifs with h10
      · rfl
      · rw [ih fuel2 (n / 10) (by omega) (by omega)]

theorem decimalDigits_step (n : Nat) (h : 10 ≤ n) :
    decimalDigits n = decimalDigits (n / 10) ++ [digitChar (n % 10)] := by
  unfold decimalDigits
  rw [decimalDigitsAux, if_neg (by omega),
    decimalDigitsAux_fuel n (n / 10 + 1) (n / 10) (by omega) (by omega)]

theorem decimalDigits_mul_pow (m t : Nat) (hm : 0 < m) :
    decimalDigits (m * 10 ^ t) = decimalDigits m ++ List.replicate t '0' := by
  induction t with
  | zero => simp
  | succ t ih =>
    have hpos : 0 < m * 10 ^ t := Nat.mul_pos hm (by positivity)
    have hstep := decimalDigits_step (m * 10 ^ (t + 1)) (by
      rw [pow_succ, ← Nat.mul_assoc]
      omega)
    have hdiv : m * 10 ^ (t + 1) / 10 = m * 10 ^ t := by
      rw [pow_succ, ← Nat.mul_assoc]
      exact Nat.mul_div_cancel _ (by norm_num)
    have hmod : m * 10 ^ (t + 1) % 10 = 0 := by
      rw [pow_succ, ← Nat.mul_assoc]
      exact Nat.mul_mod_left _ _
    rw [hstep, hdiv, hmod, ih, List.append_assoc]
    congr 1
    rw [List.replicate_succ']
    rfl

theorem decimalDigits_length (k n : Nat) (hk : 1 ≤ k) (h : n < 10 ^ k) :
    (decimalDigits n).length ≤ k := by
  induction k generalizing n with
  | zero => omega
  | succ k ih =>
    by_cases h10 : n < 10
    · have : decimalDigits n = [digitChar n] := by
        unfold decimalDigits
        rw [decimalDigitsAux, if_pos h10]
      rw [this]
      simp
    · rw [decimalDigits_step n (by omega)]
      have hk1 : 1 ≤ k := by
        rcases Nat.eq_zero_or_pos k with h0 | h0
        · subst h0
          simp at h
          omega
        · exact h0
      have := ih (n / 10) hk1 (by
        rw [pow_succ] at h
        exact Nat.div_lt_of_lt_mul (by rw [Nat.mul_comm]; exact h))
      simp
      omega

theorem stripZeros_nat (fuel m : Nat) (e : Int) :
    ∃ t : Nat, (stripZeros fuel m e).2 = e + t ∧ (stripZeros fuel m e).1 * 10 ^ t = m := by
  induction fuel generalizing m e with
  | zero => exact ⟨0, by simp [stripZeros], by simp [stripZeros]⟩
  | succ fuel ih =>
    unfold stripZeros
    split_ifs with h
    · obtain ⟨t, h1, h2⟩ := ih (m / 10) (e + 1)
      refine ⟨t + 1, ?_, ?_⟩
      · rw [h1]
        push_cast
        ring
      · rw [pow_succ, ← Nat.mul_assoc, h2]
        omega
    · exact ⟨0, by simp, by simp⟩

/-- Below 10 ^ 21 the text of a whole number is its decimal digits. -/
theorem integerText_small (n : Nat) (h : n < 10 ^ 21) :
    integerText (n : Int) = String.mk (decimalDigits n) := by
  unfold integerText
  congr 1
  rcases Nat.eq_zero_or_pos n with h0 | hpos
  · subst h0
    decide!
  · have hq : ((n : Int) : ℚ) = (n : ℚ) := by norm_cast
    rw [hq]
    have hne : (n : ℚ) ≠ 0 := by exact_mod_cast (ne_of_gt hpos)
    have hnn : ¬ ((n : ℚ) < 0) := by
      have : (0 : ℚ) ≤ (n : ℚ) := by positivity
      exact not_lt.mpr this
    have habs : |(n : ℚ)| = (n : ℚ) := abs_of_nonneg (by positivity)
    have hexp : decimalExpansion (n : ℚ) = some (stripZeros n n 0) := by
      simp [decimalExpansion, findExponent]
    simp only [numberToString, hne, if_false, habs, hexp, hnn]
    obtain ⟨t, ht1, ht2⟩ := stripZeros_nat n n 0
    have hs : 0 < (stripZeros n n 0).1 := by
      rcases Nat.eq_zero_or_pos (stripZeros n n 0).1 with h0 | h0
      · rw [h0] at ht2
        omega
      · exact h0
    have hdig := decimalDigits_mul_pow (stripZeros n n 0).1 t hs
    rw [ht2] at hdig
    have hlen := decimalDigits_length 21 n (by norm_num) h
    rw [hdig, List.length_append, List.length_replicate] at hlen
    unfold formatDecimal
    simp only [ht1, zero_add]
    rw [if_pos (by omega), hdig]
    congr 2
    omega

/-! ## What polling and the commands leave alone (C22, C23) -/

theorem setState_keeps (w : World) (f : State → State)
    (hf : ∀ s, (f s).fileHistory = s.fileHistory ∧ (f s).robotConfig = s.robotConfig) :
    (w.setState f).state.fileHistory = w.state.fileHistory ∧
    (w.setState f).state.robotConfig = w.state.robotConfig :=
  hf w.state

theorem pollStatus_keeps (r : State) (w : World) :
    (pollStatus r w).state.fileHistory = w.state.fileHistory ∧
    (pollStatus r w).state.robotConfig = w.state.robotConfig := by
  rcases pollStatus_state r w with h | h <;> rw [h] <;> exact ⟨rfl, rfl⟩

theorem pollStatusResume_keeps (p : Pending) (resp : Response) (w : World) :
    (pollStatusResume p resp w).state.fileHistory = w.state.fileHistory ∧
    (pollStatusResume p resp w).state.robotConfig = w.state.robotConfig := by
  cases resp with
  | ok data =>
    simp only [pollStatusResume]
    split
    · rw [fetchFileList_state, fetchSettings_state]
      exact ⟨rfl, rfl⟩
    · exact ⟨rfl, rfl⟩
  | error => exact ⟨rfl, rfl⟩

theorem pollingEffect_keeps (r : State) (w : World) :
    (pollingEffect r w).state.fileHistory = w.state.fileHistory ∧
    (pollingEffect r w).state.robotConfig = w.state.robotConfig := by
  unfold pollingEffect
  split
  · exact ⟨rfl, rfl⟩
  · exact pollStatus_keeps r w

theorem setPollCycle_keeps (n : Nat) (w : World) :
    (setPollCycle n w).state.fileHistory = w.state.fileHistory ∧
    (setPollCycle n w).state.robotConfig = w.state.robotConfig := by
  unfold setPollCycle
  split
  · exact ⟨rfl, rfl⟩
  · exact pollingEffect_keeps _ _

theorem setRobotName_keeps (name : String) (w : World) :
    (setRobotName name w).state.fileHistory = w.state.fileHistory ∧
    (setRobotName name w).state.robotConfig = w.state.robotConfig := by
  unfold setRobotName
  split
  · exact ⟨rfl, rfl⟩
  · exact pollingEffect_keeps _ _

theorem step_keeps (w : World) (e : Event) :
    (step w e).state.fileHistory = w.state.fileHistory ∧
    (step w e).state.robotConfig = w.state.robotConfig := by
  cases e with
  | tick =>
    simp only [step, tick]
    split
    · exact pollStatus_keeps _ _
    · exact ⟨rfl, rfl⟩
  | call k =>
    simp only [step]
    split
    · exact pollStatus_keeps _ _
    · exact ⟨rfl, rfl⟩
  | setPollCycle n => exact setPollCycle_keeps n w
  | respond i resp =>
    simp only [step, respond]
    split
    · exact pollStatusResume_keeps _ _ _
    · exact ⟨rfl, rfl⟩

theorem run_keeps (w : World) (es : List Event) :
    (run w es).state.fileHistory = w.state.fileHistory ∧
    (run w es).state.robotConfig = w.state.robotConfig := by
  induction es generalizing w with
  | nil => exact ⟨rfl, rfl⟩
  | cons e es ih =>
    have h1 := step_keeps w e
    have h2 := ih (step w e)
    simp only [run, List.foldl_cons] at h2 ⊢
    exact ⟨h2.1.trans h1.1, h2.2.trans h1.2⟩

theorem handlers_keep_state (r : State) (w : World) :
    (handlePlayPause r w).state = w.state ∧ (handleStop r w).state = w.state ∧
    (handleHome r w).state = w.state ∧ (handleSetHome r w).state = w.state := by
  refine ⟨?_, ?_, ?_, ?_⟩
  · unfold handlePlayPause
    split
    · rfl
    · split
      · split_ifs <;> rfl
      · rfl
  · unfold handleStop
    split <;> rfl
  · unfold handleHome
    split <;> rfl
  · unfold handleSetHome
    split <;> rfl

theorem playFile_state (r : State) (fsName fileName : String) (w : World) :
    (playFile r fsName fileName w).state = w.state := by
  unfold playFile
  split <;> rfl

theorem playFileResume_config (env : Ambient) (fileName : String) (resolved : Bool) (w : World) :
    (playFileResume env fileName resolved w).state.robotConfig = w.state.robotConfig := by
  unfold playFileResume addToHistory
  split
  · split <;> rfl
  · rfl

/-- C22, counterexample: a `playFile` of the empty file name whose request
succeeds adds no entry to the ledger. -/
theorem playFile_empty_name_adds_nothing :
    (playFile { State.init with robotName := "bot" } "sd" "" World.init).requests =
      [Request.playFile "bot" "sd" ""] ∧
    (playFileResume { newDate := { toLocaleString := "noon" }, dateNow := 0, mathRandom := 0 }
      "" true
      (playFile { State.init with robotName := "bot" } "sd" "" World.init)).state.fileHistory =
      [] := by
  decide

/-- C22, amended: the history ledger is written only by a dispatched play.  A
poll, whether it is skipped, issued, answered by any payload or failed, leaves
`fileHistory` as it was, and so does every run of interval ticks, scheduled
polls, poll-cycle changes and poll responses; the play/pause, stop, home and
set-home commands leave the whole state as it was.  `playFile` changes no
state before its request settles; if the request fails nothing changes at all;
if it succeeds with a non-empty file name the ledger is one new entry for that
file followed by the previous ledger, and with the empty file name the ledger
stays as it was. -/
theorem ledger_written_only_by_play (r : State) (w : World) :
    (pollStatus r w).state.fileHistory = w.state.fileHistory ∧
    (∀ (p : Pending) (resp : Response),
      (pollStatusResume p resp w).state.fileHistory = w.state.fileHistory) ∧
    (∀ es : List Event, (run w es).state.fileHistory = w.state.fileHistory) ∧
    ((handlePlayPause r w).state = w.state ∧ (handleStop r w).state = w.state ∧
      (handleHome r w).state = w.state ∧ (handleSetHome r w).state = w.state) ∧
    (∀ (env : Ambient) (fsName fileName : String),
      (playFile r fsName fileName w).state = w.state ∧
      playFileResume env fileName false w = w ∧
      (fileName ≠ "" →
        (playFileResume env fileName true w).state.fileHistory =
          { fileName := fileName
            playTimestamp := env.newDate.toLocaleString
            id := env.dateNow + env.mathRandom } :: w.state.fileHistory) ∧
      (fileName = "" →
        (playFileResume env fileName true w).state.fileHistory = w.state.fileHistory)) := by
  refine ⟨(pollStatus_keeps r w).1, fun p resp => (pollStatusResume_keeps p resp w).1,
    fun es => (run_keeps w es).1, handlers_keep_state r w, ?_⟩
  intro env fsName fileName
  refine ⟨playFile_state r fsName fileName w, rfl, ?_, ?_⟩
  · intro hne
    simp [playFileResume, addToHistory, hne, World.setState]
  · intro he
    simp [playFileResume, addToHistory, he, World.setState]

/-- Witness of C22 amended: a successful play of `a.thr` on the robot `bot`
records one entry for `a.thr` in the empty ledger. -/
theorem ledger_written_only_by_play_witness :
    "a.thr" ≠ "" ∧
    (playFileResume { newDate := { toLocaleString := "noon" }, dateNow := 1000, mathRandom := 0 }
      "a.thr" true World.init).state.fileHistory =
      [{ fileName := "a.thr", playTimestamp := "noon", id := 1000 + 0 }] :=
  ⟨by decide,
    ((ledger_written_only_by_play { State.init with robotName := "bot" } World.init).2.2.2.2
      { newDate := { toLocaleString := "noon" }, dateNow := 1000, mathRandom := 0 }
      "sd" "a.thr").2.2.1 (by decide)⟩

/-- C23: `robotConfig` starts at `{maxSpeed: 10, maxVal: 100}` for both axes
and changes only on a settings fetch.  When the fetched settings carry
`robotType === 'SandTableScara'` the config becomes `newConfig`, which is built
from the response alone: whatever the previous config was, each of the four
fields is the value of the response where that is truthy, and 10 (`maxSpeed`)
or 100 (`maxVal`) where it is missing or falsy, so nothing is carried over.
When the type differs, the body has no `robotConfig`, or the fetch fails,
nothing changes.  Issuing the request, polling (any run of ticks, scheduled
polls, poll-cycle changes and poll responses), the four commands and playing a
file leave the config as it was. -/
theorem robotConfig_changes_only_on_settings_fetch (r : State) (w : World) :
    (World.init.state.robotConfig =
      { axis0 := { maxSpeed := JsVal.num (JsNum.fin 10), maxVal := JsVal.num (JsNum.fin 100) }
        axis1 := { maxSpeed := JsVal.num (JsNum.fin 10), maxVal := JsVal.num (JsNum.fin 100) } }) ∧
    (∀ rc : RobotConfigSettings, rc.robotType = JsVal.str "SandTableScara" →
      (fetchSettingsResume (SettingsResponse.ok (some { robotConfig := some rc })) w).state.robotConfig
        = newConfig rc.robotGeom ∧
      ∀ v : World,
        (fetchSettingsResume (SettingsResponse.ok (some { robotConfig := some rc })) v).state.robotConfig
          = (fetchSettingsResume (SettingsResponse.ok (some { robotConfig := some rc })) w).state.robotConfig) ∧
    (∀ a0 a1 : AxisSettings,
      newConfig (some { axis0 := some a0, axis1 := some a1 }) =
        { axis0 :=
            { maxSpeed := if a0.maxSpeed.truthy then a0.maxSpeed else JsVal.num (JsNum.fin 10)
              maxVal := if a0.maxVal.truthy then a0.maxVal else JsVal.num (JsNum.fin 100) }
          axis1 :=
            { maxSpeed := if a1.maxSpeed.truthy then a1.maxSpeed else JsVal.num (JsNum.fin 10)
              maxVal := if a1.maxVal.truthy then a1.maxVal else JsVal.num (JsNum.fin 100) } }) ∧
    (newConfig none = JsRobotConfig.init ∧
      newConfig (some { axis0 := none, axis1 := none }) = JsRobotConfig.init) ∧
    (∀ rc : RobotConfigSettings, rc.robotType ≠ JsVal.str "SandTableScara" →
      fetchSettingsResume (SettingsResponse.ok (some { robotConfig := some rc })) w = w) ∧
    fetchSettingsResume (SettingsResponse.ok (some { robotConfig := none })) w = w ∧
    fetchSettingsResume (SettingsResponse.ok none) w = w ∧
    fetchSettingsResume SettingsResponse.error w = w ∧
    (fetchSettings r w).state = w.state ∧
    (∀ es : List Event, (run w es).state.robotConfig = w.state.robotConfig) ∧
    ((handlePlayPause r w).state = w.state ∧ (handleStop r w).state = w.state ∧
      (handleHome r w).state = w.state ∧ (handleSetHome r w).state = w.state) ∧
    (∀ (env : Ambient) (fsName fileName : String) (resolved : Bool),
      (playFile r fsName fileName w).state = w.state ∧
      (playFileResume env fileName resolved w).state.robotConfig = w.state.robotConfig) := by
  refine ⟨rfl, ?_, ?_, ⟨rfl, rfl⟩, ?_, rfl, rfl, rfl, fetchSettings_state r w,
    fun es => (run_keeps w es).2, handlers_keep_state r w, ?_⟩
  · intro rc hrc
    have h : ∀ v : World,
        (fetchSettingsResume (SettingsResponse.ok (some { robotConfig := some rc })) v).state.robotConfig
          = newConfig rc.robotGeom := by
      intro v
      simp [fetchSettingsResume, hrc, World.setState]
    exact ⟨h w, fun v => (h v).trans (h w).symm⟩
  · intro a0 a1
    rfl
  · intro rc hrc
    simp [fetchSettingsResume, hrc]
  · intro env fsName fileName resolved
    exact ⟨playFile_state r fsName fileName w, playFileResume_config env fileName resolved w⟩

/-- Witness of C23: a response of a `SandTableScara` with `axis0` reporting
`maxSpeed: 25, maxVal: 150` and no `axis1` overwrites the default config with
those two values and the fall-backs 10 and 100. -/
theorem robotConfig_changes_only_on_settings_fetch_witness :
    (fetchSettingsResume
      (SettingsResponse.ok (some ⟨some ⟨JsVal.str "SandTableScara",
        some ⟨some { maxSpeed := JsVal.ofNat 25, maxVal := JsVal.ofNat 150 }, none⟩⟩⟩))
      World.init).state.robotConfig =
      { axis0 := { maxSpeed := JsVal.ofNat 25, maxVal := JsVal.ofNat 150 }
        axis1 := { maxSpeed := JsVal.ofNat 10, maxVal := JsVal.ofNat 100 } } :=
  (((robotConfig_changes_only_on_settings_fetch State.init World.init).2.1
    ⟨JsVal.str "SandTableScara",
      some ⟨some { maxSpeed := JsVal.ofNat 25, maxVal := JsVal.ofNat 150 }, none⟩⟩
    rfl).1).trans (by decide!)

/-! ## Configs the program produces (C30) -/

theorem saneValue_orElse (v : JsVal) (k : Nat) (hk : 0 < k) (h : SaneValue v) :
    ∃ q : ℚ, 0 < q ∧ v.orElse (JsVal.ofNat k) = JsVal.num (JsNum.fin q) ∧
      (v = JsVal.undefined ∨ v = JsVal.num (JsNum.fin 0) → q = k) ∧
      (v ≠ JsVal.undefined → v ≠ JsVal.num (JsNum.fin 0) → v = JsVal.num (JsNum.fin q)) := by
  rcases h with h | ⟨q, hq, h⟩
  · subst h
    exact ⟨k, by exact_mod_cast hk, rfl, fun _ => rfl, fun h => absurd rfl h⟩
  · subst h
    by_cases h0 : q = 0
    · subst h0
      refine ⟨k, by exact_mod_cast hk, ?_, fun _ => rfl, fun _ h => absurd rfl h⟩
      simp [JsVal.orElse, JsVal.truthy, JsVal.ofNat]
    · refine ⟨q, lt_of_le_of_ne hq (Ne.symm h0), ?_, ?_, fun _ _ => rfl⟩
      · simp [JsVal.orElse, JsVal.truthy, JsNum.isNaN, h0]
      · intro h
        rcases h with h | h
        · cases h
        · exact absurd (by simpa using h) h0

theorem saneAxis_values (axis : Option AxisSettings) (h : SaneAxis axis) :
    SaneValue (maxSpeedOf axis) ∧ SaneValue (maxValOf axis) := by
  cases axis with
  | none => exact ⟨Or.inl rfl, Or.inl rfl⟩
  | some a => exact h a rfl

theorem saneGeom_axes (robotGeom : Option RobotGeomSettings) (h : SaneGeom robotGeom) :
    SaneAxis (robotGeom.bind (fun geom => geom.axis0)) ∧
    SaneAxis (robotGeom.bind (fun geom => geom.axis1)) := by
  cases robotGeom with
  | none => exact ⟨fun a ha => (by cases ha), fun a ha => (by cases ha)⟩
  | some geom => exact h geom rfl

theorem newConfig_positive (robotGeom : Option RobotGeomSettings) (h : SaneGeom robotGeom) :
    PositiveConfig (newConfig robotGeom) := by
  obtain ⟨h0, h1⟩ := saneGeom_axes robotGeom h
  obtain ⟨s0, v0⟩ := saneAxis_values _ h0
  obtain ⟨s1, v1⟩ := saneAxis_values _ h1
  obtain ⟨a, ha, ea, _⟩ := saneValue_orElse _ 10 (by decide) s0
  obtain ⟨b, hb, eb, _⟩ := saneValue_orElse _ 100 (by decide) v0
  obtain ⟨c, hc, ec, _⟩ := saneValue_orElse _ 10 (by decide) s1
  obtain ⟨d, hd, ed, _⟩ := saneValue_orElse _ 100 (by decide) v1
  refine ⟨{ axis0 := { maxSpeed := (a : ℝ), maxVal := (b : ℝ) }
            axis1 := { maxSpeed := (c : ℝ), maxVal := (d : ℝ) } }, ?_, ?_, ?_, ?_, ?_⟩
  · simp only [JsRobotConfig.toRobotConfig, newConfig, ea, eb, ec, ed, JsVal.finite]
  · show (0 : ℝ) < (a : ℝ)
    exact_mod_cast ha
  · show (0 : ℝ) < (b : ℝ)
    exact_mod_cast hb
  · show (0 : ℝ) < (c : ℝ)
    exact_mod_cast hc
  · show (0 : ℝ) < (d : ℝ)
    exact_mod_cast hd

/-- C30: the division of `calculateDrawingTime` is by `avgSpeed`, and under the
configs the program produces from sane device data `avgSpeed` is not zero.  The
default config has four finite values above zero; a config written by
`fetchSettings` from a response whose `maxSpeed` and `maxVal` values are each
missing or a non-negative number has four finite values above zero (a missing
or zero value is replaced by 10 for `maxSpeed` and 100 for `maxVal`, a positive
one is kept); a settled settings fetch with such a payload keeps the config
that way whatever its robot type; and for a config with four values above zero
`avgSpeed > 0` and `maxRadius > 0`. -/
theorem produced_configs_are_positive :
    PositiveConfig World.init.state.robotConfig ∧
    (∀ robotGeom, SaneGeom robotGeom → PositiveConfig (newConfig robotGeom)) ∧
    (∀ (resp : SettingsResponse) (w : World), SanePayload resp →
      PositiveConfig w.state.robotConfig →
      PositiveConfig (fetchSettingsResume resp w).state.robotConfig) ∧
    (∀ (v : JsVal) (k : Nat), 0 < k → SaneValue v →
      ∃ q : ℚ, 0 < q ∧ v.orElse (JsVal.ofNat k) = JsVal.num (JsNum.fin q) ∧
        (v = JsVal.undefined ∨ v = JsVal.num (JsNum.fin 0) → q = k) ∧
        (v ≠ JsVal.undefined → v ≠ JsVal.num (JsNum.fin 0) → v = JsVal.num (JsNum.fin q))) ∧
    (∀ robotConfig : RobotConfig,
      0 < robotConfig.axis0.maxSpeed → 0 < robotConfig.axis0.maxVal →
      0 < robotConfig.axis1.maxSpeed → 0 < robotConfig.axis1.maxVal →
      0 < avgSpeed robotConfig ∧ 0 < maxRadius robotConfig) ∧
    (∀ (coordinates : List PolarPoint) (robotConfig : RobotConfig),
      calculateDrawingTime coordinates robotConfig =
        if coordinates.length < 2 then 0
        else
          (List.range' 1 (coordinates.length - 1)).foldl
            (fun total i =>
              total + segmentDistance (maxRadius robotConfig)
                (coordinates.getD (i - 1) { theta := 0, rho := 0 })
                (coordinates.getD i { theta := 0, rho := 0 }))
            0 / avgSpeed robotConfig) := by
  have hinit : PositiveConfig World.init.state.robotConfig := by
    refine ⟨{ axis0 := { maxSpeed := ((10 : ℚ) : ℝ), maxVal := ((100 : ℚ) : ℝ) }
              axis1 := { maxSpeed := ((10 : ℚ) : ℝ), maxVal := ((100 : ℚ) : ℝ) } },
      ?_, ?_, ?_, ?_, ?_⟩
    · simp [World.init, State.init, JsRobotConfig.init, JsRobotConfig.toRobotConfig,
        JsVal.ofNat, JsVal.finite]
    all_goals norm_num
  refine ⟨hinit, newConfig_positive, ?_, saneValue_orElse, ?_, fun _ _ => rfl⟩
  · intro resp w hs hw
    cases resp with
    | error => exact hw
    | ok data =>
      cases data with
      | none => exact hw
      | some data =>
        cases hrc : data.robotConfig with
        | none =>
          simp only [fetchSettingsResume, hrc]
          exact hw
        | some rc =>
          simp only [fetchSettingsResume, hrc]
          split
          · exact newConfig_positive _ (hs data rc rfl hrc)
          · exact hw
  · intro rc h1 h2 h3 h4
    constructor
    · unfold avgSpeed
      linarith
    · unfold maxRadius
      exact lt_max_of_lt_left h2

/-- Witness of C30: a payload reporting `maxSpeed: 0` and no `maxVal` for
`axis0` and nothing for `axis1` is sane, and the config written from it has
four values above zero. -/
theorem produced_configs_are_positive_witness :
    SaneGeom (some ⟨some { maxSpeed := JsVal.ofNat 0, maxVal := JsVal.undefined }, none⟩) ∧
    PositiveConfig
      (newConfig (some ⟨some { maxSpeed := JsVal.ofNat 0, maxVal := JsVal.undefined }, none⟩)) :=
  have hs : SaneGeom
      (some ⟨some { maxSpeed := JsVal.ofNat 0, maxVal := JsVal.undefined }, none⟩) := by
    intro geom hg
    cases hg
    constructor
    · intro a ha
      cases ha
      exact ⟨Or.inr ⟨0, le_refl 0, by simp [JsVal.ofNat]⟩, Or.inl rfl⟩
    · intro a ha
      cases ha
  ⟨hs, produced_configs_are_positive.2.1 _ hs⟩

/-! ## Firmware version (C24, C25) -/

theorem JsNum.orElse_fin (q : ℚ) : (JsNum.fin q).orElse (JsNum.fin 0) = JsNum.fin q := by
  by_cases h : q = 0
  · subst h
    simp [JsNum.orElse, JsVal.truthy]
  · simp [JsNum.orElse, JsVal.truthy, JsNum.isNaN, h]

theorem JsNum.orElse_nan (k : JsNum) : JsNum.nan.orElse k = k := by
  simp [JsNum.orElse, JsVal.truthy, JsNum.isNaN]

theorem parseInt10_cases (s : List Char) :
    parseInt10 s = JsNum.nan ∨ ∃ n : ℤ, parseInt10 s = JsNum.fin n := by
  unfold parseInt10
  simp only
  split_ifs
  · exact Or.inl rfl
  · exact Or.inr ⟨_, rfl⟩

theorem versionNumber_int (s : List Char) :
    ∃ n : ℤ, (parseInt10 s).orElse (JsNum.fin 0) = JsNum.fin n ∧
      (parseInt10 s = JsNum.nan → n = 0) ∧ (∀ m : ℤ, parseInt10 s = JsNum.fin m → n = m) := by
  rcases parseInt10_cases s with h | ⟨n, h⟩
  · refine ⟨0, ?_, fun _ => rfl, ?_⟩
    · rw [h, JsNum.orElse_nan]
      simp
    · intro m hm
      rw [h] at hm
      cases hm
  · refine ⟨n, ?_, ?_, ?_⟩
    · rw [h, JsNum.orElse_fin]
    · intro hn
      rw [h] at hn
      cases hn
    · intro m hm
      rw [h] at hm
      have : (n : ℚ) = (m : ℚ) := by
        injection hm
      exact_mod_cast this

theorem digit_not_special (c : Char) (h : isDecimalDigit c = true) :
    isStrWhiteSpaceChar c = false ∧ c ≠ '-' ∧ c ≠ '+' ∧ c ≠ '.' := by
  have hb := (isDecimalDigit_iff c).mp h
  have hne : ∀ d : Char, ¬ (48 ≤ d.toNat ∧ d.toNat ≤ 57) → c ≠ d := by
    intro d hd hcd
    rw [hcd] at hb
    exact hd hb
  exact ⟨(isNumberChar_spec c (isNumberChar_of_digit c h)).1, hne _ (by decide),
    hne _ (by decide), hne _ (by decide)⟩

theorem parseInt10_digits (a : List Char) (h : IsDigits a) :
    parseInt10 a = JsNum.fin (digitsNat a) := by
  obtain ⟨hne, hd⟩ := h
  cases a with
  | nil => exact absurd rfl hne
  | cons c cs =>
    obtain ⟨hw, hm, hp, _⟩ := digit_not_special c (hd c (List.mem_cons_self _ _))
    have htake : (c :: cs).takeWhile isDecimalDigit = c :: cs :=
      List.takeWhile_eq_self_iff.mpr hd
    have hdrop : (c :: cs).dropWhile isStrWhiteSpaceChar = c :: cs := by
      simp [List.dropWhile, hw]
    have hsign : (match c :: cs with
        | '-' :: rest => ((-1 : Int), rest)
        | '+' :: rest => (1, rest)
        | _ => (1, c :: cs)) = (1, c :: cs) := by
      split
      · rename_i heq
        cases heq
        exact absurd rfl hm
      · rename_i heq
        cases heq
        exact absurd rfl hp
      · rfl
    unfold parseInt10
    simp only [hdrop, hsign, htake]
    simp

theorem splitOn_three (a b c : List Char) (ha : IsDigits a) (hb : IsDigits b)
    (hc : IsDigits c) : splitOn '.' (a ++ '.' :: (b ++ '.' :: c)) = [a, b, c] := by
  have hdot : ∀ cs : List Char, IsDigits cs → ∀ x ∈ cs, x ≠ '.' :=
    fun cs h x hx => (digit_not_special x (h.2 x hx)).2.2.2
  rw [splitOn_append_sep '.' a _ (hdot a ha), splitOn_append_sep '.' b _ (hdot b hb),
    splitOn_of_not_mem '.' c (hdot c hc)]

theorem isFirmwareVersionSupported_of_parts (r : State) (data : JsObj)
    (p0 p1 p2 : List Char) (rest : List (List Char)) (M m p : ℤ)
    (hs : r.statusData = some data) (ht : (data.field "espV").truthy = true)
    (hparts : splitOn '.' (data.field "espV").toText = p0 :: p1 :: p2 :: rest)
    (hM : (parseInt10 p0).orElse (JsNum.fin 0) = JsNum.fin M)
    (hm : (parseInt10 p1).orElse (JsNum.fin 0) = JsNum.fin m)
    (hp : (parseInt10 p2).orElse (JsNum.fin 0) = JsNum.fin p) :
    isFirmwareVersionSupported r = true ↔
      (2 < M ∨ (M = 2 ∧ (30 < m ∨ (m = 30 ∧ 0 ≤ p)))) := by
  have e2 : ((2 : ℤ) : ℚ) = 2 := by norm_num
  have e30 : ((30 : ℤ) : ℚ) = 30 := by norm_num
  have e0 : ((0 : ℤ) : ℚ) = 0 := by norm_num
  have g2 : (JsNum.fin (M : ℚ)).gt (JsNum.fin 2) = decide (2 < M) := by
    rw [JsNum.gt_fin, ← e2]
    simp only [Int.cast_lt]
  have s2 : (JsNum.fin (M : ℚ)).strictEq (JsNum.fin 2) = decide (M = 2) := by
    rw [JsNum.strictEq_fin, ← e2]
    simp only [Int.cast_inj]
  have g30 : (JsNum.fin (m : ℚ)).gt (JsNum.fin 30) = decide (30 < m) := by
    rw [JsNum.gt_fin, ← e30]
    simp only [Int.cast_lt]
  have s30 : (JsNum.fin (m : ℚ)).strictEq (JsNum.fin 30) = decide (m = 30) := by
    rw [JsNum.strictEq_fin, ← e30]
    simp only [Int.cast_inj]
  have g0 : (JsNum.fin (p : ℚ)).ge (JsNum.fin 0) = decide (0 ≤ p) := by
    rw [JsNum.ge_fin, ← e0]
    simp only [Int.cast_le]
  unfold isFirmwareVersionSupported
  simp only [hs, ht, hparts, Bool.not_true, Bool.false_eq_true, if_false, List.length_cons,
    List.getD_cons_zero, List.getD_cons_succ, hM, hm, hp, g2, s2, g30, s30, g0]
  have hlen : ¬ (rest.length + 1 + 1 + 1 < 3) := by omega
  simp only [hlen, if_false]
  by_cases c1 : 2 < M
  · simp [c1]
  · by_cases c2 : M = 2
    · by_cases c3 : 30 < m
      · simp [c2, c3]
      · by_cases c4 : m = 30
        · simp [c2, c4]
        · simp [c2, c3, c4]
    · simp [c1, c2]

theorem string_mk_cons_truthy (cs : List Char) (h : cs ≠ []) :
    (JsVal.str (String.mk cs)).truthy = true := by
  cases cs with
  | nil => exact absurd rfl h
  | cons c cs =>
    have hne : String.mk (c :: cs) ≠ "" := by
      intro he
      have := congrArg String.data he
      simp at this
    simp [JsVal.truthy, hne]

/-- C24: for a reported version made of exactly three dot-separated runs of
decimal digits `major.minor.patch`, `isFirmwareVersionSupported` is true iff
`(major, minor, patch) ≥ (2, 30, 0)` in lexicographic order, the three runs
being read as the numbers they write (leading zeros allowed); `"2.030.000"`
and `"3.0.0"` are supported, `"2.29.999"` and `"1.99.99"` are not. -/
theorem isFirmwareVersionSupported_iff_lex (r : State) (data : JsObj) (a b c : List Char)
    (ha : IsDigits a) (hb : IsDigits b) (hc : IsDigits c)
    (hs : r.statusData = some data)
    (hv : data.field "espV" = JsVal.str (String.mk (a ++ '.' :: (b ++ '.' :: c)))) :
    (isFirmwareVersionSupported r = true ↔
      (toLex (2, toLex (30, 0)) : ℕ ×ₗ ℕ ×ₗ ℕ) ≤
        toLex (digitsNat a, toLex (digitsNat b, digitsNat c))) ∧
    isFirmwareVersionSupported
      { State.init with statusData := some (statusOfVersion "2.030.000") } = true ∧
    isFirmwareVersionSupported
      { State.init with statusData := some (statusOfVersion "3.0.0") } = true ∧
    isFirmwareVersionSupported
      { State.init with statusData := some (statusOfVersion "2.29.999") } = false ∧
    isFirmwareVersionSupported
      { State.init with statusData := some (statusOfVersion "1.99.99") } = false := by
  refine ⟨?_, by decide!, by decide!, by decide!, by decide!⟩
  have ht : (data.field "espV").truthy = true := by
    rw [hv]
    exact string_mk_cons_truthy _ (by
      intro he
      exact ha.1 (List.append_eq_nil.mp he).1)
  have hparts : splitOn '.' (data.field "espV").toText = a :: b :: c :: [] := by
    rw [hv]
    exact splitOn_three a b c ha hb hc
  have hnum : ∀ cs : List Char, IsDigits cs →
      (parseInt10 cs).orElse (JsNum.fin 0) = JsNum.fin (((digitsNat cs : ℕ) : ℤ) : ℚ) := by
    intro cs h
    rw [parseInt10_digits cs h, JsNum.orElse_fin]
    simp
  rw [isFirmwareVersionSupported_of_parts r data a b c [] _ _ _ hs ht hparts
    (hnum a ha) (hnum b hb) (hnum c hc), Prod.Lex.le_iff]
  simp only [Prod.Lex.le_iff, ofLex_toLex]
  omega

/-- Witness of C24: the version `2.30.0` is supported, being equal to the
threshold. -/
theorem isFirmwareVersionSupported_iff_lex_witness :
    isFirmwareVersionSupported
      { State.init with statusData := some (statusOfVersion "2.30.0") } = true :=
  (isFirmwareVersionSupported_iff_lex
    { State.init with statusData := some (statusOfVersion "2.30.0") }
    (statusOfVersion "2.30.0") ['2'] ['3', '0'] ['0']
    ⟨by decide, by decide⟩ ⟨by decide, by decide⟩ ⟨by decide, by decide⟩ rfl rfl).1.mpr
    (by decide)

/-- C25, counterexample: the versions `3.x.y` and `2.30.x`, whose second and
third, respectively third, components do not parse as integers, are
supported. -/
theorem unparsable_components_are_supported :
    parseInt10 "x".toList = JsNum.nan ∧ parseInt10 "y".toList = JsNum.nan ∧
    isFirmwareVersionSupported
      { State.init with statusData := some (statusOfVersion "3.x.y") } = true ∧
    isFirmwareVersionSupported
      { State.init with statusData := some (statusOfVersion "2.30.x") } = true := by
  decide!

/-- C25, amended: `isFirmwareVersionSupported` is false when there is no
status, when the reported version is missing or falsy, and when the version
text has fewer than three dot-separated components.  With three or more
components each of the first three is read by `parseInt(.., 10) || 0`, so a
component that does not parse as an integer counts as 0, and the version is
supported iff the three numbers are at least `(2, 30, 0)` in lexicographic
order; in particular a version whose first component does not parse is
unsupported. -/
theorem isFirmwareVersionSupported_unparsable (r : State) :
    (r.statusData = none → isFirmwareVersionSupported r = false) ∧
    (∀ data, r.statusData = some data → (data.field "espV").truthy = false →
      isFirmwareVersionSupported r = false) ∧
    (∀ data, r.statusData = some data →
      (splitOn '.' (data.field "espV").toText).length < 3 →
      isFirmwareVersionSupported r = false) ∧
    (∀ data p0 p1 p2 rest, r.statusData = some data → (data.field "espV").truthy = true →
      splitOn '.' (data.field "espV").toText = p0 :: p1 :: p2 :: rest →
      (∃ M m p : ℤ,
        ((parseInt10 p0 = JsNum.nan → M = 0) ∧ ∀ n : ℤ, parseInt10 p0 = JsNum.fin n → M = n) ∧
        ((parseInt10 p1 = JsNum.nan → m = 0) ∧ ∀ n : ℤ, parseInt10 p1 = JsNum.fin n → m = n) ∧
        ((parseInt10 p2 = JsNum.nan → p = 0) ∧ ∀ n : ℤ, parseInt10 p2 = JsNum.fin n → p = n) ∧
        (isFirmwareVersionSupported r = true ↔
          (toLex (2, toLex (30, 0)) : ℤ ×ₗ ℤ ×ₗ ℤ) ≤ toLex (M, toLex (m, p)))) ∧
      (parseInt10 p0 = JsNum.nan → isFirmwareVersionSupported r = false)) := by
  refine ⟨?_, ?_, ?_, ?_⟩
  · intro hs
    simp [isFirmwareVersionSupported, hs]
  · intro data hs ht
    simp [isFirmwareVersionSupported, hs, ht]
  · intro data hs hlen
    unfold isFirmwareVersionSupported
    simp only [hs, hlen, if_true]
    split <;> rfl
  · intro data p0 p1 p2 rest hs ht hparts
    obtain ⟨M, hM, hM0, hMn⟩ := versionNumber_int p0
    obtain ⟨m, hm, hm0, hmn⟩ := versionNumber_int p1
    obtain ⟨p, hp, hp0, hpn⟩ := versionNumber_int p2
    have key := isFirmwareVersionSupported_of_parts r data p0 p1 p2 rest M m p hs ht hparts
      hM hm hp
    have hlex : ((toLex (2, toLex (30, 0)) : ℤ ×ₗ ℤ ×ₗ ℤ) ≤ toLex (M, toLex (m, p))) ↔
        (2 < M ∨ (M = 2 ∧ (30 < m ∨ (m = 30 ∧ 0 ≤ p)))) := by
      rw [Prod.Lex.le_iff]
      simp only [Prod.Lex.le_iff, ofLex_toLex]
      omega
    refine ⟨⟨M, m, p, ⟨hM0, hMn⟩, ⟨hm0, hmn⟩, ⟨hp0, hpn⟩, key.trans hlex.symm⟩, ?_⟩
    intro hnan
    have h0 : M = 0 := hM0 hnan
    cases hsup : isFirmwareVersionSupported r with
    | false => rfl
    | true =>
      have := key.mp hsup
      omega

/-- Witness of C25 amended: the version `x.30.1`, whose first component does
not parse, is unsupported. -/
theorem isFirmwareVersionSupported_unparsable_witness :
    parseInt10 "x".toList = JsNum.nan ∧
    isFirmwareVersionSupported
      { State.init with statusData := some (statusOfVersion "x.30.1") } = false :=
  ⟨by decide!,
    ((isFirmwareVersionSupported_unparsable
      { State.init with statusData := some (statusOfVersion "x.30.1") }).2.2.2
      (statusOfVersion "x.30.1") "x".toList "30".toList "1".toList [] rfl (by decide!)
      (by decide!)).2 (by decide!)⟩

/-! ## URL query parameters (C26) -/

theorem searchParamsGet_delete (key name : String) (params : List (String × String)) :
    searchParamsGet key (searchParamsDelete name params) =
      if key = name then none else searchParamsGet key params := by
  induction params with
  | nil => simp [searchParamsGet, searchParamsDelete]
  | cons pair rest ih =>
    obtain ⟨k, v⟩ := pair
    unfold searchParamsGet searchParamsDelete at ih ⊢
    by_cases hk : k = name
    · subst hk
      simp only [List.filter_cons, decide_True, Bool.not_true, Bool.false_eq_true, if_false]
      rw [ih]
      by_cases hkey : key = k
      · simp [hkey]
      · have : (key == k) = false := by simpa using hkey
        simp [hkey, List.lookup_cons, this]
    · have hd : (!decide (k = name)) = true := by simpa using hk
      simp only [List.filter_cons, hd, if_true, List.lookup_cons]
      rw [ih]
      by_cases hkey : key = k
      · subst hkey
        simp [hk]
      · have : (key == k) = false := by simpa using hkey
        simp [this]

theorem searchParamsGet_set (key name value : String) (params : List (String × String)) :
    searchParamsGet key (searchParamsSet name value params) =
      if key = name then some value else searchParamsGet key params := by
  induction params with
  | nil =>
    by_cases hkey : key = name
    · simp [searchParamsGet, searchParamsSet, hkey]
    · have : (key == name) = false := by simpa using hkey
      simp [searchParamsGet, searchParamsSet, hkey, List.lookup_cons, this]
  | cons pair rest ih =>
    obtain ⟨k, v⟩ := pair
    unfold searchParamsSet
    by_cases hk : k = name
    · subst hk
      simp only [if_true]
      by_cases hkey : key = k
      · simp [searchParamsGet, hkey]
      · have h1 : (key == k) = false := by simpa using hkey
        have h2 := searchParamsGet_delete key k rest
        unfold searchParamsGet at h2 ⊢
        simp [List.lookup_cons, h1, h2, hkey]
    · simp only [hk, if_false]
      unfold searchParamsGet at ih ⊢
      by_cases hkey : key = k
      · subst hkey
        simp [hk]
      · have h1 : (key == k) = false := by simpa using hkey
        simp only [List.lookup_cons, h1]
        exact ih

theorem getQueryParams_updateUrl (c : UrlSettings) (url : List (String × String)) :
    searchParamsGet "hostIP" (updateUrlWithSettings c url) =
      (if c.robotName ≠ "" then some c.robotName else none) ∧
    searchParamsGet "pollCycle" (updateUrlWithSettings c url) =
      (if !c.pollCycle.strictEq (JsNum.fin 10) then some (String.mk (numberToString c.pollCycle))
        else none) ∧
    searchParamsGet "wledEnabled" (updateUrlWithSettings c url) =
      (if c.controlMode ≠ ControlMode.disabled then some "true" else none) ∧
    searchParamsGet "wledAddress" (updateUrlWithSettings c url) =
      (if c.wledAddress ≠ "" ∧ c.wledAddress ≠ c.robotName then some c.wledAddress
        else none) := by
  have k1 : ("hostIP" = "pollCycle") = False := by decide
  have k2 : ("hostIP" = "wledEnabled") = False := by decide
  have k3 : ("hostIP" = "wledAddress") = False := by decide
  have k4 : ("pollCycle" = "wledEnabled") = False := by decide
  have k5 : ("pollCycle" = "wledAddress") = False := by decide
  have k6 : ("wledEnabled" = "wledAddress") = False := by decide
  have k7 : ("pollCycle" = "hostIP") = False := by decide
  have k8 : ("wledEnabled" = "hostIP") = False := by decide
  have k9 : ("wledAddress" = "hostIP") = False := by decide
  have k10 : ("wledEnabled" = "pollCycle") = False := by decide
  have k11 : ("wledAddress" = "pollCycle") = False := by decide
  have k12 : ("wledAddress" = "wledEnabled") = False := by decide
  unfold updateUrlWithSettings
  simp only
  refine ⟨?_, ?_, ?_, ?_⟩ <;>
    split_ifs <;>
    simp only [searchParamsGet_set, searchParamsGet_delete, k1, k2, k3, k4, k5, k6, k7, k8,
      k9, k10, k11, k12, if_true, if_false]

theorem numberToString_natCast (n : Nat) (h : n < 10 ^ 21) :
    numberToString (JsNum.fin (n : ℚ)) = decimalDigits n := by
  have h1 := integerText_small n h
  unfold integerText at h1
  have h2 : numberToString (JsNum.fin (((n : Int) : ℚ))) = decimalDigits n := by
    injection h1
  simpa using h2

theorem parseInt10_pollCycle (n : Nat) (h : n < 10 ^ 21) :
    parseInt10 (String.mk (numberToString (JsNum.fin (n : ℚ)))).toList = JsNum.fin (n : ℚ) := by
  obtain ⟨h1, h2, h3⟩ := decimalDigits_spec n
  show parseInt10 (numberToString (JsNum.fin (n : ℚ))) = JsNum.fin (n : ℚ)
  rw [numberToString_natCast n h, parseInt10_digits _ ⟨h1, h2⟩, h3]

/-- C26, counterexample: written to the URL and read back, the control mode
`legacy` comes back as `wled` (and so does `cnc`), and a secondary address
equal to the device address comes back empty. -/
theorem url_round_trip_loses_mode_and_address :
    reloadFromUrl
      { robotName := "bot", pollCycle := JsNum.fin 10, controlMode := ControlMode.legacy,
        wledAddress := "" } [] =
      { robotName := "bot", pollCycle := JsNum.fin 10, controlMode := ControlMode.wled,
        wledAddress := "" } ∧
    reloadFromUrl
      { robotName := "bot", pollCycle := JsNum.fin 10, controlMode := ControlMode.cnc,
        wledAddress := "" } [] =
      { robotName := "bot", pollCycle := JsNum.fin 10, controlMode := ControlMode.wled,
        wledAddress := "" } ∧
    reloadFromUrl
      { robotName := "bot", pollCycle := JsNum.fin 10, controlMode := ControlMode.disabled,
        wledAddress := "bot" } [] =
      { robotName := "bot", pollCycle := JsNum.fin 10, controlMode := ControlMode.disabled,
        wledAddress := "" } := by
  decide!

/-- C26, amended: for every device address, every poll cycle that is a
positive integer below `10^21`, every control mode and every secondary
address, and whatever query parameters the URL had before, writing the
settings with `updateUrlWithSettings` and reading them back with
`getQueryParams` and the mount effect on the initial state restores the device
address and the poll cycle; the control mode comes back as `disabled` if it
was `disabled` and as `wled` otherwise; the secondary address comes back empty
if it was equal to the device address and unchanged otherwise.  So the
settings come back as they were iff the mode is `disabled` or `wled` and the
secondary address is empty or differs from the device address. -/
theorem reloadFromUrl_restores (c : UrlSettings) (url : List (String × String)) (n : Nat)
    (hn : c.pollCycle = JsNum.fin (n : ℚ)) (hpos : 0 < n) (hsmall : n < 10 ^ 21) :
    reloadFromUrl c url =
      { robotName := c.robotName
        pollCycle := c.pollCycle
        controlMode :=
          if c.controlMode = ControlMode.disabled then ControlMode.disabled
          else ControlMode.wled
        wledAddress := if c.wledAddress = c.robotName then "" else c.wledAddress } ∧
    (reloadFromUrl c url = c ↔
      (c.controlMode = ControlMode.disabled ∨ c.controlMode = ControlMode.wled) ∧
      (c.wledAddress = c.robotName → c.wledAddress = "")) := by
  obtain ⟨name, poll, mode, address⟩ := c
  simp only at hn
  subst hn
  have hmain : reloadFromUrl ⟨name, JsNum.fin (n : ℚ), mode, address⟩ url =
      { robotName := name
        pollCycle := JsNum.fin (n : ℚ)
        controlMode :=
          if mode = ControlMode.disabled then ControlMode.disabled else ControlMode.wled
        wledAddress := if address = name then "" else address } := by
    obtain ⟨g1, g2, g3, g4⟩ :=
      getQueryParams_updateUrl ⟨name, JsNum.fin (n : ℚ), mode, address⟩ url
    simp only at g1 g2 g3 g4
    have hhas : ∀ (key : String) (params : List (String × String)),
        List.lookup key params = searchParamsGet key params := fun _ _ => rfl
    have hq : (n : ℚ) ≠ 0 := by exact_mod_cast (Nat.pos_iff_ne_zero.mp hpos)
    have hq0 : (0 : ℚ) < (n : ℚ) := by exact_mod_cast hpos
    have hpoll : (getQueryParams (updateUrlWithSettings
        ⟨name, JsNum.fin (n : ℚ), mode, address⟩ url)).pollCycle =
        if n = 10 then none else some (JsNum.fin (n : ℚ)) := by
      simp only [getQueryParams, searchParamsHas, hhas, g2, JsNum.strictEq_fin]
      by_cases h10 : n = 10
      · subst h10
        simp
      · have h10q : (n : ℚ) ≠ 10 := by exact_mod_cast h10
        simp only [h10q, decide_False, Bool.not_false, if_true, Option.isSome_some,
          Option.getD_some, h10, if_false]
        rw [parseInt10_pollCycle n hsmall]
        simp [JsNum.isNaN, JsNum.gt_fin, hq0]
    have hname : (getQueryParams (updateUrlWithSettings
        ⟨name, JsNum.fin (n : ℚ), mode, address⟩ url)).robotName =
        if name ≠ "" then some name else none := by
      simp only [getQueryParams, searchParamsHas, hhas, g1]
      by_cases h1 : name = "" <;> simp [h1]
    have hmode : (getQueryParams (updateUrlWithSettings
        ⟨name, JsNum.fin (n : ℚ), mode, address⟩ url)).wledEnabled =
        if mode ≠ ControlMode.disabled then some true else none := by
      simp only [getQueryParams, searchParamsHas, hhas, g3]
      have ht : toLowerCase "true" = "true" := by decide
      by_cases hm : mode = ControlMode.disabled
      · simp [hm]
      · simp [hm, ht]
    have haddr : (getQueryParams (updateUrlWithSettings
        ⟨name, JsNum.fin (n : ℚ), mode, address⟩ url)).wledAddress =
        if address ≠ "" ∧ address ≠ name then some address else none := by
      simp only [getQueryParams, searchParamsHas, hhas, g4]
      by_cases h4 : address ≠ "" ∧ address ≠ name <;> simp [h4]
    unfold reloadFromUrl applyQueryParams
    rw [hname, hpoll, hmode, haddr]
    have htruthy : (JsVal.num (JsNum.fin (n : ℚ))).truthy = true := by
      simp [JsVal.truthy, JsNum.isNaN, hq]
    by_cases h1 : name = "" <;> by_cases h2 : n = 10 <;>
      by_cases h3 : mode = ControlMode.disabled <;> by_cases h4 : address = "" <;>
      by_cases h5 : address = name <;>
      simp_all [UrlSettings.init]
  refine ⟨hmain, ?_⟩
  rw [hmain]
  simp only [UrlSettings.mk.injEq, true_and]
  constructor
  · rintro ⟨hm, ha⟩
    constructor
    · by_cases h3 : mode = ControlMode.disabled
      · exact Or.inl h3
      · rw [if_neg h3] at hm
        exact Or.inr hm.symm
    · intro he
      rw [if_pos he] at ha
      exact ha.symm
  · rintro ⟨hm, ha⟩
    constructor
    · rcases hm with hm | hm <;> simp [hm]
    · by_cases he : address = name
      · rw [if_pos he]
        exact (ha he).symm
      · rw [if_neg he]

/-- Witness of C26 amended: the device `bot` polled every 5 seconds with the
wLED controls at `led` comes back as it was. -/
theorem reloadFromUrl_restores_witness :
    (0 < 5 ∧ 5 < 10 ^ 21) ∧
    reloadFromUrl
      { robotName := "bot", pollCycle := JsNum.fin 5, controlMode := ControlMode.wled,
        wledAddress := "led" } [("hostIP", "old")] =
      { robotName := "bot", pollCycle := JsNum.fin 5, controlMode := ControlMode.wled,
        wledAddress := "led" } :=
  ⟨⟨by decide, by decide⟩,
    ((reloadFromUrl_restores
      { robotName := "bot", pollCycle := JsNum.fin 5, controlMode := ControlMode.wled,
        wledAddress := "led" } [("hostIP", "old")] 5 (by simp) (by decide) (by decide)).2).mpr
      ⟨Or.inr rfl, fun h => absurd h (by decide)⟩⟩

/-! ## Classifier and resolver (C27) -/

/-- C27: on every connected status whose queue depth is a non-negative integer
(with any pause field), for a named robot with a pattern loaded, the classifier
and the play/pause resolver agree: if `getCurrentStatus` is `paused` the
gesture sends Resume, if it is `doodling` the gesture sends Pause, and the
gesture sends Play only if the state is `idle`.  The converse of the last part
fails: the status `{pause: 1, Qd: 0}` is classified `idle` and resolves to
Resume. -/
theorem classifier_agrees_with_resolver (r : State) (w : World) (data : JsObj) (n : Nat)
    (hname : r.robotName ≠ "") (hfile : r.loadedFileName ≠ "")
    (hconn : r.connected = true) (hs : r.statusData = some data)
    (hq : data.field "Qd" = JsVal.num (JsNum.fin (n : ℚ))) :
    (getCurrentStatus r = ConnectionState.paused →
      (handlePlayPause r w).requests = Request.exec r.robotName "resume" :: w.requests) ∧
    (getCurrentStatus r = ConnectionState.doodling →
      (handlePlayPause r w).requests = Request.exec r.robotName "pause" :: w.requests) ∧
    ((handlePlayPause r w).requests = Request.exec r.robotName "play" :: w.requests →
      getCurrentStatus r = ConnectionState.idle) ∧
    (getCurrentStatus
        { State.init with
          robotName := "bot", loadedFileName := "a.thr", connected := true,
          statusData := some (statusOf 1 0) } = ConnectionState.idle ∧
      (handlePlayPause
        { State.init with
          robotName := "bot", loadedFileName := "a.thr", connected := true,
          statusData := some (statusOf 1 0) } World.init).requests =
        [Request.exec "bot" "resume"]) := by
  have hgt : (data.field "Qd").gtNum (JsNum.fin 0) = decide (0 < n) := by
    rw [hq]
    simp [JsVal.gtNum, JsVal.toNumber, JsNum.gt_fin]
  have hge : (data.field "Qd").geNum (JsNum.fin 1) = decide (0 < n) := by
    rw [hq]
    simp only [JsVal.geNum, JsVal.toNumber, JsNum.ge_fin]
    have : ((1 : ℚ) ≤ (n : ℚ)) ↔ 0 < n := by
      rw [show (1 : ℚ) = ((1 : ℕ) : ℚ) by norm_num, Nat.cast_le]
      omega
    simp only [this]
  have hcls : getCurrentStatus r =
      if 0 < n then
        (if (data.field "pause").strictEqNum (JsNum.fin 1) then ConnectionState.paused
          else ConnectionState.doodling)
      else ConnectionState.idle := by
    simp only [getCurrentStatus, hconn, hs, hgt, decide_eq_true_eq]
  have hreq : (handlePlayPause r w).requests =
      Request.exec r.robotName
        (if (data.field "pause").strictEqNum (JsNum.fin 1) then "resume"
          else if 0 < n then "pause" else "play") :: w.requests := by
    simp only [handlePlayPause, hname, hfile, hs, hge, or_self, if_false, decide_eq_true_eq]
    split_ifs <;> rfl
  rw [hcls, hreq]
  refine ⟨?_, ?_, ?_, by decide!, by decide!⟩
  · intro h
    by_cases hn : 0 < n
    · by_cases hp : (data.field "pause").strictEqNum (JsNum.fin 1) = true
      · simp [hp]
      · simp [hn, hp] at h
    · simp [hn] at h
  · intro h
    by_cases hn : 0 < n
    · by_cases hp : (data.field "pause").strictEqNum (JsNum.fin 1) = true
      · simp [hn, hp] at h
      · simp [hn, hp]
    · simp [hn] at h
  · intro h
    by_cases hp : (data.field "pause").strictEqNum (JsNum.fin 1) = true
    · simp [hp] at h
    · by_cases hn : 0 < n
      · simp [hn, hp] at h
      · simp [hn]

/-- Witness of C27: the robot `bot` with `a.thr` loaded and the status
`{pause: 1, Qd: 5}` is `paused`, and the gesture sends Resume. -/
theorem classifier_agrees_with_resolver_witness :
    getCurrentStatus
      { State.init with
        robotName := "bot", loadedFileName := "a.thr", connected := true,
        statusData := some (statusOf 1 5) } = ConnectionState.paused ∧
    (handlePlayPause
      { State.init with
        robotName := "bot", loadedFileName := "a.thr", connected := true,
        statusData := some (statusOf 1 5) } World.init).requests =
      Request.exec "bot" "resume" :: World.init.requests :=
  have hp : getCurrentStatus
      { State.init with
        robotName := "bot", loadedFileName := "a.thr", connected := true,
        statusData := some (statusOf 1 5) } = ConnectionState.paused := by decide!
  ⟨hp, (classifier_agrees_with_resolver
    { State.init with
      robotName := "bot", loadedFileName := "a.thr", connected := true,
      statusData := some (statusOf 1 5) } World.init (statusOf 1 5) 5
    (by decide) (by decide) rfl rfl (by simp [statusOf, JsObj.field, List.lookup])).1 hp⟩

/-! ## Lines of a pattern file (C28) -/

theorem splitOn_append (sep : Char) (a b : List Char) :
    splitOn sep (a ++ sep :: b) = splitOn sep a ++ splitOn sep b := by
  induction a with
  | nil =>
    simp [splitOn]
  | cons c a ih =>
    rw [List.cons_append, splitOn, splitOn]
    by_cases hc : c = sep
    · rw [if_pos hc, if_pos hc, ih]
      rfl
    · rw [if_neg hc, if_neg hc, ih]
      cases hsp : splitOn sep a with
      | nil => exact absurd hsp (splitOn_ne_nil sep a)
      | cons piece pieces => rfl

theorem parseFile_append (a b : String) :
    parseFile (a ++ "\n" ++ b) = parseFile a ++ parseFile b := by
  have hl : (a ++ "\n" ++ b).toList = a.toList ++ Char.ofNat 10 :: b.toList := by
    simp [String.toList]
  unfold parseFile
  rw [hl, splitOn_append, List.map_append, List.filter_append]

/-- C28: `parseFile` distributes over line concatenation: for all texts `a`
and `b`, `parseFile(a + "\n" + b) = parseFile(a) ++ parseFile(b)`.  The result
is an order-preserving subsequence of the per-line parses, its length never
exceeds the number of lines, and inserting or removing a text that yields no
point (a dropped line) between two texts never changes the points obtained
from them. -/
theorem parseFile_distributes_over_lines (a b : String) :
    parseFile (a ++ "\n" ++ b) = parseFile a ++ parseFile b ∧
    (parseFile a).Sublist ((splitOn (Char.ofNat 10) a.toList).map parseLine) ∧
    (parseFile a).length ≤ (splitOn (Char.ofNat 10) a.toList).length ∧
    (∀ line : String, parseFile line = [] →
      parseFile (a ++ "\n" ++ line ++ "\n" ++ b) = parseFile (a ++ "\n" ++ b)) := by
  refine ⟨parseFile_append a b, ?_, ?_, ?_⟩
  · exact List.filter_sublist _
  · have h := (List.filter_sublist (p := fun coord => !coord.theta.isNaN && !coord.rho.isNaN)
      ((splitOn (Char.ofNat 10) a.toList).map parseLine)).length_le
    simpa [parseFile] using h
  · intro line hline
    rw [parseFile_append (a ++ "\n" ++ line) b, parseFile_append a line, hline,
      List.append_nil, parseFile_append a b]

/-- Witness of C28: the comment line `# spiral` yields no point, and putting it
between the lines `0 0` and `1 1` leaves their two points. -/
theorem parseFile_distributes_over_lines_witness :
    parseFile "# spiral" = [] ∧
    parseFile ("0 0" ++ "\n" ++ "# spiral" ++ "\n" ++ "1 1") = parseFile ("0 0" ++ "\n" ++ "1 1") :=
  have h : parseFile "# spiral" = [] := by decide!
  ⟨h, (parseFile_distributes_over_lines "0 0" "1 1").2.2.2 "# spiral" h⟩

/-! ## Rotation of a pattern (C29) -/

theorem segmentDistance_cosines (maxRadius : ℝ) (prev curr : PolarPoint) :
    segmentDistance maxRadius prev curr =
      Real.sqrt (maxRadius ^ 2 *
        (prev.rho ^ 2 + curr.rho ^ 2 -
          2 * prev.rho * curr.rho * Real.cos (curr.theta - prev.theta))) := by
  unfold segmentDistance
  simp only
  congr 1
  rw [Real.cos_sub]
  have h1 := Real.sin_sq_add_cos_sq prev.theta
  have h2 := Real.sin_sq_add_cos_sq curr.theta
  linear_combination (maxRadius ^ 2 * curr.rho ^ 2) * h2 + (maxRadius ^ 2 * prev.rho ^ 2) * h1

theorem calculateDrawingTime_eq_sum (coordinates : List PolarPoint) (robotConfig : RobotConfig) :
    calculateDrawingTime coordinates robotConfig =
      if coordinates.length < 2 then 0
      else
        (List.zipWith (segmentDistance (maxRadius robotConfig)) coordinates
          coordinates.tail).sum / avgSpeed robotConfig := by
  unfold calculateDrawingTime
  split_ifs with h
  · rfl
  · simp only [maxRadius, avgSpeed]
    rw [foldl_add_eq_sum, zero_add, loop_eq_zipWith (segmentDistance _)]

theorem zipWith_sum_nonneg (g : PolarPoint → PolarPoint → ℝ) (hg : ∀ a b, 0 ≤ g a b)
    (l1 l2 : List PolarPoint) : 0 ≤ (List.zipWith g l1 l2).sum := by
  induction l1 generalizing l2 with
  | nil => simp
  | cons a l1 ih =>
    cases l2 with
    | nil => simp
    | cons b l2 =>
      simp only [List.zipWith_cons_cons, List.sum_cons]
      exact add_nonneg (hg a b) (ih l2)

/-- C29: over real arithmetic the draw-time estimate is invariant under
rotation of the pattern and non-negative.  For every pattern, every geometry
config with positive `avgSpeed` and every angle `d`, adding `d` to the theta of
every point leaves `calculateDrawingTime` unchanged, and the estimate is at
least 0; each segment length depends only on the two radii and the difference
of the two angles (law of cosines). -/
theorem calculateDrawingTime_rotation_invariant (coordinates : List PolarPoint)
    (robotConfig : RobotConfig) (d : ℝ) (hspeed : 0 < avgSpeed robotConfig) :
    calculateDrawingTime (rotate d coordinates) robotConfig =
      calculateDrawingTime coordinates robotConfig ∧
    0 ≤ calculateDrawingTime coordinates robotConfig ∧
    (∀ (radius : ℝ) (prev curr : PolarPoint),
      segmentDistance radius prev curr =
        Real.sqrt (radius ^ 2 *
          (prev.rho ^ 2 + curr.rho ^ 2 -
            2 * prev.rho * curr.rho * Real.cos (curr.theta - prev.theta)))) := by
  refine ⟨?_, ?_, segmentDistance_cosines⟩
  · rw [calculateDrawingTime_eq_sum, calculateDrawingTime_eq_sum]
    have hlen : (rotate d coordinates).length = coordinates.length := by
      simp [rotate]
    rw [hlen]
    split_ifs with h
    · rfl
    · congr 1
      unfold rotate
      rw [← List.map_tail, List.zipWith_map]
      have hf : (fun a b : PolarPoint =>
          segmentDistance (maxRadius robotConfig) { theta := a.theta + d, rho := a.rho }
            { theta := b.theta + d, rho := b.rho }) =
          segmentDistance (maxRadius robotConfig) := by
        funext a b
        rw [segmentDistance_cosines, segmentDistance_cosines]
        simp only [add_sub_add_right_eq_sub]
      rw [hf]
  · rw [calculateDrawingTime_eq_sum]
    split_ifs with h
    · exact le_refl 0
    · exact div_nonneg
        (zipWith_sum_nonneg _ (fun a b => by
          rw [segmentDistance_cosines]
          exact Real.sqrt_nonneg _) _ _)
        (le_of_lt hspeed)

/-- Witness of C29: the pattern (0, 1), (0, 0) under the default config, turned
by one radian. -/
theorem calculateDrawingTime_rotation_invariant_witness :
    0 < avgSpeed RobotConfig.init ∧
    calculateDrawingTime (rotate 1 [{ theta := 0, rho := 1 }, { theta := 0, rho := 0 }])
        RobotConfig.init =
      calculateDrawingTime [{ theta := 0, rho := 1 }, { theta := 0, rho := 0 }]
        RobotConfig.init :=
  have h : 0 < avgSpeed RobotConfig.init := by
    simp only [avgSpeed, RobotConfig.init]
    norm_num
  ⟨h, (calculateDrawingTime_rotation_invariant
    [{ theta := 0, rho := 1 }, { theta := 0, rho := 0 }] RobotConfig.init 1 h).1⟩

/-! ## Formatting a duration with binary64 quotients (C17) -/

theorem roundHalfEven_bounds (x : ℚ) :
    ⌊x⌋ ≤ roundHalfEven x ∧ (roundHalfEven x : ℚ) ≤ x + 1 / 2 := by
  have h1 : ((⌊x⌋ : Int) : ℚ) ≤ x := Int.floor_le x
  unfold roundHalfEven
  simp only
  split_ifs with c1 c2 c3
  · exact ⟨le_refl _, by linarith⟩
  · refine ⟨by omega, ?_⟩
    push_cast
    linarith
  · exact ⟨le_refl _, by linarith⟩
  · refine ⟨by omega, ?_⟩
    push_cast
    linarith [not_lt.mp c1]

theorem roundBinary64_of_exponent (q : ℚ) (e : Int) (hq : 0 < q)
    (h1 : (2 : ℚ) ^ e ≤ q) (h2 : q < (2 : ℚ) ^ (e + 1)) :
    roundBinary64 q = (roundHalfEven (q * 2 ^ (52 - e)) : ℚ) / 2 ^ (52 - e) := by
  have hb : (1 : ℕ) < 2 := by norm_num
  have hlog : Int.log 2 q = e := by
    have g1 : e ≤ Int.log 2 q :=
      (Int.zpow_le_iff_le_log hb hq).mp (by simpa using h1)
    have g2 : Int.log 2 q < e + 1 :=
      (Int.lt_zpow_iff_log_lt hb hq).mp (by simpa using h2)
    omega
  unfold roundBinary64
  rw [if_neg (ne_of_gt hq), abs_of_pos hq]
  simp only [hlog]

theorem floor_roundBinary64_div (a d : Int) (E : Nat) (ha : 0 ≤ a) (hd : 0 < d)
    (hE : E ≤ 53) (hq : (a : ℚ) / (d : ℚ) < 2 ^ E) (hd2 : (d : ℚ) < 2 ^ (54 - E)) :
    ⌊roundBinary64 ((a : ℚ) / (d : ℚ))⌋ = a / d := by
  have hdq : (0 : ℚ) < (d : ℚ) := by exact_mod_cast hd
  rcases eq_or_lt_of_le ha with h0 | hpos
  · subst h0
    simp [roundBinary64]
  · have hqpos : (0 : ℚ) < (a : ℚ) / (d : ℚ) := div_pos (by exact_mod_cast hpos) hdq
    have hb : (1 : ℕ) < 2 := by norm_num
    have he : Int.log 2 ((a : ℚ) / (d : ℚ)) < (E : Int) :=
      (Int.lt_zpow_iff_log_lt hb hqpos).mp (by simpa using hq)
    have h1 := Int.zpow_log_le_self hb hqpos
    have h2 := Int.lt_zpow_succ_log_self hb ((a : ℚ) / (d : ℚ))
    rw [roundBinary64_of_exponent _ _ hqpos (by simpa using h1) (by simpa using h2)]
    generalize Int.log 2 ((a : ℚ) / (d : ℚ)) = e at he
    obtain ⟨k, hk⟩ : ∃ k : ℕ, 52 - e = (k : Int) := ⟨(52 - e).toNat, by omega⟩
    rw [hk, zpow_natCast]
    have hPpos : (0 : ℚ) < 2 ^ k := by positivity
    obtain ⟨hlo, hhi⟩ := roundHalfEven_bounds ((a : ℚ) / (d : ℚ) * 2 ^ k)
    have hn : ⌊(a : ℚ) / (d : ℚ)⌋ = a / d := floor_intCast_div a d hd
    have hnle : ((a / d : Int) : ℚ) ≤ (a : ℚ) / (d : ℚ) := by
      rw [← hn]
      exact Int.floor_le _
    rw [Int.floor_eq_iff]
    constructor
    · rw [le_div_iff₀ hPpos]
      have hint : ((a / d : Int) : ℚ) * 2 ^ k = (((a / d) * 2 ^ k : Int) : ℚ) := by
        push_cast
        ring
      have hfl : (a / d) * 2 ^ k ≤ ⌊(a : ℚ) / (d : ℚ) * 2 ^ k⌋ := by
        rw [Int.le_floor, ← hint]
        exact mul_le_mul_of_nonneg_right hnle (le_of_lt hPpos)
      rw [hint]
      exact_mod_cast le_trans hfl hlo
    · rw [div_lt_iff₀ hPpos]
      have hrem : a % d ≤ d - 1 := by
        have := Int.emod_lt_of_pos a hd
        omega
      have hdecomp : (a : ℚ) = (d : ℚ) * ((a / d : Int) : ℚ) + ((a % d : Int) : ℚ) := by
        exact_mod_cast (Int.ediv_add_emod a d).symm
      have hremq : ((a % d : Int) : ℚ) ≤ (d : ℚ) - 1 := by exact_mod_cast hrem
      have hqle : (a : ℚ) / (d : ℚ) ≤ ((a / d : Int) : ℚ) + 1 - 1 / (d : ℚ) := by
        rw [div_le_iff₀ hdq]
        have : (((a / d : Int) : ℚ) + 1 - 1 / (d : ℚ)) * (d : ℚ) =
            (d : ℚ) * ((a / d : Int) : ℚ) + (d : ℚ) - 1 := by
          field_simp
          ring
        rw [this]
        linarith
      have hpow : (2 : ℚ) ^ (54 - E) ≤ 2 ^ (k + 1) :=
        pow_le_pow_right₀ (by norm_num) (by omega)
      have h2P : (d : ℚ) < 2 * 2 ^ k := by
        have : (2 : ℚ) ^ (k + 1) = 2 * 2 ^ k := by ring
        linarith
      have hhalf : 1 / 2 < 2 ^ k / (d : ℚ) := by
        rw [lt_div_iff₀ hdq]
        linarith
      have hmul : (a : ℚ) / (d : ℚ) * 2 ^ k ≤
          (((a / d : Int) : ℚ) + 1 - 1 / (d : ℚ)) * 2 ^ k :=
        mul_le_mul_of_nonneg_right hqle (le_of_lt hPpos)
      have hexp : (((a / d : Int) : ℚ) + 1 - 1 / (d : ℚ)) * 2 ^ k =
          (((a / d : Int) : ℚ) + 1) * 2 ^ k - 2 ^ k / (d : ℚ) := by
        field_simp
        ring
      linarith

theorem formatDrawingTimeBinary64_parts (s : Int) (hs : 0 < s) (hbound : s < 2 ^ 53) :
    (⌊roundBinary64 ((s : ℚ) / 3600)⌋ = s / 3600) ∧
    (⌊roundBinary64 (jsRemainder (s : ℚ) 3600 / 60)⌋ = s % 3600 / 60) ∧
    (⌊jsRemainder (s : ℚ) 60⌋ = s % 60) := by
  have h3600 : (3600 : ℚ) = ((3600 : Int) : ℚ) := by norm_num
  have h60 : (60 : ℚ) = ((60 : Int) : ℚ) := by norm_num
  have hsq : (s : ℚ) < 2 ^ 53 := by exact_mod_cast hbound
  refine ⟨?_, ?_, (formatDrawingTime_parts (K := ℚ) s hs).2.2⟩
  · rw [h3600]
    refine floor_roundBinary64_div s 3600 42 (le_of_lt hs) (by norm_num) (by norm_num) ?_
      (by norm_num)
    rw [div_lt_iff₀ (by norm_num)]
    have : (2 : ℚ) ^ 53 ≤ 2 ^ 42 * ((3600 : Int) : ℚ) := by norm_num
    linarith
  · rw [h3600, jsRemainder_intCast s 3600 (le_of_lt hs) (by norm_num), h60]
    have hr0 : 0 ≤ s % 3600 := Int.emod_nonneg s (by norm_num)
    have hr1 : s % 3600 < 3600 := Int.emod_lt_of_pos s (by norm_num)
    refine floor_roundBinary64_div (s % 3600) 60 6 hr0 (by norm_num) (by norm_num) ?_
      (by norm_num)
    rw [div_lt_iff₀ (by norm_num)]
    have : ((s % 3600 : Int) : ℚ) < 3600 := by exact_mod_cast hr1
    have h64 : (3600 : ℚ) ≤ 2 ^ 6 * ((60 : Int) : ℚ) := by norm_num
    linarith

/-- C17, counterexample: for the whole number of seconds `4e19`, which is a
binary64 number, `s div 3600` is 11111111111111111, but the quotient
`seconds / 3600` is rounded to the binary64 number 11111111111111112 before
`Math.floor`, so the text is `11111111111111112h 6m 40s` and the three parts
do not add up to `s`. -/
theorem formatDrawingTime_large_hours_are_rounded :
    formatDrawingTimeBinary64 (some 40000000000000000000) = "11111111111111112h 6m 40s" ∧
    (40000000000000000000 : Int) / 3600 = 11111111111111111 ∧
    (3600 * 11111111111111112 + 60 * 6 + 40 : Int) ≠ 40000000000000000000 ∧
    roundBinary64 (40000000000000000000 / 3600) = 11111111111111112 := by
  have hhours : roundBinary64 (40000000000000000000 / 3600) = 11111111111111112 := by
    rw [roundBinary64_of_exponent _ 53 (by norm_num) (by norm_num) (by norm_num)]
    have harg : (40000000000000000000 / 3600 : ℚ) * 2 ^ ((52 : Int) - 53) =
        50000000000000000 / 9 := by
      norm_num
    have hr : roundHalfEven (50000000000000000 / 9) = 5555555555555556 := by decide!
    rw [harg, hr]
    norm_num
  refine ⟨?_, by decide, by decide, hhours⟩
  have hrem : jsRemainder (40000000000000000000 : ℚ) 3600 = 400 := by
    have h := jsRemainder_intCast (K := ℚ) 40000000000000000000 3600 (by decide) (by decide)
    have hmod : (40000000000000000000 : Int) % 3600 = 400 := by decide
    rw [hmod] at h
    exact_mod_cast h
  have hmin : ⌊roundBinary64 (jsRemainder (40000000000000000000 : ℚ) 3600 / 60)⌋ = 6 := by
    rw [hrem]
    have h := floor_roundBinary64_div 400 60 6 (by decide) (by decide) (by decide)
      (by norm_num) (by norm_num)
    have hdiv : (400 : Int) / 60 = 6 := by decide
    have hcast : (((400 : Int) : ℚ) / ((60 : Int) : ℚ)) = 400 / 60 := by norm_num
    rw [hdiv, hcast] at h
    exact h
  have hsec : ⌊jsRemainder (40000000000000000000 : ℚ) 60⌋ = 40 := by
    have h := jsRemainder_intCast (K := ℚ) 40000000000000000000 60 (by decide) (by decide)
    have hmod : (40000000000000000000 : Int) % 60 = 40 := by decide
    rw [hmod] at h
    have h' : jsRemainder (40000000000000000000 : ℚ) 60 = ((40 : Int) : ℚ) := by
      exact_mod_cast h
    rw [h', Int.floor_intCast]
  have hfl : ⌊(11111111111111112 : ℚ)⌋ = 11111111111111112 := by
    have : (11111111111111112 : ℚ) = ((11111111111111112 : Int) : ℚ) := by norm_num
    rw [this, Int.floor_intCast]
  have hpos : ¬ ((40000000000000000000 : ℚ) = 0 ∨ (40000000000000000000 : ℚ) < 0) := by
    norm_num
  simp only [formatDrawingTimeBinary64, hpos, if_false, hhours, hfl, hmin, hsec]
  decide!

/-- C17, amended: for every whole number of seconds `s ≠ 0`: if `s < 0` the
text is `N/A`; if `0 < s < 2 ^ 53` (the whole numbers a binary64 number holds
one by one), then with `h = s div 3600`, `m = (s mod 3600) div 60` and
`c = s mod 60` (so `3600 h + 60 m + c = s`, `m < 60`, `c < 60`) the text is
`<h>h <m>m <c>s` when `h > 0`, `<m>m <c>s` when `h = 0` and `m > 0`, and `<c>s`
otherwise, `<n>` being the decimal digits of `n`; the rounding of the two
quotients to binary64 changes nothing there, the text being that of the exact
computation.  So 65 gives `1m 5s`, 3661 gives `1h 1m 1s` and -1 gives `N/A`. -/
theorem formatDrawingTimeBinary64_integer (s : Int) (hs : s ≠ 0) (hbound : s < 2 ^ 53) :
    (s < 0 → formatDrawingTimeBinary64 (some (s : ℚ)) = "N/A") ∧
    (0 < s →
      (3600 * (s / 3600) + 60 * (s % 3600 / 60) + s % 60 = s ∧
        0 ≤ s % 3600 / 60 ∧ s % 3600 / 60 < 60 ∧ 0 ≤ s % 60 ∧ s % 60 < 60) ∧
      formatDrawingTimeBinary64 (some (s : ℚ)) =
        (if 0 < s / 3600 then
          integerText (s / 3600) ++ "h " ++ integerText (s % 3600 / 60) ++ "m " ++
            integerText (s % 60) ++ "s"
        else if 0 < s % 3600 / 60 then
          integerText (s % 3600 / 60) ++ "m " ++ integerText (s % 60) ++ "s"
        else integerText (s % 60) ++ "s") ∧
      formatDrawingTimeBinary64 (some (s : ℚ)) = formatDrawingTime (some (s : ℚ))) ∧
    (∀ n : Nat, n < 10 ^ 21 → integerText (n : Int) = String.mk (decimalDigits n)) ∧
    formatDrawingTimeBinary64 (some 65) = "1m 5s" ∧
    formatDrawingTimeBinary64 (some 3661) = "1h 1m 1s" ∧
    formatDrawingTimeBinary64 (some (-1)) = "N/A" := by
  have _ := hs
  have general : ∀ t : Int, 0 < t → t < 2 ^ 53 →
      formatDrawingTimeBinary64 (some (t : ℚ)) =
        (if 0 < t / 3600 then
          integerText (t / 3600) ++ "h " ++ integerText (t % 3600 / 60) ++ "m " ++
            integerText (t % 60) ++ "s"
        else if 0 < t % 3600 / 60 then
          integerText (t % 3600 / 60) ++ "m " ++ integerText (t % 60) ++ "s"
        else integerText (t % 60) ++ "s") ∧
      formatDrawingTimeBinary64 (some (t : ℚ)) = formatDrawingTime (some (t : ℚ)) := by
    intro t hpos hb
    obtain ⟨e1, e2, e3⟩ := formatDrawingTimeBinary64_parts t hpos hb
    obtain ⟨x1, x2, x3⟩ := formatDrawingTime_parts (K := ℚ) t hpos
    have hK : ¬ ((t : ℚ) = 0 ∨ (t : ℚ) < 0) := by
      have h0 : (0 : ℚ) < (t : ℚ) := by exact_mod_cast hpos
      rintro (h | h)
      · exact absurd h (ne_of_gt h0)
      · exact absurd h (not_lt.mpr (le_of_lt h0))
    constructor
    · simp only [formatDrawingTimeBinary64, hK, if_false, e1, e2, e3, gt_iff_lt]
    · simp only [formatDrawingTimeBinary64, formatDrawingTime, hK, if_false, e1, e2, e3, x1,
        x2, x3]
  refine ⟨?_, ?_, integerText_small, ?_, ?_, by decide!⟩
  · intro hneg
    have : (s : ℚ) < 0 := by exact_mod_cast hneg
    simp [formatDrawingTimeBinary64, this]
  · intro hpos
    exact ⟨by omega, (general s hpos hbound).1, (general s hpos hbound).2⟩
  · have h := (general 65 (by decide) (by decide)).1
    have hc : ((65 : Int) : ℚ) = 65 := by norm_num
    rw [hc] at h
    rw [h]
    decide!
  · have h := (general 3661 (by decide) (by decide)).1
    have hc : ((3661 : Int) : ℚ) = 3661 := by norm_num
    rw [hc] at h
    rw [h]
    decide!

/-- Witness of C17 amended: 3661 seconds are 1 hour, 1 minute and 1 second. -/
theorem formatDrawingTimeBinary64_integer_witness :
    ((3661 : Int) ≠ 0 ∧ (3661 : Int) < 2 ^ 53 ∧ (0 : Int) < 3661) ∧
    3600 * ((3661 : Int) / 3600) + 60 * (3661 % 3600 / 60) + 3661 % 60 = 3661 :=
  ⟨⟨by decide, by decide, by decide⟩,
    ((formatDrawingTimeBinary64_integer 3661 (by decide) (by decide)).2.1 (by decide)).1.1⟩

/-! ## History identities (C21) -/

/-- C21: the ids of the ledger are not always distinct.  For every clock
reading and every draw, two plays that read the same `Date.now()` and draw the
same `Math.random()` record two entries with the same id, whatever the files;
nothing in `addToHistory` compares the id with those of the ledger.  So `a.thr`
played twice at the reading 1762300800000 with the draw 0.5 both times has the
id 1762300800000.5 twice.  In the code the sum is moreover rounded to binary64,
which at that reading keeps 12 fractional bits: the two different draws `0.5`
and `0.5 + 2 ^ (-20)` give the same binary64 sum. -/
theorem history_ids_collide (env : Ambient) (first second : String)
    (playStartTime : Option JsDate) (w : World)
    (h1 : first ≠ "") (h2 : second ≠ "") :
    (∃ older newer : HistoryEntry,
      (addToHistory env second playStartTime
        (addToHistory env first playStartTime w)).state.fileHistory =
        newer :: older :: w.state.fileHistory ∧
      older.fileName = first ∧ newer.fileName = second ∧ newer.id = older.id) ∧
    (addToHistory
      { newDate := { toLocaleString := "noon" }, dateNow := 1762300800000, mathRandom := 1 / 2 }
      "a.thr" none
      (addToHistory
        { newDate := { toLocaleString := "noon" }, dateNow := 1762300800000, mathRandom := 1 / 2 }
        "a.thr" none World.init)).state.fileHistory.map (fun entry => entry.id) =
      [1762300800000 + 1 / 2, 1762300800000 + 1 / 2] ∧
    roundBinary64 (1762300800000 + 1 / 2) = 1762300800000 + 1 / 2 ∧
    roundBinary64 (1762300800000 + (1 / 2 + 1 / 2 ^ 20)) = 1762300800000 + 1 / 2 := by
  refine ⟨?_, ?_, ?_, ?_⟩
  · refine ⟨{ fileName := first
              playTimestamp := (playStartTime.getD env.newDate).toLocaleString
              id := env.dateNow + env.mathRandom },
      { fileName := second
        playTimestamp := (playStartTime.getD env.newDate).toLocaleString
        id := env.dateNow + env.mathRandom }, ?_, rfl, rfl, rfl⟩
    cases playStartTime <;> simp [addToHistory, h1, h2, World.setState]
  · simp [addToHistory, World.setState, World.init, State.init]
  · rw [roundBinary64_of_exponent _ 40 (by norm_num) (by norm_num) (by norm_num)]
    have harg : ((1762300800000 + 1 / 2 : ℚ)) * 2 ^ ((52 : Int) - 40) = 7218384076802048 := by
      norm_num
    have hr : roundHalfEven 7218384076802048 = 7218384076802048 := by decide!
    rw [harg, hr]
    norm_num
  · rw [roundBinary64_of_exponent _ 40 (by norm_num) (by norm_num) (by norm_num)]
    have harg : ((1762300800000 + (1 / 2 + 1 / 2 ^ 20) : ℚ)) * 2 ^ ((52 : Int) - 40) =
        7218384076802048 + 1 / 256 := by
      norm_num
    have hr : roundHalfEven (7218384076802048 + 1 / 256) = 7218384076802048 := by decide!
    rw [harg, hr]
    norm_num

/-- Witness of C21: `a.thr` played twice with the same reading and the same
draw. -/
theorem history_ids_collide_witness :
    ("a.thr" ≠ "" ∧ "a.thr" ≠ "") ∧
    ∃ older newer : HistoryEntry,
      (addToHistory
        { newDate := { toLocaleString := "noon" }, dateNow := 1762300800000, mathRandom := 1 / 2 }
        "a.thr" none
        (addToHistory
          { newDate := { toLocaleString := "noon" }, dateNow := 1762300800000,
            mathRandom := 1 / 2 }
          "a.thr" none World.init)).state.fileHistory =
        newer :: older :: World.init.state.fileHistory ∧
      older.fileName = "a.thr" ∧ newer.fileName = "a.thr" ∧ newer.id = older.id :=
  ⟨⟨by decide, by decide⟩,
    (history_ids_collide
      { newDate := { toLocaleString := "noon" }, dateNow := 1762300800000, mathRandom := 1 / 2 }
      "a.thr" "a.thr" none World.init (by decide) (by decide)).1⟩

end SandBot
